import Mathlib

/-!
# Ma27SymLinearSolver: a shallow embedding

Embedding of `src/PDSystemImpl/PDFullSpace/IpMa27SymLinearSolver.cpp`.

Conventions.
* The C++ type `Number` (double) is a type parameter `α`, a linearly ordered field with a
  floor function.  All definitions are computable (for instance at `α := ℚ`); statements about
  exact real arithmetic instantiate `α := ℝ`.
* `std::pow` is a parameter `pow : α → α → α`.
* In the first embedding `ipfint` / `Index` values are unbounded integers, products are exact,
  arrays are lists, and `new T[n]` yields `n` zero entries; the limits of the machine are left
  out of it.
* The statements about the growth of the workspaces in `Factorization` (the enlargement of a
  marked workspace, the reallocation in the retry loop, its termination) are made over a
  second, checked embedding of `Factorization` (section "The checked embedding of
  `Factorization`"), with 32-bit `ipfint`, rounded double products, allocations that can fail,
  and fresh arrays of indeterminate contents.
* The Fortran routines MA27ID/AD/BD/CD are a black box, the record `Kernel`.  Each routine
  receives, besides its Fortran arguments, the number of kernel invocations made so far, so
  that a kernel may answer the same arguments differently at different times.
* The engine carries a ghost field `log` that records every kernel invocation; it has no
  counterpart in the C++ object and is only appended to.
* The retry loop of `Factorization` need not terminate; it is given fuel and returns `none`
  when the fuel runs out.
-/

namespace Ipopt

/-- Return values of the solver, `SymLinearSolver::ESolveStatus`. -/
inductive ESolveStatus
  | S_SUCCESS
  | S_SINGULAR
  | S_WRONG_INERTIA
  | S_FATAL_ERROR
deriving DecidableEq, Repr

/-- Exceptions raised by `ASSERT_EXCEPTION` in this file. -/
inductive Exception
  | OPTION_OUT_OF_RANGE
deriving DecidableEq, Repr

/-- The C++ conversion `(ipfint)(x)` of a double: truncation toward zero. -/
def trunc {α : Type} [LinearOrderedField α] [FloorRing α] (x : α) : Int :=
  if 0 ≤ x then ⌊x⌋ else ⌈x⌉

/-- The C++ expression `new T[n]`: an array of `n` entries (contents indeterminate in C++,
zeros here). -/
def newArray {β : Type} [Zero β] (n : Int) : List β :=
  List.replicate n.toNat 0

/-- Modelled from the spec: the Sparse Matrix View (class `SymMatrix`, not under src/), "an
abstract symmetric sparse matrix exposing dimension, nonzero count, triplet (row, column, value)
extraction, and a change-tracking tag". -/
structure SymMatrix (α : Type) where
  dim : Int
  irn : List Int
  jcn : List Int
  vals : List α
  tag : Nat

namespace SymMatrix

variable {α : Type}

/-- Modelled from the spec: `SymMatrix::Dim()`. -/
def Dim (A : SymMatrix α) : Int := A.dim

/-- Modelled from the spec: `TaggedObject::GetTag()`. -/
def GetTag (A : SymMatrix α) : Nat := A.tag

/-- Modelled from the spec: `TaggedObject::HasChanged(tag)`, "detect numeric change via the
matrix's change tag": true when the given tag differs from the matrix's tag. -/
def HasChanged (A : SymMatrix α) (comparison_tag : Nat) : Bool := comparison_tag != A.tag

end SymMatrix

namespace TripletHelper

variable {α : Type}

/-- Modelled from the spec: `TripletHelper::GetNumberEntries`, the nonzero count. -/
def GetNumberEntries (A : SymMatrix α) : Int := (A.irn.length : Int)

/-- Modelled from the spec: `TripletHelper::FillRowCol`, the triplet positions written over the
first `n_entries` places of the two index arrays. -/
def FillRowCol (n_entries : Int) (A : SymMatrix α) (iRow jCol : List Int) :
    List Int × List Int :=
  (A.irn.take n_entries.toNat ++ iRow.drop n_entries.toNat,
   A.jcn.take n_entries.toNat ++ jCol.drop n_entries.toNat)

/-- Modelled from the spec: `TripletHelper::FillValues`, the triplet values written over the
first `n_entries` places of `values`. -/
def FillValues (n_entries : Int) (A : SymMatrix α) (values : List α) : List α :=
  A.vals.take n_entries.toNat ++ values.drop n_entries.toNat

/-- Modelled from the spec: `TripletHelper::FillValuesFromVector`, the first `dim` values of a
vector written over the first `dim` places of `values`. -/
def FillValuesFromVector (dim : Int) (vector values : List α) : List α :=
  vector.take dim.toNat ++ values.drop dim.toNat

/-- Modelled from the spec: `TripletHelper::PutValuesInVector`, the first `dim` places of
`values` written into the vector. -/
def PutValuesInVector (dim : Int) (values vector : List α) : List α :=
  values.take dim.toNat ++ vector.drop dim.toNat

end TripletHelper

/-- Modelled from the spec: `OptionsList::GetNumericValue(tag, value, prefix)` (class not under
src/): `some value` when the option was supplied, `none` when it was not. -/
structure OptionsList (α : Type) where
  GetNumericValue : String → String → Option α

/-- What MA27AD writes: the arrays `IW`, `IKEEP`, `NSTEPS`, and of `INFO` the entries
`INFO[0]` (iflag), `INFO[1]` (ierror), `INFO[4]` (nrlnec), `INFO[5]` (nirnec). -/
structure Ma27adOut where
  iw : List Int
  ikeep : List Int
  nsteps : Int
  iflag : Int
  ierror : Int
  nrlnec : Int
  nirnec : Int
deriving DecidableEq, Repr

/-- What MA27BD writes: the arrays `A`, `IW`, `MAXFRT`, and of `INFO` the entries `INFO[0]`
(iflag), `INFO[1]` (ierror), `INFO[11]` (ncmpbr), `INFO[12]` (ncmpbi), `INFO[14]` (negevals). -/
structure Ma27bdOut (α : Type) where
  a : List α
  iw : List Int
  maxfrt : Int
  iflag : Int
  ierror : Int
  ncmpbr : Int
  ncmpbi : Int
  negevals : Int
deriving DecidableEq, Repr

/-- The external Fortran routines.  The first argument of AD, BD and CD is the number of kernel
invocations made before this one; the others are the arguments of the Fortran prototype that
the routine reads. -/
structure Kernel (α : Type) where
  /-- MA27ID: default `ICNTL` and `CNTL`. -/
  ma27id : List Int × List α
  /-- MA27AD (N, NZ, IRN, ICN, IW, LIW, IKEEP, ICNTL, CNTL). -/
  ma27ad : Nat → Int → Int → List Int → List Int → List Int → Int → List Int →
    List Int → List α → Ma27adOut
  /-- MA27BD (N, NZ, IRN, ICN, A, LA, IW, LIW, IKEEP, NSTEPS, ICNTL, CNTL). -/
  ma27bd : Nat → Int → Int → List Int → List Int → List α → Int → List Int → Int →
    List Int → Int → List Int → List α → Ma27bdOut α
  /-- MA27CD (N, A, LA, IW, LIW, MAXFRT, RHS, NSTEPS, ICNTL, CNTL): the overwritten `RHS`. -/
  ma27cd : Nat → Int → List α → Int → List Int → Int → Int → List α → Int →
    List Int → List α → List α

/-- One kernel invocation, as recorded in the ghost log. -/
inductive KernelCall (α : Type)
  /-- MA27AD was called with this `LIW` and answered `out`. -/
  | ad (liw : Int) (out : Ma27adOut)
  /-- MA27BD was called with these `A`, `LA`, `LIW`, `CNTL` and answered `out`. -/
  | bd (a : List α) (la liw : Int) (cntl : List α) (out : Ma27bdOut α)
  /-- MA27CD was called with this right-hand side and answered `sol`. -/
  | cd (rhs : List α) (sol : List α)
deriving DecidableEq, Repr

namespace KernelCall

variable {α : Type}

/-- Is this an invocation of MA27AD? -/
def isAd : KernelCall α → Bool
  | ad _ _ => true
  | _ => false

/-- Is this an invocation of MA27BD? -/
def isBd : KernelCall α → Bool
  | bd _ _ _ _ _ => true
  | _ => false

/-- Is this an invocation of MA27CD? -/
def isCd : KernelCall α → Bool
  | cd _ _ => true
  | _ => false

end KernelCall

/-- The data members of class `Ma27SymLinearSolver`, and the ghost `log`. -/
structure Ma27SymLinearSolver (α : Type) where
  atag_ : Nat
  dim_ : Int
  nonzeros_ : Int
  initialized_ : Bool
  factorized_ : Bool
  airn_ : List Int
  ajcn_ : List Int
  liw_ : Int
  iw_ : List Int
  ikeep_ : List Int
  la_ : Int
  a_ : List α
  la_increase_ : Bool
  liw_increase_ : Bool
  pivtol_ : α
  pivtolmax_ : α
  liw_init_factor_ : α
  la_init_factor_ : α
  meminc_factor_ : α
  icntl_ : List Int
  cntl_ : List α
  nsteps_ : Int
  maxfrt_ : Int
  negevals_ : Int
  log : List (KernelCall α)

variable {α : Type} [LinearOrderedField α] [FloorRing α]

/-- The constructor `Ma27SymLinearSolver::Ma27SymLinearSolver()`.  The members it does not
initialise are indeterminate in C++; they are taken from `indet`. -/
def Ma27SymLinearSolver.ctor (indet : Ma27SymLinearSolver α) : Ma27SymLinearSolver α :=
  { indet with
    atag_ := 0, dim_ := 0, nonzeros_ := 0, initialized_ := false, factorized_ := false,
    airn_ := [], ajcn_ := [], liw_ := 0, iw_ := [], ikeep_ := [], la_ := 0, a_ := [],
    la_increase_ := false, liw_increase_ := false, log := [] }

/-- The method `Ma27SymLinearSolver::InitializeImpl` (build without IP_DEBUG).  Each option is
read as in the source: when `GetNumericValue` finds it, `ASSERT_EXCEPTION` checks its range and
the value is stored, otherwise the default is stored.  When the exception is raised the result
carries no engine (in C++ the members assigned before the throw stay assigned). -/
def InitializeImpl (K : Kernel α) (options : OptionsList α) (pfx : String)
    (s : Ma27SymLinearSolver α) : Except Exception (Bool × Ma27SymLinearSolver α) :=
  match (match options.GetNumericValue "pivtol" pfx with
    | some value =>
      if value > 0 ∧ value < 1 then Except.ok { s with pivtol_ := value }
      else Except.error Exception.OPTION_OUT_OF_RANGE
    | none => Except.ok { s with pivtol_ := 1e-8 }) with
  | Except.error e => Except.error e
  | Except.ok s =>
  match (match options.GetNumericValue "pivtolmax" pfx with
    | some value =>
      if value ≥ s.pivtol_ ∧ value < 1 then Except.ok { s with pivtolmax_ := value }
      else Except.error Exception.OPTION_OUT_OF_RANGE
    | none => Except.ok { s with pivtolmax_ := 1e-4 }) with
  | Except.error e => Except.error e
  | Except.ok s =>
  match (match options.GetNumericValue "liw_init_factor" pfx with
    | some value =>
      if value ≥ 1 then Except.ok { s with liw_init_factor_ := value }
      else Except.error Exception.OPTION_OUT_OF_RANGE
    | none => Except.ok { s with liw_init_factor_ := 5 }) with
  | Except.error e => Except.error e
  | Except.ok s =>
  match (match options.GetNumericValue "la_init_factor" pfx with
    | some value =>
      if value ≥ 1 then Except.ok { s with la_init_factor_ := value }
      else Except.error Exception.OPTION_OUT_OF_RANGE
    | none => Except.ok { s with la_init_factor_ := 5 }) with
  | Except.error e => Except.error e
  | Except.ok s =>
  match (match options.GetNumericValue "meminc_factor" pfx with
    | some value =>
      if value > 1 then Except.ok { s with meminc_factor_ := value }
      else Except.error Exception.OPTION_OUT_OF_RANGE
    | none => Except.ok { s with meminc_factor_ := 10 }) with
  | Except.error e => Except.error e
  | Except.ok s =>
  -- Set the default options for MA27, then the pivot tolerance
  let s := { s with icntl_ := K.ma27id.1, cntl_ := K.ma27id.2 }
  let s := { s with cntl_ := s.cntl_.set 0 s.pivtol_ }
  let s := { s with icntl_ := (s.icntl_.set 0 0).set 1 0 }
  -- Reset all private data
  Except.ok (true,
    { s with
      atag_ := 0, dim_ := 0, nonzeros_ := 0, initialized_ := false, factorized_ := false,
      la_increase_ := false, liw_increase_ := false })

/-- The method `Ma27SymLinearSolver::InitializeStructure`. -/
def InitializeStructure (sym_A : SymMatrix α) (s : Ma27SymLinearSolver α) :
    Ma27SymLinearSolver α :=
  let s := { s with dim_ := sym_A.Dim, nonzeros_ := TripletHelper.GetNumberEntries sym_A }
  let rc := TripletHelper.FillRowCol s.nonzeros_ sym_A (newArray s.nonzeros_)
    (newArray s.nonzeros_)
  { s with airn_ := rc.1, ajcn_ := rc.2, initialized_ := true, factorized_ := false }

/-- Lines 234-247 of `SymbolicFactorization`: the workspace `iw_` and the array `ikeep_` for
the call of MA27AD. -/
def SymbolicFactorization.prepare (s : Ma27SymLinearSolver α) : Ma27SymLinearSolver α :=
  let LiwFact : α := 2
  let s := { s with liw_ := trunc (LiwFact * ((2 * s.nonzeros_ + 3 * s.dim_ + 1 : Int) : α)) }
  let s := { s with iw_ := newArray s.liw_ }
  { s with ikeep_ := newArray (3 * s.dim_) }

/-- Lines 249-258 of `SymbolicFactorization`: the answer of MA27AD. -/
def SymbolicFactorization.callMa27ad (K : Kernel α) (s : Ma27SymLinearSolver α) : Ma27adOut :=
  let s := SymbolicFactorization.prepare s
  K.ma27ad s.log.length s.dim_ s.nonzeros_ s.airn_ s.ajcn_ s.iw_ s.liw_ s.ikeep_
    s.icntl_ s.cntl_

/-- The method `Ma27SymLinearSolver::SymbolicFactorization`. -/
def SymbolicFactorization (K : Kernel α) (s : Ma27SymLinearSolver α) :
    ESolveStatus × Ma27SymLinearSolver α :=
  let out := SymbolicFactorization.callMa27ad K s
  let s := SymbolicFactorization.prepare s
  let s := { s with iw_ := out.iw, ikeep_ := out.ikeep, nsteps_ := out.nsteps,
                    log := s.log ++ [KernelCall.ad s.liw_ out] }
  -- Receive several information
  let iflag := out.iflag
  let nrlnec := out.nrlnec
  let nirnec := out.nirnec
  -- Check if error occurred
  if iflag ≠ 0 then (ESolveStatus.S_FATAL_ERROR, s)
  else
    -- Reserve memory for iw_ for later calls, based on suggested size
    let s := { s with liw_ := trunc (s.liw_init_factor_ * (nirnec : α)) }
    let s := { s with iw_ := newArray s.liw_ }
    -- Reserve memory for a_
    let s := { s with la_ := max s.nonzeros_ (trunc (s.la_init_factor_ * (nrlnec : α))) }
    let s := { s with a_ := newArray s.la_ }
    (ESolveStatus.S_SUCCESS, s)

/-- Lines 325-343 of `Factorization`: the matrix values are copied into `a_` and MA27BD is
called; this is its answer. -/
def Factorization.callMa27bd (K : Kernel α) (A : SymMatrix α) (s : Ma27SymLinearSolver α) :
    Ma27bdOut α :=
  K.ma27bd s.log.length s.dim_ s.nonzeros_ s.airn_ s.ajcn_
    (TripletHelper.FillValues s.nonzeros_ A s.a_) s.la_ s.iw_ s.liw_ s.ikeep_ s.nsteps_
    s.icntl_ s.cntl_

/-- Lines 325-350 of `Factorization`: the engine after one call of MA27BD, with what the
kernel wrote into `a_`, `iw_`, `maxfrt_`, and with `negevals_ = INFO[14]`. -/
def Factorization.receive (K : Kernel α) (A : SymMatrix α) (s : Ma27SymLinearSolver α) :
    Ma27SymLinearSolver α :=
  let out := Factorization.callMa27bd K A s
  { s with
    log := s.log ++ [KernelCall.bd (TripletHelper.FillValues s.nonzeros_ A s.a_) s.la_ s.liw_
      s.cntl_ out],
    a_ := out.a, iw_ := out.iw, maxfrt_ := out.maxfrt, negevals_ := out.negevals }

/-- Lines 358-378 of `Factorization`: both workspaces are discarded and allocated anew, after
the kernel answered `iflag` (-3 or -4) and `ierror`. -/
def Factorization.increaseWorkspace (iflag ierror : Int) (s : Ma27SymLinearSolver α) :
    Ma27SymLinearSolver α :=
  let s :=
    if iflag = -3 then
      { s with liw_ := trunc (s.meminc_factor_ * (ierror : α)),
               la_ := trunc (s.meminc_factor_ * (s.la_ : α)) }
    else
      { s with liw_ := trunc (s.meminc_factor_ * (s.liw_ : α)),
               la_ := trunc (s.meminc_factor_ * (ierror : α)) }
  let s := { s with iw_ := newArray s.liw_ }
  { s with a_ := newArray s.la_ }

/-- The retry loop of `Ma27SymLinearSolver::Factorization` (the `while (!done)` block): copy the
matrix values, call MA27BD, and on status -3 or -4 reallocate both workspaces and go round
again.  Returns the engine together with `iflag`, `ncmpbr` and `ncmpbi` of the last call, or
`none` when the fuel is used up. -/
def FactorizationLoop (K : Kernel α) (A : SymMatrix α) :
    Nat → Ma27SymLinearSolver α → Option (Ma27SymLinearSolver α × Int × Int × Int)
  | 0, _ => none
  | fuel + 1, s =>
    let out := Factorization.callMa27bd K A s
    let s := Factorization.receive K A s
    -- Receive information about the factorization
    let iflag := out.iflag
    let ierror := out.ierror
    let ncmpbr := out.ncmpbr
    let ncmpbi := out.ncmpbi
    -- Check if factorization failed due to insufficient memory space
    if iflag = -3 ∨ iflag = -4 then
      FactorizationLoop K A fuel (Factorization.increaseWorkspace iflag ierror s)
    else
      some (s, iflag, ncmpbr, ncmpbi)

/-- Lines 294-316 of `Factorization`: a workspace that an earlier factorization marked is
enlarged, and its mark is cleared. -/
def Factorization.growIfMarked (s : Ma27SymLinearSolver α) : Ma27SymLinearSolver α :=
  -- Check if la should be increased
  let s :=
    if s.la_increase_ then
      let s := { s with la_ := trunc (s.meminc_factor_ * (s.la_ : α)) }
      { s with a_ := newArray s.la_, la_increase_ := false }
    else s
  -- Check if liw should be increased
  if s.liw_increase_ then
    let s := { s with liw_ := trunc (s.meminc_factor_ * (s.liw_ : α)) }
    { s with iw_ := newArray s.liw_, liw_increase_ := false }
  else s

/-- Lines 393-406 of `Factorization`: a workspace is marked for enlargement before the next
factorization when the kernel reported at least 10 compressions of it. -/
def Factorization.markIfCompressed (ncmpbr ncmpbi : Int) (s : Ma27SymLinearSolver α) :
    Ma27SymLinearSolver α :=
  let s := if ncmpbr ≥ 10 then { s with la_increase_ := true } else s
  if ncmpbi ≥ 10 then { s with liw_increase_ := true } else s

/-- The method `Ma27SymLinearSolver::Factorization`; `none` when the retry loop uses up the
fuel. -/
def Factorization (K : Kernel α) (fuel : Nat) (A : SymMatrix α) (check_NegEVals : Bool)
    (numberOfNegEVals : Int) (s : Ma27SymLinearSolver α) :
    Option (ESolveStatus × Ma27SymLinearSolver α) :=
  let s := Factorization.growIfMarked s
  -- Call MA27BD; possibly repeatedly if workspaces are too small
  match FactorizationLoop K A fuel s with
  | none => none
  | some (s, iflag, ncmpbr, ncmpbi) =>
    -- Check if the system is singular, and if some other error occurred
    if iflag = -5 ∨ iflag = 3 then some (ESolveStatus.S_SINGULAR, s)
    else if iflag ≠ 0 then some (ESolveStatus.S_FATAL_ERROR, s)
    else
      -- Check if it might be more efficient to use more memory next time
      let s := Factorization.markIfCompressed ncmpbr ncmpbi s
      -- Check whether the number of negative eigenvalues matches the requested count
      if check_NegEVals ∧ numberOfNegEVals ≠ s.negevals_ then
        some (ESolveStatus.S_WRONG_INERTIA, s)
      else some (ESolveStatus.S_SUCCESS, s)

/-- Lines 430-438 of `Backsolve`, the body of its loop up to the call of MA27CD: the values of
the right-hand side are copied into a scratch array of length `dim_`, which MA27CD overwrites.
Returns the engine (only its log has grown) and the scratch array `sol_vals`. -/
def Backsolve.solveOne (K : Kernel α) (rhs : List α) (s : Ma27SymLinearSolver α) :
    Ma27SymLinearSolver α × List α :=
  let sol_vals := TripletHelper.FillValuesFromVector s.dim_ rhs (newArray s.dim_)
  let sol := K.ma27cd s.log.length s.dim_ s.a_ s.la_ s.iw_ s.liw_ s.maxfrt_ sol_vals
    s.nsteps_ s.icntl_ s.cntl_
  ({ s with log := s.log ++ [KernelCall.cd sol_vals sol] }, sol)

/-- The `for` loop of `Ma27SymLinearSolver::Backsolve`, from index `i` on, over the right-hand
sides that remain. -/
def BacksolveLoop (K : Kernel α) :
    List (List α) → Nat → Ma27SymLinearSolver α → List (List α) →
      Ma27SymLinearSolver α × List (List α)
  | [], _, s, solV => (s, solV)
  | rhs :: rest, i, s, solV =>
    let r := Backsolve.solveOne K rhs s
    -- Put the solution values back into the vector
    BacksolveLoop K rest (i + 1) r.1
      (solV.set i (TripletHelper.PutValuesInVector s.dim_ r.2 (solV.getD i [])))

/-- The method `Ma27SymLinearSolver::Backsolve`. -/
def Backsolve (K : Kernel α) (rhsV solV : List (List α)) (s : Ma27SymLinearSolver α) :
    ESolveStatus × Ma27SymLinearSolver α × List (List α) :=
  let r := BacksolveLoop K rhsV 0 s solV
  (ESolveStatus.S_SUCCESS, r.1, r.2)

/-- Lines 163-165 of `MultiSolve`: capture the structure if this object has never seen a
matrix. -/
def MultiSolve.structureStep (sym_A : SymMatrix α) (s : Ma27SymLinearSolver α) :
    Ma27SymLinearSolver α :=
  if !s.initialized_ then InitializeStructure sym_A s else s

/-- Lines 171-178 of `MultiSolve`: the symbolic manipulations, if `la_ == 0`. -/
def MultiSolve.symbolicStep (K : Kernel α) (s : Ma27SymLinearSolver α) :
    ESolveStatus × Ma27SymLinearSolver α :=
  if s.la_ = 0 then SymbolicFactorization K s else (ESolveStatus.S_SUCCESS, s)

/-- Lines 183-186 of `MultiSolve`: compare the change tag. -/
def MultiSolve.tagStep (sym_A : SymMatrix α) (s : Ma27SymLinearSolver α) :
    Ma27SymLinearSolver α :=
  if sym_A.HasChanged s.atag_ then { s with factorized_ := false, atag_ := sym_A.GetTag }
  else s

/-- The method `Ma27SymLinearSolver::MultiSolve`.  The result holds the returned status, the
engine afterwards and the solution vectors afterwards; `none` when the retry loop of the
factorization uses up the fuel. -/
def MultiSolve (K : Kernel α) (fuel : Nat) (sym_A : SymMatrix α) (rhsV solV : List (List α))
    (check_NegEVals : Bool) (numberOfNegEVals : Int) (s : Ma27SymLinearSolver α) :
    Option (ESolveStatus × Ma27SymLinearSolver α × List (List α)) :=
  let s := MultiSolve.structureStep sym_A s
  -- Perform symbolic manipulations and reserve memory for MA27 data
  match MultiSolve.symbolicStep K s with
  | (retval, s) =>
    if retval ≠ ESolveStatus.S_SUCCESS then some (retval, s, solV)
    else
      -- Check if the matrix data has to be copied into the local data
      let s := MultiSolve.tagStep sym_A s
      -- check if a factorization has to be done
      if !s.factorized_ then
        match Factorization K fuel sym_A check_NegEVals numberOfNegEVals s with
        | none => none
        | some (retval, s) =>
          if retval ≠ ESolveStatus.S_SUCCESS then some (retval, s, solV)
          else some (Backsolve K rhsV solV { s with factorized_ := true })
      else
        -- do the backsolve
        some (Backsolve K rhsV solV s)

/-- The method `Ma27SymLinearSolver::NumberOfNegEVals`. -/
def NumberOfNegEVals (s : Ma27SymLinearSolver α) : Int := s.negevals_

/-- The method `Ma27SymLinearSolver::IncreaseQuality`; `pow` is `std::pow`. -/
def IncreaseQuality (pow : α → α → α) (s : Ma27SymLinearSolver α) :
    Bool × Ma27SymLinearSolver α :=
  if s.pivtol_ = s.pivtolmax_ then (false, s)
  else
    let s := { s with factorized_ := false }
    let s := { s with pivtol_ := min s.pivtolmax_ (pow s.pivtol_ 0.75) }
    (true, s)

/-! ## Vocabulary of the statements -/

namespace KernelCall

variable {α : Type}

/-- The answer of MA27BD, when the invocation is one of MA27BD. -/
def bdOut : KernelCall α → Option (Ma27bdOut α)
  | bd _ _ _ _ out => some out
  | _ => none

/-- The `CNTL` array handed to MA27BD, when the invocation is one of MA27BD. -/
def bdCntl : KernelCall α → Option (List α)
  | bd _ _ _ cntl _ => some cntl
  | _ => none

end KernelCall

/-- The engine `s'` differs from `s` at most in the workspaces (`a_`, `iw_`, their lengths),
in `maxfrt_`, `negevals_`, in the two marks `la_increase_`, `liw_increase_` and in the log. -/
def WorkspaceUpdate (s s' : Ma27SymLinearSolver α) : Prop :=
  s' = { s with
    log := s'.log, a_ := s'.a_, iw_ := s'.iw_, la_ := s'.la_, liw_ := s'.liw_,
    maxfrt_ := s'.maxfrt_, negevals_ := s'.negevals_,
    la_increase_ := s'.la_increase_, liw_increase_ := s'.liw_increase_ }

/-- The status that `Factorization` returns when the last answer of MA27BD has status `iflag`
and reports `negevals` negative eigenvalues. -/
def Factorization.outcome (check_NegEVals : Bool) (numberOfNegEVals : Int)
    (iflag negevals : Int) : ESolveStatus :=
  if iflag = -5 ∨ iflag = 3 then ESolveStatus.S_SINGULAR
  else if iflag ≠ 0 then ESolveStatus.S_FATAL_ERROR
  else if check_NegEVals ∧ numberOfNegEVals ≠ negevals then ESolveStatus.S_WRONG_INERTIA
  else ESolveStatus.S_SUCCESS

/-- The members that only `InitializeImpl` and `IncreaseQuality` assign: the two tolerances,
the three factors and the control arrays handed to the kernel. -/
def Ma27SymLinearSolver.settings (s : Ma27SymLinearSolver α) :
    α × α × α × α × α × List Int × List α :=
  (s.pivtol_, s.pivtolmax_, s.liw_init_factor_, s.la_init_factor_, s.meminc_factor_,
    s.icntl_, s.cntl_)

/-- The engine of `MultiSolve` at its line 189, where it decides whether to factorize: after
the structure step, the symbolic step and the comparison of the change tag. -/
def MultiSolve.beforeFactorization (K : Kernel α) (sym_A : SymMatrix α)
    (s : Ma27SymLinearSolver α) : Ma27SymLinearSolver α :=
  MultiSolve.tagStep sym_A (MultiSolve.symbolicStep K (MultiSolve.structureStep sym_A s)).2

/-- The range conditions of the recognised options, in the spec's words: `pivtol` in (0,1),
`pivtolmax` in [pivtol,1) where a `pivtol` that is not supplied stands at its default, both
init factors at least 1, `meminc_factor` above 1.  An option that is not supplied is in
range. -/
def OptionsInRange (options : OptionsList α) (pfx : String) : Prop :=
  (∀ v ∈ options.GetNumericValue "pivtol" pfx, 0 < v ∧ v < 1) ∧
  (∀ v ∈ options.GetNumericValue "pivtolmax" pfx,
    (options.GetNumericValue "pivtol" pfx).getD 1e-8 ≤ v ∧ v < 1) ∧
  (∀ v ∈ options.GetNumericValue "liw_init_factor" pfx, 1 ≤ v) ∧
  (∀ v ∈ options.GetNumericValue "la_init_factor" pfx, 1 ≤ v) ∧
  (∀ v ∈ options.GetNumericValue "meminc_factor" pfx, 1 < v)

instance OptionsInRange.decidable (options : OptionsList α) (pfx : String) :
    Decidable (OptionsInRange options pfx) := by
  unfold OptionsInRange; infer_instance

/-- The engine after `k` consecutive calls of `IncreaseQuality`. -/
def IncreaseQuality.repeated (pow : α → α → α) : Nat → Ma27SymLinearSolver α →
    Ma27SymLinearSolver α
  | 0, s => s
  | k + 1, s => IncreaseQuality.repeated pow k (IncreaseQuality pow s).2

/-- The engine states that can be reached once `InitializeImpl` has returned: by that return,
and from there by calls of `MultiSolve` that return and by calls of `IncreaseQuality`. -/
inductive ReachableAfterInit (K : Kernel α) (pow : α → α → α) : Ma27SymLinearSolver α → Prop
  | init (options : OptionsList α) (pfx : String) (s0 s : Ma27SymLinearSolver α) (b : Bool) :
      InitializeImpl K options pfx s0 = Except.ok (b, s) → ReachableAfterInit K pow s
  | multiSolve (fuel : Nat) (A : SymMatrix α) (rhsV solV solV' : List (List α)) (chk : Bool)
      (n : Int) (r : ESolveStatus) (s s' : Ma27SymLinearSolver α) :
      ReachableAfterInit K pow s →
      MultiSolve K fuel A rhsV solV chk n s = some (r, s', solV') → ReachableAfterInit K pow s'
  | increaseQuality (s : Ma27SymLinearSolver α) :
      ReachableAfterInit K pow s → ReachableAfterInit K pow (IncreaseQuality pow s).2

/-- The lengths `(LA, LIW)` handed to MA27BD, when the invocation is one of MA27BD. -/
def KernelCall.bdLengths : KernelCall α → Option (Int × Int)
  | KernelCall.bd _ la liw _ _ => some (la, liw)
  | _ => none

/-- A kernel whose reported requirement is never below the length it was given: whenever
MA27BD, called for the matrix `A`, answers status -3 (-4), its `INFO[1]` is at least the `LIW`
(`LA`) of that call. -/
def Kernel.ReportsAtLeastGiven (K : Kernel α) (A : SymMatrix α) : Prop :=
  ∀ s : Ma27SymLinearSolver α,
    ((Factorization.callMa27bd K A s).iflag = -3 →
      s.liw_ ≤ (Factorization.callMa27bd K A s).ierror) ∧
    ((Factorization.callMa27bd K A s).iflag = -4 →
      s.la_ ≤ (Factorization.callMa27bd K A s).ierror)

/-- A kernel with fixed required sizes `Rliw` and `Rla` (non-negative) for the matrix `A`:
MA27BD answers status -3 only while the `LIW` it is given is below `Rliw`, and then reports
`Rliw`; it answers -4 only while `LA` is below `Rla`, and then reports `Rla`. -/
def Kernel.ThresholdWorkspace (K : Kernel α) (A : SymMatrix α) (Rliw Rla : Int) : Prop :=
  0 ≤ Rliw ∧ 0 ≤ Rla ∧
  ∀ s : Ma27SymLinearSolver α,
    ((Factorization.callMa27bd K A s).iflag = -3 →
      s.liw_ < Rliw ∧ (Factorization.callMa27bd K A s).ierror = Rliw) ∧
    ((Factorization.callMa27bd K A s).iflag = -4 →
      s.la_ < Rla ∧ (Factorization.callMa27bd K A s).ierror = Rla)

/-- The vector that `Backsolve` writes for the right-hand side `rhs` when MA27CD is invoked as
kernel invocation number `t` on the engine `s`: the kernel's solve of `rhs`, put into the
solution vector `v`. -/
def Backsolve.solution (K : Kernel α) (s : Ma27SymLinearSolver α) (t : Nat)
    (rhs v : List α) : List α :=
  TripletHelper.PutValuesInVector s.dim_
    (K.ma27cd t s.dim_ s.a_ s.la_ s.iw_ s.liw_ s.maxfrt_
      (TripletHelper.FillValuesFromVector s.dim_ rhs (newArray s.dim_)) s.nsteps_ s.icntl_
      s.cntl_) v

/-- A kernel whose solve is deterministic: what MA27CD returns depends on its Fortran
arguments only, not on how many kernel invocations came before. -/
def Kernel.SolveDeterministic (K : Kernel α) : Prop :=
  ∀ (t t' : Nat) (n : Int) (a : List α) (la : Int) (iw : List Int) (liw maxfrt : Int)
    (rhs : List α) (nsteps : Int) (icntl : List Int) (cntl : List α),
    K.ma27cd t n a la iw liw maxfrt rhs nsteps icntl cntl =
      K.ma27cd t' n a la iw liw maxfrt rhs nsteps icntl cntl

/-- A kernel that never reports a successful factorization from an empty real workspace:
MA27BD answers status 0 only when the `LA` it is handed is not 0.  (The factors need room: a
matrix with no entry at all is singular, and a workspace shorter than the entries is answered
with status -4.) -/
def Kernel.SucceedsOnlySized (K : Kernel α) : Prop :=
  ∀ (t : Nat) (n nz : Int) (irn icn : List Int) (a : List α) (la : Int) (iw : List Int)
    (liw : Int) (ikeep : List Int) (nsteps : Int) (icntl : List Int) (cntl : List α),
    (K.ma27bd t n nz irn icn a la iw liw ikeep nsteps icntl cntl).iflag = 0 → la ≠ 0

/-- The factorization that the log records last is a successful one and is the one the engine
holds: the last call of MA27BD in the log has status 0, every kernel invocation after it is a
call of MA27CD, `negevals_` is the count that call reported, the workspace lengths are those
handed to that call, and the arrays `a_`, `iw_` and `maxfrt_` are what that call wrote. -/
def LastFactorizationHolds (s : Ma27SymLinearSolver α) : Prop :=
  ∃ (pre post : List (KernelCall α)) (a : List α) (la liw : Int) (cntl : List α)
    (out : Ma27bdOut α),
    s.log = pre ++ KernelCall.bd a la liw cntl out :: post ∧
    (∀ e ∈ post, e.isCd = true) ∧ out.iflag = 0 ∧ s.negevals_ = out.negevals ∧
    s.la_ = la ∧ s.liw_ = liw ∧ s.a_ = out.a ∧ s.iw_ = out.iw ∧ s.maxfrt_ = out.maxfrt

/-- The engine states reachable from construction: the constructed engine, and from there
every engine left by a call of `InitializeImpl` that returns, by a call of `MultiSolve` that
returns, or by a call of `IncreaseQuality`. -/
inductive ReachableFromConstruction (K : Kernel α) (pow : α → α → α) :
    Ma27SymLinearSolver α → Prop
  | construct (indet : Ma27SymLinearSolver α) :
      ReachableFromConstruction K pow (Ma27SymLinearSolver.ctor indet)
  | init (options : OptionsList α) (pfx : String) (s s' : Ma27SymLinearSolver α)
      (b : Bool) :
      ReachableFromConstruction K pow s →
      InitializeImpl K options pfx s = Except.ok (b, s') → ReachableFromConstruction K pow s'
  | multiSolve (fuel : Nat) (A : SymMatrix α) (rhsV solV solV' : List (List α)) (chk : Bool)
      (n : Int) (r : ESolveStatus) (s s' : Ma27SymLinearSolver α) :
      ReachableFromConstruction K pow s →
      MultiSolve K fuel A rhsV solV chk n s = some (r, s', solV') →
      ReachableFromConstruction K pow s'
  | increaseQuality (s : Ma27SymLinearSolver α) :
      ReachableFromConstruction K pow s →
      ReachableFromConstruction K pow (IncreaseQuality pow s).2

/-- A kernel over any number type whose every routine answers status 0 and leaves its arrays
as they are. -/
def idleKernel : Kernel α where
  ma27id := (List.replicate 30 0, List.replicate 5 0)
  ma27ad := fun _ _ _ _ _ iw _ ikeep _ _ => ⟨iw, ikeep, 0, 0, 0, 0, 0⟩
  ma27bd := fun _ _ _ _ _ a _ iw _ _ _ _ _ => ⟨a, iw, 0, 0, 0, 0, 0, 0⟩
  ma27cd := fun _ _ _ _ _ _ _ rhs _ _ _ => rhs

/-- An options list over any number type in which no option is supplied. -/
def emptyOptions : OptionsList α := ⟨fun _ _ => none⟩

/-- The engine that `InitializeImpl` with no option supplied makes of `s0`. -/
def defaultsEngine (K : Kernel α) (s0 : Ma27SymLinearSolver α) : Ma27SymLinearSolver α :=
  { s0 with
    pivtol_ := 1e-8, pivtolmax_ := 1e-4, liw_init_factor_ := 5, la_init_factor_ := 5,
    meminc_factor_ := 10, icntl_ := (K.ma27id.1.set 0 0).set 1 0,
    cntl_ := K.ma27id.2.set 0 1e-8,
    atag_ := 0, dim_ := 0, nonzeros_ := 0, initialized_ := false, factorized_ := false,
    la_increase_ := false, liw_increase_ := false }

/-- An engine over any number type all of whose members are zero, false or empty. -/
def blankEngine : Ma27SymLinearSolver α :=
  { atag_ := 0, dim_ := 0, nonzeros_ := 0, initialized_ := false, factorized_ := false,
    airn_ := [], ajcn_ := [], liw_ := 0, iw_ := [], ikeep_ := [], la_ := 0, a_ := [],
    la_increase_ := false, liw_increase_ := false, pivtol_ := 0, pivtolmax_ := 0,
    liw_init_factor_ := 0, la_init_factor_ := 0, meminc_factor_ := 0, icntl_ := [],
    cntl_ := [], nsteps_ := 0, maxfrt_ := 0, negevals_ := 0, log := [] }

/-- A kernel over the rationals for the examples.  Its structure analysis answers status
`adflag` and recommends `NZ + N` for both workspaces; its factorization answers, at the
invocation number `t`, status `(bd t).1` with `INFO[1] = (bd t).2`, no compressions and
`negevals` negative eigenvalues; its solve returns the right-hand side. -/
def exampleKernel (adflag : Int) (bd : Nat → Int × Int) (negevals : Int) : Kernel ℚ where
  ma27id := (List.replicate 30 1, List.replicate 5 (1 / 10))
  ma27ad := fun _ N NZ _ _ iw _ ikeep _ _ => ⟨iw, ikeep, 1, adflag, 0, NZ + N, NZ + N⟩
  ma27bd := fun t _ _ _ _ a _ iw _ _ _ _ _ => ⟨a, iw, 1, (bd t).1, (bd t).2, 0, 0, negevals⟩
  ma27cd := fun _ _ _ _ _ _ _ rhs _ _ _ => rhs

/-- The kernel of the examples whose factorization always succeeds with one negative
eigenvalue. -/
def goodKernel : Kernel ℚ := exampleKernel 0 (fun _ => (0, 0)) 1

/-- The kernel of the examples whose factorization first asks for a larger integer workspace
(status -3, requirement 50, at invocation 1) and then reports a singular matrix (status -5). -/
def retryKernel : Kernel ℚ := exampleKernel 0 (fun t => if t = 1 then (-3, 50) else (-5, 0)) 0

/-- The kernel of the examples whose structure analysis fails with status -1. -/
def badStructureKernel : Kernel ℚ := exampleKernel (-1) (fun _ => (0, 0)) 1

/-- The matrix `[[2,1,0],[1,-1,1],[0,1,3]]` of the spec's scenario, lower triangle in triplet
form, with change tag 1. -/
def exampleMatrix : SymMatrix ℚ :=
  { dim := 3, irn := [1, 2, 2, 3, 3], jcn := [1, 1, 2, 2, 3], vals := [2, 1, -1, 1, 3],
    tag := 1 }

/-- An options list in which no option is supplied. -/
def noOptions : OptionsList ℚ := ⟨fun _ _ => none⟩

/-- An engine all of whose members are zero, false or empty. -/
def zeroEngine : Ma27SymLinearSolver ℚ :=
  { atag_ := 0, dim_ := 0, nonzeros_ := 0, initialized_ := false, factorized_ := false,
    airn_ := [], ajcn_ := [], liw_ := 0, iw_ := [], ikeep_ := [], la_ := 0, a_ := [],
    la_increase_ := false, liw_increase_ := false, pivtol_ := 0, pivtolmax_ := 0,
    liw_init_factor_ := 0, la_init_factor_ := 0, meminc_factor_ := 0, icntl_ := [],
    cntl_ := [], nsteps_ := 0, maxfrt_ := 0, negevals_ := 0, log := [] }

/-- A constructed engine after `InitializeImpl` with the given options. -/
def initializedEngine (K : Kernel ℚ) (options : OptionsList ℚ) : Ma27SymLinearSolver ℚ :=
  match InitializeImpl K options "" (Ma27SymLinearSolver.ctor zeroEngine) with
  | Except.ok (_, s) => s
  | Except.error _ => Ma27SymLinearSolver.ctor zeroEngine

/-- The engine of `initializedEngine` at the point where `MultiSolve` on `sym_A` is about to
factorize: structure captured, workspaces sized, change tag stored. -/
def preparedEngine (K : Kernel ℚ) (sym_A : SymMatrix ℚ) : Ma27SymLinearSolver ℚ :=
  MultiSolve.tagStep sym_A
    (MultiSolve.symbolicStep K (MultiSolve.structureStep sym_A (initializedEngine K noOptions))).2

/-- The engine that a call of `Factorization` leaves behind (the given engine when the fuel
runs out). -/
def engineAfterFactorization (K : Kernel ℚ) (fuel : Nat) (A : SymMatrix ℚ) (chk : Bool)
    (n : Int) (s : Ma27SymLinearSolver ℚ) : Ma27SymLinearSolver ℚ :=
  match Factorization K fuel A chk n s with
  | some (_, s') => s'
  | none => s

/-- The engine that a call of `MultiSolve` leaves behind (the given engine when the fuel runs
out). -/
def engineAfterMultiSolve (K : Kernel ℚ) (fuel : Nat) (A : SymMatrix ℚ)
    (rhsV solV : List (List ℚ)) (chk : Bool) (n : Int) (s : Ma27SymLinearSolver ℚ) :
    Ma27SymLinearSolver ℚ :=
  match MultiSolve K fuel A rhsV solV chk n s with
  | some (_, s', _) => s'
  | none => s

/-- The status that a call of `MultiSolve` returns, if it returns. -/
def statusOfMultiSolve (K : Kernel ℚ) (fuel : Nat) (A : SymMatrix ℚ)
    (rhsV solV : List (List ℚ)) (chk : Bool) (n : Int) (s : Ma27SymLinearSolver ℚ) :
    Option ESolveStatus :=
  (MultiSolve K fuel A rhsV solV chk n s).map (fun p => p.1)

/-- An options list in which only `pivtol` is supplied. -/
def onlyPivtol (v : α) : OptionsList α :=
  ⟨fun tag _ => if tag = "pivtol" then some v else none⟩

/-- The kernel of the examples that looks at the matrix values: its factorization reports a
singular matrix (status -5) when the first `NZ` values it is given are all zero, and succeeds
with one negative eigenvalue otherwise; its structure analysis recommends `NZ + N` for both
workspaces and writes `N` into `NSTEPS`. -/
def valueKernel : Kernel ℚ where
  ma27id := (List.replicate 30 1, List.replicate 5 (1 / 10))
  ma27ad := fun _ N NZ _ _ iw _ ikeep _ _ => ⟨iw, ikeep, N, 0, 0, NZ + N, NZ + N⟩
  ma27bd := fun _ _ NZ _ _ a _ iw _ _ _ _ _ =>
    ⟨a, iw, 1, if (a.take NZ.toNat).all (fun v => v == 0) then -5 else 0, 0, 0, 0, 1⟩
  ma27cd := fun _ _ _ _ _ _ _ rhs _ _ _ => rhs

/-- The 2x2 all-zero matrix of the spec's scenario, its three lower-triangle entries stored as
zeros, with change tag 1. -/
def storedZeroMatrix : SymMatrix ℚ :=
  { dim := 2, irn := [1, 2, 2], jcn := [1, 1, 2], vals := [0, 0, 0], tag := 1 }

/-- The matrix of the spec's scenario with change tag 2. -/
def secondMatrix : SymMatrix ℚ := { exampleMatrix with tag := 2 }

/-- The kernel of the examples with required sizes 50 (integer) and 500 (real): its
factorization answers status -3 reporting 50 while `LIW < 50`, else status -4 reporting 500
while `LA < 500`, and succeeds with one negative eigenvalue otherwise. -/
def thresholdKernel : Kernel ℚ where
  ma27id := (List.replicate 30 1, List.replicate 5 (1 / 10))
  ma27ad := fun _ N NZ _ _ iw _ ikeep _ _ => ⟨iw, ikeep, 1, 0, 0, NZ + N, NZ + N⟩
  ma27bd := fun _ _ _ _ _ a la iw liw _ _ _ _ =>
    ⟨a, iw, 1, if liw < 50 then -3 else if la < 500 then -4 else 0,
      if liw < 50 then 50 else if la < 500 then 500 else 0, 0, 0, 1⟩
  ma27cd := fun _ _ _ _ _ _ _ rhs _ _ _ => rhs

/-- The kernel of the examples whose factorization, at invocation 1, asks for a larger integer
workspace (status -3) while reporting the requirement 1, and then reports a singular matrix
(status -5). -/
def stingyKernel : Kernel ℚ := exampleKernel 0 (fun t => if t = 1 then (-3, 1) else (-5, 0)) 0

/-- The kernel of the examples whose factorization succeeds with one negative eigenvalue and
reports `ncmpbr` compressions of the real and `ncmpbi` of the integer workspace. -/
def compressingKernel (ncmpbr ncmpbi : Int) : Kernel ℚ where
  ma27id := (List.replicate 30 1, List.replicate 5 (1 / 10))
  ma27ad := fun _ N NZ _ _ iw _ ikeep _ _ => ⟨iw, ikeep, 1, 0, 0, NZ + N, NZ + N⟩
  ma27bd := fun _ _ _ _ _ a _ iw _ _ _ _ _ => ⟨a, iw, 1, 0, 0, ncmpbr, ncmpbi, 1⟩
  ma27cd := fun _ _ _ _ _ _ _ rhs _ _ _ => rhs

/-- The largest value of the 32-bit integer type `ipfint`. -/
def ipfintMax : Int := 2147483647

/-- The smallest value of the 32-bit integer type `ipfint`. -/
def ipfintMin : Int := -2147483648

/-- The ways in which a call of `Factorization` ends without returning a status. -/
inductive Fault
  /-- The behaviour of the C++ program is undefined: a double was converted to `ipfint` out of
  range, an `ipfint` product overflowed, or an array was written beyond its end. -/
  | undefined
  /-- The expression `new T[n]` raised an exception, for a negative `n` or for want of memory;
  no handler in this file catches it. -/
  | bad_alloc
deriving DecidableEq, Repr

/-- The free store.  For a non-negative length `n`, `doubles n` (`ipfints n`) is `none` when
`new double[n]` (`new ipfint[n]`) fails, and else gives the indeterminate contents of the fresh
array, place by place.  The statements use the free store only through "this allocation
succeeded" and "there is room for every array of at most `c` places". -/
structure Heap (α : Type) where
  doubles : Int → Option (Nat → α)
  ipfints : Int → Option (Nat → Int)

/-- The C++ conversion `(ipfint)(x)` of a double on the machine: truncation toward zero when
the truncated value is an `ipfint`, undefined behaviour otherwise. -/
def Machine.toIpfint (x : α) : Except Fault Int :=
  if ipfintMin ≤ trunc x ∧ trunc x ≤ ipfintMax then Except.ok (trunc x)
  else Except.error Fault.undefined

/-- The C++ expression `new T[n]` on the machine. -/
def Machine.newArray {β : Type} (store : Int → Option (Nat → β)) (n : Int) :
    Except Fault (List β) :=
  if n < 0 then Except.error Fault.bad_alloc
  else
    match store n with
    | none => Except.error Fault.bad_alloc
    | some contents => Except.ok ((List.range n.toNat).map contents)

/-- Lines 294-316 of `Factorization` on the machine: a workspace that an earlier factorization
marked is enlarged, and its mark is cleared once the new array is there. -/
def Machine.Factorization.growIfMarked (fl : α → α) (H : Heap α)
    (s : Ma27SymLinearSolver α) : Except Fault (Ma27SymLinearSolver α) :=
  -- Check if la should be increased
  match (if s.la_increase_ then
      match Machine.toIpfint (fl (s.meminc_factor_ * (s.la_ : α))) with
      | Except.error f => Except.error f
      | Except.ok la =>
        match Machine.newArray H.doubles la with
        | Except.error f => Except.error f
        | Except.ok a => Except.ok { s with la_ := la, a_ := a, la_increase_ := false }
    else Except.ok s) with
  | Except.error f => Except.error f
  | Except.ok s =>
    -- Check if liw should be increased
    if s.liw_increase_ then
      match Machine.toIpfint (fl (s.meminc_factor_ * (s.liw_ : α))) with
      | Except.error f => Except.error f
      | Except.ok liw =>
        match Machine.newArray H.ipfints liw with
        | Except.error f => Except.error f
        | Except.ok iw => Except.ok { s with liw_ := liw, iw_ := iw, liw_increase_ := false }
    else Except.ok s

/-- Lines 325-331 of `Factorization` on the machine, what comes before the call of MA27BD:
`FillValues` writes `nonzeros_` values into `a_`, and the scratch array `IW1` of `2*dim_`
places is allocated. -/
def Machine.Factorization.prepareCall (H : Heap α) (s : Ma27SymLinearSolver α) :
    Except Fault Unit :=
  if s.a_.length < s.nonzeros_.toNat then Except.error Fault.undefined
  else if ¬ (ipfintMin ≤ 2 * s.dim_ ∧ 2 * s.dim_ ≤ ipfintMax) then Except.error Fault.undefined
  else
    match Machine.newArray H.ipfints (2 * s.dim_) with
    | Except.error f => Except.error f
    | Except.ok _ => Except.ok ()

/-- Lines 358-378 of `Factorization` on the machine: after the kernel answered `iflag` (-3
or -4) and `ierror`, the two new lengths are computed and converted, then the two arrays are
allocated, in the order of the source. -/
def Machine.Factorization.increaseWorkspace (fl : α → α) (H : Heap α) (iflag ierror : Int)
    (s : Ma27SymLinearSolver α) : Except Fault (Ma27SymLinearSolver α) :=
  match (if iflag = -3 then
      match Machine.toIpfint (fl (s.meminc_factor_ * (ierror : α))) with
      | Except.error f => Except.error f
      | Except.ok liw =>
        match Machine.toIpfint (fl (s.meminc_factor_ * (s.la_ : α))) with
        | Except.error f => Except.error f
        | Except.ok la => Except.ok (liw, la)
    else
      match Machine.toIpfint (fl (s.meminc_factor_ * (s.liw_ : α))) with
      | Except.error f => Except.error f
      | Except.ok liw =>
        match Machine.toIpfint (fl (s.meminc_factor_ * (ierror : α))) with
        | Except.error f => Except.error f
        | Except.ok la => Except.ok (liw, la)) with
  | Except.error f => Except.error f
  | Except.ok (liw, la) =>
    match Machine.newArray H.ipfints liw with
    | Except.error f => Except.error f
    | Except.ok iw =>
      match Machine.newArray H.doubles la with
      | Except.error f => Except.error f
      | Except.ok a => Except.ok { s with liw_ := liw, la_ := la, iw_ := iw, a_ := a }

/-- The retry loop of `Factorization` on the machine.  `some (Except.ok _)` holds the engine
with `iflag`, `ncmpbr` and `ncmpbi` of the last call; `some (Except.error _)` holds the fault
in which the call ended and the kernel invocations logged until then; `none` means that the
fuel is used up. -/
def Machine.FactorizationLoop (fl : α → α) (H : Heap α) (K : Kernel α) (A : SymMatrix α) :
    Nat → Ma27SymLinearSolver α →
      Option (Except (Fault × List (KernelCall α)) (Ma27SymLinearSolver α × Int × Int × Int))
  | 0, _ => none
  | fuel + 1, s =>
    -- Copy Matrix data into a_
    match Machine.Factorization.prepareCall H s with
    | Except.error f => some (Except.error (f, s.log))
    | Except.ok _ =>
      let out := Factorization.callMa27bd K A s
      let s := Factorization.receive K A s
      -- Receive information about the factorization
      let iflag := out.iflag
      let ierror := out.ierror
      let ncmpbr := out.ncmpbr
      let ncmpbi := out.ncmpbi
      -- Check if factorization failed due to insufficient memory space
      if iflag = -3 ∨ iflag = -4 then
        match Machine.Factorization.increaseWorkspace fl H iflag ierror s with
        | Except.error f => some (Except.error (f, s.log))
        | Except.ok s => Machine.FactorizationLoop fl H K A fuel s
      else
        some (Except.ok (s, iflag, ncmpbr, ncmpbi))

/-- The method `Ma27SymLinearSolver::Factorization` on the machine. -/
def Machine.Factorization (fl : α → α) (H : Heap α) (K : Kernel α) (fuel : Nat)
    (A : SymMatrix α) (check_NegEVals : Bool) (numberOfNegEVals : Int)
    (s : Ma27SymLinearSolver α) :
    Option (Except (Fault × List (KernelCall α)) (ESolveStatus × Ma27SymLinearSolver α)) :=
  match Machine.Factorization.growIfMarked fl H s with
  | Except.error f => some (Except.error (f, s.log))
  | Except.ok s =>
    -- Call MA27BD; possibly repeatedly if workspaces are too small
    match Machine.FactorizationLoop fl H K A fuel s with
    | none => none
    | some (Except.error e) => some (Except.error e)
    | some (Except.ok (s, iflag, ncmpbr, ncmpbi)) =>
      -- Check if the system is singular, and if some other error occurred
      if iflag = -5 ∨ iflag = 3 then some (Except.ok (ESolveStatus.S_SINGULAR, s))
      else if iflag ≠ 0 then some (Except.ok (ESolveStatus.S_FATAL_ERROR, s))
      else
        -- Check if it might be more efficient to use more memory next time
        let s := Factorization.markIfCompressed ncmpbr ncmpbi s
        -- Check whether the number of negative eigenvalues matches the requested count
        if check_NegEVals ∧ numberOfNegEVals ≠ s.negevals_ then
          some (Except.ok (ESolveStatus.S_WRONG_INERTIA, s))
        else some (Except.ok (ESolveStatus.S_SUCCESS, s))

/-- What the statements need of the rounding of the double format: it is monotone, and it is
exact on every integer from `-2^31` to `2^31`. -/
def Rounding (fl : α → α) : Prop :=
  Monotone fl ∧ ∀ k : Int, -2147483648 ≤ k → k ≤ 2147483648 → fl (k : α) = (k : α)

/-- The length `(ipfint)(m * (double)(n))` when the conversion is defined: the truncated
rounded product. -/
def grown (fl : α → α) (m : α) (n : Int) : Int := trunc (fl (m * (n : α)))

/-- The free store has room for every array of at most `c` places. -/
def Heap.Provides (H : Heap α) (c : Int) : Prop :=
  ∀ n : Int, 0 ≤ n → n ≤ c → (H.doubles n).isSome = true ∧ (H.ipfints n).isSome = true

/-- A free store over the rationals that never fails and whose fresh arrays hold zeros. -/
def plentyHeap : Heap ℚ := ⟨fun _ => some (fun _ => 0), fun _ => some (fun _ => 0)⟩

/-- A free store over the rationals with room for arrays of at most `c` places, whose fresh
arrays hold zeros. -/
def boundedHeap (c : Int) : Heap ℚ :=
  ⟨fun n => if n ≤ c then some (fun _ => 0) else none,
   fun n => if n ≤ c then some (fun _ => 0) else none⟩

/-- An options list in which only `meminc_factor` is supplied. -/
def onlyMeminc (v : ℚ) : OptionsList ℚ :=
  ⟨fun tag _ => if tag = "meminc_factor" then some v else none⟩

/-- The engine at the point where `MultiSolve` on `sym_A` is about to factorize, after
`InitializeImpl` with the given options. -/
def preparedEngineWith (K : Kernel ℚ) (options : OptionsList ℚ) (sym_A : SymMatrix ℚ) :
    Ma27SymLinearSolver ℚ :=
  MultiSolve.tagStep sym_A
    (MultiSolve.symbolicStep K (MultiSolve.structureStep sym_A (initializedEngine K options))).2

/-- The kernel of the examples whose factorization, at invocation 1, asks for an integer
workspace of 300000000 places (status -3), and then reports a singular matrix (status -5). -/
def hungryKernel : Kernel ℚ :=
  exampleKernel 0 (fun t => if t = 1 then (-3, 300000000) else (-5, 0)) 0

/-- The log entry of the call of MA27BD that `Factorization` makes from the engine `s`: the
matrix values copied into `a_`, the two lengths, `cntl_`, and the kernel's answer. -/
def Factorization.bdCall (K : Kernel α) (A : SymMatrix α) (s : Ma27SymLinearSolver α) :
    KernelCall α :=
  KernelCall.bd (TripletHelper.FillValues s.nonzeros_ A s.a_) s.la_ s.liw_ s.cntl_
    (Factorization.callMa27bd K A s)

/-- The engine that a call of `Factorization` on the machine, with exact arithmetic, leaves
behind when it returns (the given engine otherwise). -/
def engineAfterMachineFactorization (H : Heap ℚ) (K : Kernel ℚ) (fuel : Nat)
    (A : SymMatrix ℚ) (chk : Bool) (n : Int) (s : Ma27SymLinearSolver ℚ) :
    Ma27SymLinearSolver ℚ :=
  match Machine.Factorization id H K fuel A chk n s with
  | some (Except.ok (_, s')) => s'
  | _ => s

/-- The engine about to factorize the matrix of the spec's scenario with the kernel with
required sizes 50 and 500, after `InitializeImpl` with `meminc_factor = 2`: both lengths
are 40. -/
def doublingEngine : Ma27SymLinearSolver ℚ :=
  preparedEngineWith thresholdKernel (onlyMeminc 2) exampleMatrix

/-- An engine that is ready for a call of MA27BD on a machine whose free store has room for
arrays of at most `c` places: both lengths lie between 0 and `b`, the array `a_` has `la_`
places and these are room enough for the `nonzeros_` matrix values, and the scratch array of
`2*dim_` places fits. -/
def Machine.Ready (c b : Int) (s : Ma27SymLinearSolver α) : Prop :=
  0 ≤ s.la_ ∧ s.la_ ≤ b ∧ 0 ≤ s.liw_ ∧ s.liw_ ≤ b ∧ s.nonzeros_ ≤ s.la_ ∧
  s.a_.length = s.la_.toNat ∧ 0 ≤ s.dim_ ∧ 2 * s.dim_ ≤ c

/-- The retry loop on the machine, run from `s` with fuel for at least `k` rounds, returns
after at most `k` kernel invocations, each one a call of MA27BD, the last of which has a status
other than -3 and -4. -/
def Machine.ReturnsWithin (fl : α → α) (H : Heap α) (K : Kernel α) (A : SymMatrix α) (k : Nat)
    (s : Ma27SymLinearSolver α) : Prop :=
  ∃ (s1 : Ma27SymLinearSolver α) (f br bi : Int) (evs : List (KernelCall α)),
    (∀ fuel, k ≤ fuel →
      Machine.FactorizationLoop fl H K A fuel s = some (Except.ok (s1, f, br, bi))) ∧
    s1.log = s.log ++ evs ∧ evs.length ≤ k ∧ (∀ e ∈ evs, e.isBd = true) ∧
    ∃ (last : KernelCall α) (out : Ma27bdOut α),
      evs.getLast? = some last ∧ last.bdOut = some out ∧ out.iflag = f ∧
      out.negevals = s1.negevals_ ∧ f ≠ -3 ∧ f ≠ -4

/-- The engine after a first call of `Factorization` on the machine, with exact arithmetic and
room on the free store, with the kernel that reports 10 compressions of the real and 9 of the
integer workspace: the lengths are (40, 40) and the real workspace is marked. -/
def markedEngine : Ma27SymLinearSolver ℚ :=
  engineAfterMachineFactorization plentyHeap (compressingKernel 10 9) 1 exampleMatrix false 0
    (preparedEngine (compressingKernel 10 9) exampleMatrix)

/-! ## Lemmas and theorems -/

set_option linter.unusedSectionVars false

theorem WorkspaceUpdate.refl (s : Ma27SymLinearSolver α) : WorkspaceUpdate s s := rfl

theorem WorkspaceUpdate.trans {s s' s'' : Ma27SymLinearSolver α}
    (h : WorkspaceUpdate s s') (h' : WorkspaceUpdate s' s'') : WorkspaceUpdate s s'' := by
  unfold WorkspaceUpdate at *
  rw [h'] ; rw [h]

theorem WorkspaceUpdate.receive (K : Kernel α) (A : SymMatrix α) (s : Ma27SymLinearSolver α) :
    WorkspaceUpdate s (Factorization.receive K A s) := rfl

theorem WorkspaceUpdate.increaseWorkspace (iflag ierror : Int) (s : Ma27SymLinearSolver α) :
    WorkspaceUpdate s (Factorization.increaseWorkspace iflag ierror s) := by
  unfold WorkspaceUpdate Factorization.increaseWorkspace
  split <;> rfl

theorem WorkspaceUpdate.cntl_eq {s s' : Ma27SymLinearSolver α} (h : WorkspaceUpdate s s') :
    s'.cntl_ = s.cntl_ := by
  unfold WorkspaceUpdate at h; rw [h]

theorem WorkspaceUpdate.factorized_eq {s s' : Ma27SymLinearSolver α}
    (h : WorkspaceUpdate s s') : s'.factorized_ = s.factorized_ := by
  unfold WorkspaceUpdate at h; rw [h]

/-- The retry loop, when it ends: it ends in a call of MA27BD made from an engine `s0` that
differs from the initial engine in the workspaces only, whose status is neither -3 nor -4, and
every kernel invocation before that one is a call of MA27BD answered with status -3 or -4. -/
theorem FactorizationLoop_spec (K : Kernel α) (A : SymMatrix α) :
    ∀ (fuel : Nat) (s s1 : Ma27SymLinearSolver α) (f br bi : Int),
      FactorizationLoop K A fuel s = some (s1, f, br, bi) →
      ∃ (evs : List (KernelCall α)) (s0 : Ma27SymLinearSolver α),
        s1 = Factorization.receive K A s0 ∧ WorkspaceUpdate s s0 ∧ s0.log = s.log ++ evs ∧
        (∀ e ∈ evs, ∃ o, e.bdOut = some o ∧ (o.iflag = -3 ∨ o.iflag = -4)) ∧
        (∀ e ∈ evs, e.bdCntl = some s.cntl_) ∧
        (Factorization.callMa27bd K A s0).iflag = f ∧
        (Factorization.callMa27bd K A s0).ncmpbr = br ∧
        (Factorization.callMa27bd K A s0).ncmpbi = bi ∧ f ≠ -3 ∧ f ≠ -4 := by
  intro fuel
  induction fuel with
  | zero => intro s s1 f br bi h; simp [FactorizationLoop] at h
  | succ fuel ih =>
    intro s s1 f br bi h
    unfold FactorizationLoop at h
    dsimp only at h
    split at h
    · rename_i hflag
      obtain ⟨evs, s0, hs1, hw, hlog, hev, hcn, hf, hbr, hbi, h3, h4⟩ := ih _ _ _ _ _ h
      have hw1 : WorkspaceUpdate s (Factorization.increaseWorkspace
          (Factorization.callMa27bd K A s).iflag (Factorization.callMa27bd K A s).ierror
          (Factorization.receive K A s)) :=
        (WorkspaceUpdate.receive K A s).trans (WorkspaceUpdate.increaseWorkspace _ _ _)
      have hlog1 : (Factorization.increaseWorkspace
          (Factorization.callMa27bd K A s).iflag (Factorization.callMa27bd K A s).ierror
          (Factorization.receive K A s)).log = (Factorization.receive K A s).log := by
        unfold Factorization.increaseWorkspace; split <;> rfl
      have hcntl1 : (Factorization.increaseWorkspace
          (Factorization.callMa27bd K A s).iflag (Factorization.callMa27bd K A s).ierror
          (Factorization.receive K A s)).cntl_ = s.cntl_ :=
        hw1.cntl_eq
      refine ⟨KernelCall.bd (TripletHelper.FillValues s.nonzeros_ A s.a_) s.la_ s.liw_
        s.cntl_ (Factorization.callMa27bd K A s) :: evs, s0, hs1, hw1.trans hw, ?_, ?_, ?_,
        hf, hbr, hbi, h3, h4⟩
      · rw [hlog, hlog1]; simp [Factorization.receive]
      · intro e he
        rcases List.mem_cons.1 he with rfl | he
        · exact ⟨_, rfl, hflag⟩
        · exact hev e he
      · intro e he
        rcases List.mem_cons.1 he with rfl | he
        · rfl
        · rw [hcn e he, hcntl1]
    · rename_i hflag
      simp only [Option.some.injEq, Prod.mk.injEq] at h
      obtain ⟨rfl, rfl, rfl, rfl⟩ := h
      exact ⟨[], s, rfl, WorkspaceUpdate.refl s, by simp, by simp, by simp, rfl, rfl, rfl,
        fun h => hflag (Or.inl h), fun h => hflag (Or.inr h)⟩

theorem WorkspaceUpdate.growIfMarked (s : Ma27SymLinearSolver α) :
    WorkspaceUpdate s (Factorization.growIfMarked s) := by
  unfold WorkspaceUpdate Factorization.growIfMarked
  dsimp only
  split <;> split <;> rfl

theorem growIfMarked_log (s : Ma27SymLinearSolver α) :
    (Factorization.growIfMarked s).log = s.log := by
  unfold Factorization.growIfMarked
  dsimp only
  split <;> split <;> rfl

theorem markIfCompressed_spec (ncmpbr ncmpbi : Int) (s : Ma27SymLinearSolver α) :
    WorkspaceUpdate s (Factorization.markIfCompressed ncmpbr ncmpbi s) ∧
    (Factorization.markIfCompressed ncmpbr ncmpbi s).log = s.log ∧
    (Factorization.markIfCompressed ncmpbr ncmpbi s).negevals_ = s.negevals_ ∧
    (Factorization.markIfCompressed ncmpbr ncmpbi s).la_ = s.la_ ∧
    (Factorization.markIfCompressed ncmpbr ncmpbi s).liw_ = s.liw_ := by
  unfold WorkspaceUpdate Factorization.markIfCompressed
  dsimp only
  split <;> split <;> exact ⟨rfl, rfl, rfl, rfl, rfl⟩

theorem Factorization_spec (K : Kernel α) (fuel : Nat) (A : SymMatrix α) (chk : Bool)
    (n : Int) (s s' : Ma27SymLinearSolver α) (r : ESolveStatus)
    (h : Factorization K fuel A chk n s = some (r, s')) :
    ∃ (evs : List (KernelCall α)) (s0 : Ma27SymLinearSolver α),
      WorkspaceUpdate s s0 ∧ s0.log = s.log ++ evs ∧
      (∀ e ∈ evs, ∃ o, e.bdOut = some o ∧ (o.iflag = -3 ∨ o.iflag = -4)) ∧
      (∀ e ∈ evs, e.bdCntl = some s.cntl_) ∧
      (Factorization.callMa27bd K A s0).iflag ≠ -3 ∧
      (Factorization.callMa27bd K A s0).iflag ≠ -4 ∧
      WorkspaceUpdate s s' ∧
      s'.log = s0.log ++ [KernelCall.bd (TripletHelper.FillValues s0.nonzeros_ A s0.a_)
        s0.la_ s0.liw_ s.cntl_ (Factorization.callMa27bd K A s0)] ∧
      s'.negevals_ = (Factorization.callMa27bd K A s0).negevals ∧
      s'.la_ = s0.la_ ∧ s'.liw_ = s0.liw_ ∧
      r = Factorization.outcome chk n (Factorization.callMa27bd K A s0).iflag
        (Factorization.callMa27bd K A s0).negevals := by
  unfold Factorization at h
  dsimp only at h
  split at h
  · exact absurd h (by simp)
  · rename_i s1 f br bi hloop
    obtain ⟨evs, s0, hs1, hw, hlog, hev, hcn, hf, hbr, hbi, h3, h4⟩ :=
      FactorizationLoop_spec K A fuel _ _ _ _ _ hloop
    have hw0 : WorkspaceUpdate s s0 := (WorkspaceUpdate.growIfMarked s).trans hw
    have hc : (Factorization.growIfMarked s).cntl_ = s.cntl_ :=
      (WorkspaceUpdate.growIfMarked s).cntl_eq
    have hw1 : WorkspaceUpdate s s1 := by
      rw [hs1]; exact hw0.trans (WorkspaceUpdate.receive K A s0)
    rw [growIfMarked_log] at hlog
    rw [hc] at hcn
    refine ⟨evs, s0, hw0, hlog, hev, hcn, hf ▸ h3, hf ▸ h4, ?_⟩
    have hlog1 : s1.log = s0.log ++ [KernelCall.bd (TripletHelper.FillValues s0.nonzeros_ A s0.a_)
        s0.la_ s0.liw_ s.cntl_ (Factorization.callMa27bd K A s0)] := by
      rw [hs1, ← hw0.cntl_eq]; rfl
    have hneg : s1.negevals_ = (Factorization.callMa27bd K A s0).negevals := by rw [hs1]; rfl
    have hla : s1.la_ = s0.la_ := by rw [hs1]; rfl
    have hliw : s1.liw_ = s0.liw_ := by rw [hs1]; rfl
    unfold Factorization.outcome
    rw [hf]
    split at h
    · rename_i hc1
      simp only [Option.some.injEq, Prod.mk.injEq] at h
      obtain ⟨rfl, rfl⟩ := h
      exact ⟨hw1, hlog1, hneg, hla, hliw, by rw [if_pos hc1]⟩
    · rename_i hc1
      split at h
      · rename_i hc2
        simp only [Option.some.injEq, Prod.mk.injEq] at h
        obtain ⟨rfl, rfl⟩ := h
        exact ⟨hw1, hlog1, hneg, hla, hliw, by rw [if_neg hc1, if_pos hc2]⟩
      · rename_i hc2
        rw [if_neg hc1, if_neg hc2]
        obtain ⟨k1, k2, k3, k4, k5⟩ := markIfCompressed_spec br bi s1
        rw [k3, hneg] at h
        split at h
        · rename_i hc3
          simp only [Option.some.injEq, Prod.mk.injEq] at h
          obtain ⟨rfl, rfl⟩ := h
          exact ⟨hw1.trans k1, k2.trans hlog1, k3.trans hneg, k4.trans hla, k5.trans hliw,
            by rw [if_pos hc3]⟩
        · rename_i hc3
          simp only [Option.some.injEq, Prod.mk.injEq] at h
          obtain ⟨rfl, rfl⟩ := h
          exact ⟨hw1.trans k1, k2.trans hlog1, k3.trans hneg, k4.trans hla, k5.trans hliw,
            by rw [if_neg hc3]⟩

/-- More fuel does not change what the retry loop returns. -/
theorem FactorizationLoop_fuel_mono (K : Kernel α) (A : SymMatrix α) :
    ∀ (fuel fuel' : Nat) (s : Ma27SymLinearSolver α)
      (x : Ma27SymLinearSolver α × Int × Int × Int),
      fuel ≤ fuel' → FactorizationLoop K A fuel s = some x →
      FactorizationLoop K A fuel' s = some x := by
  intro fuel
  induction fuel with
  | zero => intro fuel' s x _ h; simp [FactorizationLoop] at h
  | succ fuel ih =>
    intro fuel' s x hle h
    obtain ⟨m, rfl⟩ : ∃ m, fuel' = m + 1 := ⟨fuel' - 1, by omega⟩
    unfold FactorizationLoop at h ⊢
    dsimp only at h ⊢
    split
    · rename_i hflag
      rw [if_pos hflag] at h
      exact ih m _ x (by omega) h
    · rename_i hflag
      rw [if_neg hflag] at h
      exact h

/-- More fuel does not change what `Factorization` returns. -/
theorem Factorization_fuel_mono (K : Kernel α) (fuel fuel' : Nat) (A : SymMatrix α)
    (chk : Bool) (n : Int) (s : Ma27SymLinearSolver α)
    (x : ESolveStatus × Ma27SymLinearSolver α) (hle : fuel ≤ fuel')
    (h : Factorization K fuel A chk n s = some x) :
    Factorization K fuel' A chk n s = some x := by
  unfold Factorization at h ⊢
  dsimp only at h ⊢
  cases hl : FactorizationLoop K A fuel (Factorization.growIfMarked s) with
  | none => rw [hl] at h; exact absurd h (by simp)
  | some y =>
    rw [FactorizationLoop_fuel_mono K A fuel fuel' _ y hle hl]
    rw [hl] at h
    exact h

/-- C1: when a call of `Factorization` returns and the last kernel invocation in the log, its
final call of MA27BD, has status 0 and reports `out.negevals` negative eigenvalues, the call
returns `S_WRONG_INERTIA` if `check_NegEVals` is true and `numberOfNegEVals` differs from that
count, and `S_SUCCESS` otherwise; the count is what `NumberOfNegEVals` then returns, and the
call returns the same with any larger fuel. -/
theorem C1_Factorization_inertia_check (K : Kernel α) (fuel : Nat) (A : SymMatrix α)
    (check_NegEVals : Bool) (numberOfNegEVals : Int) (s s' : Ma27SymLinearSolver α)
    (r : ESolveStatus) (out : Ma27bdOut α)
    (h : Factorization K fuel A check_NegEVals numberOfNegEVals s = some (r, s'))
    (hlast : s'.log.getLast?.bind KernelCall.bdOut = some out)
    (h0 : out.iflag = 0) :
    r = (if check_NegEVals = true ∧ numberOfNegEVals ≠ out.negevals
          then ESolveStatus.S_WRONG_INERTIA else ESolveStatus.S_SUCCESS) ∧
    NumberOfNegEVals s' = out.negevals ∧
    ∀ fuel' : Nat, fuel ≤ fuel' →
      Factorization K fuel' A check_NegEVals numberOfNegEVals s = some (r, s') := by
  obtain ⟨evs, s0, -, -, -, -, -, -, -, hlog, hneg, -, -, hr⟩ :=
    Factorization_spec K fuel A check_NegEVals numberOfNegEVals s s' r h
  rw [hlog, List.getLast?_concat] at hlast
  simp only [Option.some_bind, KernelCall.bdOut, Option.some.injEq] at hlast
  subst hlast
  refine ⟨?_, hneg, fun fuel' hle =>
    Factorization_fuel_mono K fuel fuel' A check_NegEVals numberOfNegEVals s (r, s') hle h⟩
  rw [hr]
  unfold Factorization.outcome
  rw [if_neg (by rw [h0]; decide), if_neg (by rw [h0]; decide)]

/-- C1, at the matrix of the spec's scenario: the kernel succeeds with one negative
eigenvalue, two are expected, and `Factorization` returns `S_WRONG_INERTIA`. -/
theorem C1_Factorization_inertia_check_witness :
    Factorization goodKernel 1 exampleMatrix true 2 (preparedEngine goodKernel exampleMatrix) =
      some (ESolveStatus.S_WRONG_INERTIA,
        engineAfterFactorization goodKernel 1 exampleMatrix true 2
          (preparedEngine goodKernel exampleMatrix)) ∧
    (engineAfterFactorization goodKernel 1 exampleMatrix true 2
      (preparedEngine goodKernel exampleMatrix)).log.getLast?.bind KernelCall.bdOut =
      some ⟨[2, 1, -1, 1, 3] ++ List.replicate 35 0, List.replicate 40 0, 1, 0, 0, 0, 0, 1⟩ ∧
    ESolveStatus.S_WRONG_INERTIA =
      (if true = true ∧ (2 : Int) ≠ 1 then ESolveStatus.S_WRONG_INERTIA
        else ESolveStatus.S_SUCCESS) ∧
    NumberOfNegEVals (engineAfterFactorization goodKernel 1 exampleMatrix true 2
      (preparedEngine goodKernel exampleMatrix)) = 1 ∧
    ∀ fuel' : Nat, 1 ≤ fuel' →
      Factorization goodKernel fuel' exampleMatrix true 2
          (preparedEngine goodKernel exampleMatrix) =
        some (ESolveStatus.S_WRONG_INERTIA,
          engineAfterFactorization goodKernel 1 exampleMatrix true 2
            (preparedEngine goodKernel exampleMatrix)) :=
  have h1 : Factorization goodKernel 1 exampleMatrix true 2
      (preparedEngine goodKernel exampleMatrix) =
      some (ESolveStatus.S_WRONG_INERTIA,
        engineAfterFactorization goodKernel 1 exampleMatrix true 2
          (preparedEngine goodKernel exampleMatrix)) := by rfl
  have h2 : (engineAfterFactorization goodKernel 1 exampleMatrix true 2
      (preparedEngine goodKernel exampleMatrix)).log.getLast?.bind KernelCall.bdOut =
      some ⟨[2, 1, -1, 1, 3] ++ List.replicate 35 0, List.replicate 40 0, 1, 0, 0, 0, 0, 1⟩ := by
    with_unfolding_all decide
  ⟨h1, h2, C1_Factorization_inertia_check goodKernel 1 exampleMatrix true 2 _ _ _ _ h1 h2 rfl⟩

/-- C3: when a call of `Factorization` returns, the kernel invocations it made are calls of
MA27BD, every one before the last answered with status -3 or -4, and the last one answered
with a status that is neither and that decides the outcome: -5 or 3 gives `S_SINGULAR`, any
other nonzero status gives `S_FATAL_ERROR`, and `S_SUCCESS` or `S_WRONG_INERTIA` is returned
only on status 0.  No kernel invocation follows the last one. -/
theorem C3_Factorization_status_decides (K : Kernel α) (fuel : Nat) (A : SymMatrix α)
    (check_NegEVals : Bool) (numberOfNegEVals : Int) (s s' : Ma27SymLinearSolver α)
    (r : ESolveStatus)
    (h : Factorization K fuel A check_NegEVals numberOfNegEVals s = some (r, s')) :
    ∃ (evs : List (KernelCall α)) (last : KernelCall α) (out : Ma27bdOut α),
      s'.log = s.log ++ evs ++ [last] ∧ last.bdOut = some out ∧
      (∀ e ∈ evs, ∃ o, e.bdOut = some o ∧ (o.iflag = -3 ∨ o.iflag = -4)) ∧
      out.iflag ≠ -3 ∧ out.iflag ≠ -4 ∧
      (out.iflag = -5 ∨ out.iflag = 3 → r = ESolveStatus.S_SINGULAR) ∧
      (out.iflag ≠ 0 → out.iflag ≠ -5 → out.iflag ≠ 3 → r = ESolveStatus.S_FATAL_ERROR) ∧
      (r = ESolveStatus.S_SUCCESS ∨ r = ESolveStatus.S_WRONG_INERTIA → out.iflag = 0) := by
  obtain ⟨evs, s0, -, hlog0, hev, -, h3, h4, -, hlog, -, -, -, hr⟩ :=
    Factorization_spec K fuel A check_NegEVals numberOfNegEVals s s' r h
  refine ⟨evs, KernelCall.bd (TripletHelper.FillValues s0.nonzeros_ A s0.a_) s0.la_ s0.liw_
    s.cntl_ (Factorization.callMa27bd K A s0), Factorization.callMa27bd K A s0, ?_, rfl, hev,
    h3, h4, ?_, ?_, ?_⟩
  · rw [hlog, hlog0]
  · intro h5
    rw [hr]; unfold Factorization.outcome; rw [if_pos h5]
  · intro h0 h5 h6
    rw [hr]; unfold Factorization.outcome
    rw [if_neg (by rintro (h | h); exact h5 h; exact h6 h), if_pos h0]
  · intro hs
    by_contra h0
    rw [hr] at hs
    unfold Factorization.outcome at hs
    split_ifs at hs <;> simp at hs

/-- C3, at a kernel that first answers -3 and then -5: `Factorization` returns `S_SINGULAR`
after exactly two calls of MA27BD. -/
theorem C3_Factorization_status_decides_witness :
    Factorization retryKernel 2 exampleMatrix false 0 (preparedEngine retryKernel exampleMatrix) =
      some (ESolveStatus.S_SINGULAR,
        engineAfterFactorization retryKernel 2 exampleMatrix false 0
          (preparedEngine retryKernel exampleMatrix)) ∧
    ∃ (evs : List (KernelCall ℚ)) (last : KernelCall ℚ) (out : Ma27bdOut ℚ),
      (engineAfterFactorization retryKernel 2 exampleMatrix false 0
          (preparedEngine retryKernel exampleMatrix)).log =
        (preparedEngine retryKernel exampleMatrix).log ++ evs ++ [last] ∧
      last.bdOut = some out ∧
      (∀ e ∈ evs, ∃ o, e.bdOut = some o ∧ (o.iflag = -3 ∨ o.iflag = -4)) ∧
      out.iflag ≠ -3 ∧ out.iflag ≠ -4 ∧
      (out.iflag = -5 ∨ out.iflag = 3 → ESolveStatus.S_SINGULAR = ESolveStatus.S_SINGULAR) ∧
      (out.iflag ≠ 0 → out.iflag ≠ -5 → out.iflag ≠ 3 →
        ESolveStatus.S_SINGULAR = ESolveStatus.S_FATAL_ERROR) ∧
      (ESolveStatus.S_SINGULAR = ESolveStatus.S_SUCCESS ∨
        ESolveStatus.S_SINGULAR = ESolveStatus.S_WRONG_INERTIA → out.iflag = 0) :=
  have h1 : Factorization retryKernel 2 exampleMatrix false 0
      (preparedEngine retryKernel exampleMatrix) =
      some (ESolveStatus.S_SINGULAR,
        engineAfterFactorization retryKernel 2 exampleMatrix false 0
          (preparedEngine retryKernel exampleMatrix)) := by rfl
  ⟨h1, C3_Factorization_status_decides retryKernel 2 exampleMatrix false 0 _ _ _ h1⟩

theorem WorkspaceUpdate.initialized_eq {s s' : Ma27SymLinearSolver α}
    (h : WorkspaceUpdate s s') : s'.initialized_ = s.initialized_ := by
  unfold WorkspaceUpdate at h; rw [h]

theorem WorkspaceUpdate.atag_eq {s s' : Ma27SymLinearSolver α}
    (h : WorkspaceUpdate s s') : s'.atag_ = s.atag_ := by
  unfold WorkspaceUpdate at h; rw [h]

theorem WorkspaceUpdate.settings_eq {s s' : Ma27SymLinearSolver α}
    (h : WorkspaceUpdate s s') : s'.settings = s.settings := by
  unfold WorkspaceUpdate at h; rw [h]; rfl

/-- The loop of `Backsolve` appends one call of MA27CD per right-hand side to the log and
changes nothing else of the engine. -/
theorem BacksolveLoop_spec (K : Kernel α) :
    ∀ (rhsV : List (List α)) (i : Nat) (s : Ma27SymLinearSolver α) (solV : List (List α)),
      ∃ evs : List (KernelCall α),
        (BacksolveLoop K rhsV i s solV).1 = { s with log := s.log ++ evs } ∧
        (∀ e ∈ evs, e.isCd = true) ∧ evs.length = rhsV.length := by
  intro rhsV
  induction rhsV with
  | nil => intro i s solV; exact ⟨[], by simp [BacksolveLoop], by simp, rfl⟩
  | cons rhs rest ih =>
    intro i s solV
    unfold BacksolveLoop
    dsimp only
    obtain ⟨evs, h1, h2, h3⟩ := ih (i + 1) (Backsolve.solveOne K rhs s).1
      (solV.set i (TripletHelper.PutValuesInVector s.dim_ (Backsolve.solveOne K rhs s).2
        (solV.getD i [])))
    refine ⟨KernelCall.cd (TripletHelper.FillValuesFromVector s.dim_ rhs (newArray s.dim_))
      (Backsolve.solveOne K rhs s).2 :: evs, ?_, ?_, ?_⟩
    · rw [h1]; simp [Backsolve.solveOne]
    · intro e he
      rcases List.mem_cons.1 he with rfl | he
      · rfl
      · exact h2 e he
    · simp [h3]

/-- The method `Backsolve` returns `S_SUCCESS`, appends calls of MA27CD to the log and changes
nothing else of the engine. -/
theorem Backsolve_spec (K : Kernel α) (rhsV solV : List (List α)) (s : Ma27SymLinearSolver α) :
    (Backsolve K rhsV solV s).1 = ESolveStatus.S_SUCCESS ∧
    ∃ evs : List (KernelCall α),
      (Backsolve K rhsV solV s).2.1 = { s with log := s.log ++ evs } ∧
      (∀ e ∈ evs, e.isCd = true) := by
  obtain ⟨evs, h1, h2, -⟩ := BacksolveLoop_spec K rhsV 0 s solV
  exact ⟨rfl, evs, h1, h2⟩

theorem structureStep_spec (A : SymMatrix α) (s : Ma27SymLinearSolver α) :
    (MultiSolve.structureStep A s).initialized_ = true ∧
    (MultiSolve.structureStep A s).la_ = s.la_ ∧
    (MultiSolve.structureStep A s).log = s.log ∧
    (MultiSolve.structureStep A s).settings = s.settings ∧
    (s.factorized_ = false → (MultiSolve.structureStep A s).factorized_ = false) ∧
    (s.initialized_ = true → MultiSolve.structureStep A s = s) := by
  unfold MultiSolve.structureStep InitializeStructure
  cases hi : s.initialized_ <;> simp [Ma27SymLinearSolver.settings, hi]

theorem symbolicStep_spec (K : Kernel α) (s : Ma27SymLinearSolver α) :
    (MultiSolve.symbolicStep K s).2.initialized_ = s.initialized_ ∧
    (MultiSolve.symbolicStep K s).2.factorized_ = s.factorized_ ∧
    (MultiSolve.symbolicStep K s).2.atag_ = s.atag_ ∧
    (MultiSolve.symbolicStep K s).2.settings = s.settings ∧
    (s.la_ ≠ 0 → MultiSolve.symbolicStep K s = (ESolveStatus.S_SUCCESS, s)) ∧
    ∃ evs : List (KernelCall α),
      (MultiSolve.symbolicStep K s).2.log = s.log ++ evs ∧ (∀ e ∈ evs, e.isAd = true) := by
  unfold MultiSolve.symbolicStep
  by_cases hla : s.la_ = 0
  · rw [if_pos hla]
    unfold SymbolicFactorization
    dsimp only
    split
    · exact ⟨rfl, rfl, rfl, rfl, fun h => absurd hla h, _, rfl, by simp [KernelCall.isAd]⟩
    · exact ⟨rfl, rfl, rfl, rfl, fun h => absurd hla h, _, rfl, by simp [KernelCall.isAd]⟩
  · rw [if_neg hla]
    exact ⟨rfl, rfl, rfl, rfl, fun _ => rfl, [], by simp, by simp⟩

theorem tagStep_spec (A : SymMatrix α) (s : Ma27SymLinearSolver α) :
    (MultiSolve.tagStep A s).atag_ = A.tag ∧
    (MultiSolve.tagStep A s).initialized_ = s.initialized_ ∧
    (MultiSolve.tagStep A s).la_ = s.la_ ∧
    (MultiSolve.tagStep A s).log = s.log ∧
    (MultiSolve.tagStep A s).settings = s.settings ∧
    (s.factorized_ = false → (MultiSolve.tagStep A s).factorized_ = false) ∧
    (s.atag_ = A.tag → MultiSolve.tagStep A s = s) := by
  unfold MultiSolve.tagStep SymMatrix.HasChanged SymMatrix.GetTag
  by_cases ht : s.atag_ = A.tag
  · simp [ht]
  · simp [ht, Ma27SymLinearSolver.settings]

/-- The method `MultiSolve` when its symbolic step fails: it returns that status at once. -/
theorem MultiSolve_of_symbolic_failed (K : Kernel α) (fuel : Nat) (A : SymMatrix α)
    (rhsV solV : List (List α)) (chk : Bool) (n : Int) (s : Ma27SymLinearSolver α)
    (hsym : (MultiSolve.symbolicStep K (MultiSolve.structureStep A s)).1 ≠
      ESolveStatus.S_SUCCESS) :
    MultiSolve K fuel A rhsV solV chk n s =
      some ((MultiSolve.symbolicStep K (MultiSolve.structureStep A s)).1,
        (MultiSolve.symbolicStep K (MultiSolve.structureStep A s)).2, solV) := by
  unfold MultiSolve
  dsimp only
  rw [if_pos hsym]

/-- The method `MultiSolve` when the engine is factorized at line 189: only the backsolve
runs. -/
theorem MultiSolve_of_factorized (K : Kernel α) (fuel : Nat) (A : SymMatrix α)
    (rhsV solV : List (List α)) (chk : Bool) (n : Int) (s : Ma27SymLinearSolver α)
    (hsym : (MultiSolve.symbolicStep K (MultiSolve.structureStep A s)).1 =
      ESolveStatus.S_SUCCESS)
    (hf : (MultiSolve.beforeFactorization K A s).factorized_ = true) :
    MultiSolve K fuel A rhsV solV chk n s =
      some (Backsolve K rhsV solV (MultiSolve.beforeFactorization K A s)) := by
  unfold MultiSolve
  unfold MultiSolve.beforeFactorization at hf ⊢
  dsimp only
  rw [if_neg (not_not.mpr hsym)]
  simp only [hf, Bool.not_true, Bool.not_false, Bool.false_eq_true, if_false, if_true]

/-- The method `MultiSolve` when the engine is not factorized at line 189: `Factorization` runs,
and the backsolve follows only when it returns `S_SUCCESS`. -/
theorem MultiSolve_of_not_factorized (K : Kernel α) (fuel : Nat) (A : SymMatrix α)
    (rhsV solV : List (List α)) (chk : Bool) (n : Int) (s : Ma27SymLinearSolver α)
    (hsym : (MultiSolve.symbolicStep K (MultiSolve.structureStep A s)).1 =
      ESolveStatus.S_SUCCESS)
    (hf : (MultiSolve.beforeFactorization K A s).factorized_ = false) :
    MultiSolve K fuel A rhsV solV chk n s =
      match Factorization K fuel A chk n (MultiSolve.beforeFactorization K A s) with
      | none => none
      | some (retval, s2) =>
        if retval ≠ ESolveStatus.S_SUCCESS then some (retval, s2, solV)
        else some (Backsolve K rhsV solV { s2 with factorized_ := true }) := by
  unfold MultiSolve
  unfold MultiSolve.beforeFactorization at hf ⊢
  dsimp only
  rw [if_neg (not_not.mpr hsym)]
  simp only [hf, Bool.not_true, Bool.not_false, Bool.false_eq_true, if_false, if_true]

/-- What the steps of `MultiSolve` before line 189 do to the engine. -/
theorem beforeFactorization_spec (K : Kernel α) (A : SymMatrix α) (s : Ma27SymLinearSolver α) :
    (MultiSolve.beforeFactorization K A s).initialized_ = true ∧
    (MultiSolve.beforeFactorization K A s).atag_ = A.tag ∧
    (MultiSolve.beforeFactorization K A s).settings = s.settings ∧
    (s.factorized_ = false → (MultiSolve.beforeFactorization K A s).factorized_ = false) ∧
    (s.la_ ≠ 0 →
      (MultiSolve.symbolicStep K (MultiSolve.structureStep A s)).1 = ESolveStatus.S_SUCCESS ∧
      (MultiSolve.beforeFactorization K A s).la_ = s.la_ ∧
      (MultiSolve.beforeFactorization K A s).log = s.log) ∧
    (s.la_ ≠ 0 → s.initialized_ = true → s.atag_ = A.tag →
      MultiSolve.beforeFactorization K A s = s) ∧
    ∃ evs : List (KernelCall α),
      (MultiSolve.beforeFactorization K A s).log = s.log ++ evs ∧
      (∀ e ∈ evs, e.isAd = true) := by
  obtain ⟨a1, a2, a3, a4, a5, a6⟩ := structureStep_spec A s
  obtain ⟨b1, b2, b3, b4, b5, evs, b6, b7⟩ :=
    symbolicStep_spec K (MultiSolve.structureStep A s)
  obtain ⟨c1, c2, c3, c4, c5, c6, c7⟩ :=
    tagStep_spec A (MultiSolve.symbolicStep K (MultiSolve.structureStep A s)).2
  unfold MultiSolve.beforeFactorization
  refine ⟨by rw [c2, b1, a1], c1, by rw [c5, b4, a4], ?_, ?_, ?_, evs, by rw [c4, b6, a3], b7⟩
  · intro hf
    exact c6 (by rw [b2]; exact a5 hf)
  · intro hla
    have h := b5 (by rw [a2]; exact hla)
    refine ⟨by rw [h], ?_, ?_⟩
    · rw [c3, h]; exact a2
    · rw [c4, h]; exact a3
  · intro hla hi ht
    have h := b5 (by rw [a2]; exact hla)
    have e1 : (MultiSolve.symbolicStep K (MultiSolve.structureStep A s)).2 = s := by
      rw [h]; exact a6 hi
    rw [e1] at c7 ⊢
    exact c7 ht

theorem settings_cntl_eq {s s' : Ma27SymLinearSolver α} (h : s'.settings = s.settings) :
    s'.cntl_ = s.cntl_ := by
  simp only [Ma27SymLinearSolver.settings, Prod.mk.injEq] at h
  exact h.2.2.2.2.2.2

theorem settings_pivtol_eq {s s' : Ma27SymLinearSolver α} (h : s'.settings = s.settings) :
    s'.pivtol_ = s.pivtol_ ∧ s'.pivtolmax_ = s.pivtolmax_ := by
  simp only [Ma27SymLinearSolver.settings, Prod.mk.injEq] at h
  exact ⟨h.1, h.2.1⟩

theorem KernelCall.isCd_of_isAd {e : KernelCall α} (h : e.isAd = true) : e.isCd = false := by
  cases e <;> simp_all [KernelCall.isAd, KernelCall.isCd]

theorem KernelCall.isCd_of_isBd {e : KernelCall α} (h : e.isBd = true) : e.isCd = false := by
  cases e <;> simp_all [KernelCall.isBd, KernelCall.isCd]

theorem KernelCall.isBd_of_bdOut {e : KernelCall α} {o : Ma27bdOut α} (h : e.bdOut = some o) :
    e.isBd = true := by
  cases e <;> simp_all [KernelCall.isBd, KernelCall.bdOut]

/-- The kernel invocations of a call of `Factorization` that returns: a nonempty list of
calls of MA27BD, each handed the engine's `cntl_`. -/
theorem Factorization_log (K : Kernel α) (fuel : Nat) (A : SymMatrix α) (chk : Bool)
    (n : Int) (s s' : Ma27SymLinearSolver α) (r : ESolveStatus)
    (h : Factorization K fuel A chk n s = some (r, s')) :
    ∃ (e : KernelCall α) (evs : List (KernelCall α)),
      s'.log = s.log ++ e :: evs ∧ e.isBd = true ∧ e.bdCntl = some s.cntl_ ∧
      (∀ x ∈ evs, x.isBd = true) := by
  obtain ⟨evs, s0, -, hlog0, hev, hcn, -, -, -, hlog, -, -, -, -⟩ :=
    Factorization_spec K fuel A chk n s s' r h
  rw [hlog0, List.append_assoc] at hlog
  cases evs with
  | nil =>
    exact ⟨_, [], hlog, rfl, rfl, by simp⟩
  | cons e rest =>
    refine ⟨e, rest ++ [KernelCall.bd (TripletHelper.FillValues s0.nonzeros_ A s0.a_) s0.la_
      s0.liw_ s.cntl_ (Factorization.callMa27bd K A s0)], by rw [hlog]; simp, ?_, ?_, ?_⟩
    · obtain ⟨o, ho, -⟩ := hev e (List.mem_cons_self _ _)
      exact KernelCall.isBd_of_bdOut ho
    · exact hcn e (List.mem_cons_self _ _)
    · intro x hx
      rcases List.mem_append.1 hx with hx | hx
      · obtain ⟨o, ho, -⟩ := hev x (List.mem_cons_of_mem _ hx)
        exact KernelCall.isBd_of_bdOut ho
      · rw [List.mem_singleton.1 hx]; rfl

/-- A call of `MultiSolve` on an engine whose workspace is sized (`la_ != 0`) and that is not
factorized begins, when it returns, with a call of MA27BD, which is handed the engine's
`cntl_`. -/
theorem MultiSolve_refactorizes (K : Kernel α) (fuel : Nat) (A : SymMatrix α)
    (rhsV solV : List (List α)) (chk : Bool) (n : Int) (s s' : Ma27SymLinearSolver α)
    (r : ESolveStatus) (solV' : List (List α))
    (hla : s.la_ ≠ 0) (hnf : s.factorized_ = false)
    (h : MultiSolve K fuel A rhsV solV chk n s = some (r, s', solV')) :
    ∃ (e : KernelCall α) (evs : List (KernelCall α)),
      s'.log = s.log ++ e :: evs ∧ e.isBd = true ∧ e.bdCntl = some s.cntl_ := by
  obtain ⟨-, -, hset, hf, h5, -, -⟩ := beforeFactorization_spec K A s
  obtain ⟨hsym, -, hlog⟩ := h5 hla
  rw [MultiSolve_of_not_factorized K fuel A rhsV solV chk n s hsym (hf hnf)] at h
  cases hF : Factorization K fuel A chk n (MultiSolve.beforeFactorization K A s) with
  | none => rw [hF] at h; exact absurd h (by simp)
  | some p =>
    obtain ⟨rF, sF⟩ := p
    obtain ⟨e, evs, hl, hb, hc, -⟩ := Factorization_log K fuel A chk n _ _ _ hF
    rw [hlog] at hl
    rw [settings_cntl_eq hset] at hc
    rw [hF] at h
    dsimp only at h
    split at h
    · simp only [Option.some.injEq, Prod.mk.injEq] at h
      obtain ⟨-, rfl, -⟩ := h
      exact ⟨e, evs, hl, hb, hc⟩
    · obtain ⟨-, cds, hbs, -⟩ := Backsolve_spec K rhsV solV { sF with factorized_ := true }
      simp only [Option.some.injEq] at h
      rw [h] at hbs
      dsimp only at hbs
      refine ⟨e, evs ++ cds, ?_, hb, hc⟩
      rw [hbs]
      dsimp only
      rw [hl]; simp

/-- C5: when `MultiSolve` runs its symbolic step (`la_ == 0`) and the structure analysis MA27AD
answers a nonzero status, `MultiSolve` returns `S_FATAL_ERROR` whatever the fuel, the only
kernel invocation it has made is that call of MA27AD, so neither MA27BD nor MA27CD is invoked,
the solution vectors are unchanged, and `la_` keeps the value it had before the call. -/
theorem C5_MultiSolve_structure_error (K : Kernel α) (fuel : Nat) (A : SymMatrix α)
    (rhsV solV : List (List α)) (check_NegEVals : Bool) (numberOfNegEVals : Int)
    (s : Ma27SymLinearSolver α)
    (hla : s.la_ = 0)
    (hflag : (SymbolicFactorization.callMa27ad K (MultiSolve.structureStep A s)).iflag ≠ 0) :
    ∃ s' : Ma27SymLinearSolver α,
      MultiSolve K fuel A rhsV solV check_NegEVals numberOfNegEVals s =
        some (ESolveStatus.S_FATAL_ERROR, s', solV) ∧
      s'.la_ = s.la_ ∧
      s'.log = s.log ++ [KernelCall.ad s'.liw_
        (SymbolicFactorization.callMa27ad K (MultiSolve.structureStep A s))] ∧
      (∀ e ∈ s'.log.drop s.log.length, e.isBd = false ∧ e.isCd = false) := by
  obtain ⟨-, a2, a3, -, -, -⟩ := structureStep_spec A s
  have hsf : SymbolicFactorization K (MultiSolve.structureStep A s) =
      (ESolveStatus.S_FATAL_ERROR,
        { SymbolicFactorization.prepare (MultiSolve.structureStep A s) with
          iw_ := (SymbolicFactorization.callMa27ad K (MultiSolve.structureStep A s)).iw,
          ikeep_ := (SymbolicFactorization.callMa27ad K (MultiSolve.structureStep A s)).ikeep,
          nsteps_ := (SymbolicFactorization.callMa27ad K (MultiSolve.structureStep A s)).nsteps,
          log := (SymbolicFactorization.prepare (MultiSolve.structureStep A s)).log ++
            [KernelCall.ad (SymbolicFactorization.prepare (MultiSolve.structureStep A s)).liw_
              (SymbolicFactorization.callMa27ad K (MultiSolve.structureStep A s))] }) := by
    unfold SymbolicFactorization
    dsimp only
    rw [if_pos hflag]
  have hstep : MultiSolve.symbolicStep K (MultiSolve.structureStep A s) =
      SymbolicFactorization K (MultiSolve.structureStep A s) := by
    unfold MultiSolve.symbolicStep
    rw [if_pos (by rw [a2]; exact hla)]
  have hM := MultiSolve_of_symbolic_failed K fuel A rhsV solV check_NegEVals numberOfNegEVals s
    (by rw [hstep, hsf]; simp)
  rw [hstep, hsf] at hM
  refine ⟨_, hM, ?_, ?_, ?_⟩
  · exact a2
  · show (SymbolicFactorization.prepare (MultiSolve.structureStep A s)).log ++ _ = _
    have : (SymbolicFactorization.prepare (MultiSolve.structureStep A s)).log = s.log := a3
    rw [this]
  · show ∀ e ∈ ((SymbolicFactorization.prepare (MultiSolve.structureStep A s)).log ++ _).drop _, _
    have : (SymbolicFactorization.prepare (MultiSolve.structureStep A s)).log = s.log := a3
    rw [this]
    intro e he
    simp only [List.drop_left, List.mem_singleton] at he
    rw [he]
    exact ⟨rfl, rfl⟩

/-- C5, at a kernel whose structure analysis answers -1, on a freshly initialised engine. -/
theorem C5_MultiSolve_structure_error_witness :
    (initializedEngine badStructureKernel noOptions).la_ = 0 ∧
    (SymbolicFactorization.callMa27ad badStructureKernel
      (MultiSolve.structureStep exampleMatrix
        (initializedEngine badStructureKernel noOptions))).iflag ≠ 0 ∧
    ∃ s' : Ma27SymLinearSolver ℚ,
      MultiSolve badStructureKernel 0 exampleMatrix [[1, 0, 1]] [[7, 7, 7]] false 0
        (initializedEngine badStructureKernel noOptions) =
        some (ESolveStatus.S_FATAL_ERROR, s', [[7, 7, 7]]) ∧
      s'.la_ = (initializedEngine badStructureKernel noOptions).la_ ∧
      s'.log = (initializedEngine badStructureKernel noOptions).log ++ [KernelCall.ad s'.liw_
        (SymbolicFactorization.callMa27ad badStructureKernel
          (MultiSolve.structureStep exampleMatrix
            (initializedEngine badStructureKernel noOptions)))] ∧
      (∀ e ∈ s'.log.drop (initializedEngine badStructureKernel noOptions).log.length,
        e.isBd = false ∧ e.isCd = false) :=
  have h1 : (initializedEngine badStructureKernel noOptions).la_ = 0 := by rfl
  have h2 : (SymbolicFactorization.callMa27ad badStructureKernel
      (MultiSolve.structureStep exampleMatrix
        (initializedEngine badStructureKernel noOptions))).iflag ≠ 0 := by decide
  ⟨h1, h2, C5_MultiSolve_structure_error badStructureKernel 0 exampleMatrix [[1, 0, 1]]
    [[7, 7, 7]] false 0 _ h1 h2⟩

/-- After a call of `MultiSolve` that returned `S_SUCCESS` the engine is factorized, its
structure is captured and its stored tag is the tag of the matrix. -/
theorem MultiSolve_success_state (K : Kernel α) (fuel : Nat) (A : SymMatrix α)
    (rhsV solV : List (List α)) (chk : Bool) (n : Int) (s s1 : Ma27SymLinearSolver α)
    (solV1 : List (List α))
    (h : MultiSolve K fuel A rhsV solV chk n s = some (ESolveStatus.S_SUCCESS, s1, solV1)) :
    s1.factorized_ = true ∧ s1.initialized_ = true ∧ s1.atag_ = A.tag := by
  obtain ⟨hi, ht, -, -, -, -, -⟩ := beforeFactorization_spec K A s
  by_cases hsym : (MultiSolve.symbolicStep K (MultiSolve.structureStep A s)).1 =
      ESolveStatus.S_SUCCESS
  swap
  · rw [MultiSolve_of_symbolic_failed K fuel A rhsV solV chk n s hsym] at h
    simp only [Option.some.injEq, Prod.mk.injEq] at h
    exact absurd h.1 hsym
  cases hf : (MultiSolve.beforeFactorization K A s).factorized_ with
  | true =>
    rw [MultiSolve_of_factorized K fuel A rhsV solV chk n s hsym hf] at h
    obtain ⟨-, cds, hbs, -⟩ := Backsolve_spec K rhsV solV (MultiSolve.beforeFactorization K A s)
    simp only [Option.some.injEq] at h
    rw [h] at hbs
    dsimp only at hbs
    rw [hbs]
    exact ⟨hf, hi, ht⟩
  | false =>
    rw [MultiSolve_of_not_factorized K fuel A rhsV solV chk n s hsym hf] at h
    cases hF : Factorization K fuel A chk n (MultiSolve.beforeFactorization K A s) with
    | none => rw [hF] at h; exact absurd h (by simp)
    | some p =>
      obtain ⟨rF, sF⟩ := p
      rw [hF] at h
      dsimp only at h
      obtain ⟨-, -, -, -, -, -, -, -, hw, -, -, -, -, -⟩ :=
        Factorization_spec K fuel A chk n _ sF rF hF
      split at h
      · rename_i hne
        simp only [Option.some.injEq, Prod.mk.injEq] at h
        exact absurd h.1 hne
      · obtain ⟨-, cds, hbs, -⟩ := Backsolve_spec K rhsV solV { sF with factorized_ := true }
        simp only [Option.some.injEq] at h
        rw [h] at hbs
        dsimp only at hbs
        rw [hbs]
        exact ⟨rfl, by rw [← hi]; exact hw.initialized_eq, by rw [← ht]; exact hw.atag_eq⟩

/-- A call of `MultiSolve` on a factorized engine whose workspace is sized and whose stored tag
is the tag of the matrix is the backsolve alone. -/
theorem MultiSolve_repeat (K : Kernel α) (fuel : Nat) (A : SymMatrix α)
    (rhsV solV : List (List α)) (chk : Bool) (n : Int) (s : Ma27SymLinearSolver α)
    (hi : s.initialized_ = true) (hla : s.la_ ≠ 0) (hf : s.factorized_ = true)
    (ht : s.atag_ = A.tag) :
    MultiSolve K fuel A rhsV solV chk n s = some (Backsolve K rhsV solV s) := by
  obtain ⟨-, -, -, -, h5, h6, -⟩ := beforeFactorization_spec K A s
  have hb := h6 hla hi ht
  have := MultiSolve_of_factorized K fuel A rhsV solV chk n s (h5 hla).1 (by rw [hb]; exact hf)
  rw [hb] at this
  exact this

/-- C2, as the code behaves.  After a `MultiSolve` that returned `S_SUCCESS` and left the
workspace sized (`la_ != 0`), every further `MultiSolve` on the same unchanged matrix returns
`S_SUCCESS` whatever `check_NegEVals` and `numberOfNegEVals` are: it only backsolves, and the
recorded count of negative eigenvalues stays.  The count is compared only in a `MultiSolve`
that runs the numeric factorization: there, with `check_NegEVals` true, a final kernel status 0
and a count different from `numberOfNegEVals`, `MultiSolve` returns `S_WRONG_INERTIA`. -/
theorem C2_inertia_checked_only_when_factorizing :
    (∀ (K : Kernel α) (A : SymMatrix α) (fuel1 : Nat) (rhs1 sol1 : List (List α))
        (chk1 : Bool) (n1 : Int) (s s1 : Ma27SymLinearSolver α) (out1 : List (List α)),
        MultiSolve K fuel1 A rhs1 sol1 chk1 n1 s = some (ESolveStatus.S_SUCCESS, s1, out1) →
        s1.la_ ≠ 0 →
        ∀ (fuel2 : Nat) (rhs2 sol2 : List (List α)) (chk2 : Bool) (n2 : Int)
          (fuel3 : Nat) (rhs3 sol3 : List (List α)) (chk3 : Bool) (n3 : Int),
          ∃ (s2 s3 : Ma27SymLinearSolver α) (out2 out3 : List (List α)),
            MultiSolve K fuel2 A rhs2 sol2 chk2 n2 s1 =
              some (ESolveStatus.S_SUCCESS, s2, out2) ∧
            MultiSolve K fuel3 A rhs3 sol3 chk3 n3 s2 =
              some (ESolveStatus.S_SUCCESS, s3, out3) ∧
            (∃ cds : List (KernelCall α),
              s3.log = s1.log ++ cds ∧ ∀ e ∈ cds, e.isCd = true) ∧
            NumberOfNegEVals s3 = NumberOfNegEVals s1) ∧
    (∀ (K : Kernel α) (A : SymMatrix α) (fuel : Nat) (rhsV solV : List (List α))
        (n : Int) (s s2 : Ma27SymLinearSolver α) (rF : ESolveStatus) (out : Ma27bdOut α),
        (MultiSolve.symbolicStep K (MultiSolve.structureStep A s)).1 =
          ESolveStatus.S_SUCCESS →
        (MultiSolve.beforeFactorization K A s).factorized_ = false →
        Factorization K fuel A true n (MultiSolve.beforeFactorization K A s) = some (rF, s2) →
        s2.log.getLast?.bind KernelCall.bdOut = some out →
        out.iflag = 0 → n ≠ out.negevals →
        MultiSolve K fuel A rhsV solV true n s =
          some (ESolveStatus.S_WRONG_INERTIA, s2, solV)) := by
  constructor
  · intro K A fuel1 rhs1 sol1 chk1 n1 s s1 out1 h1 hla fuel2 rhs2 sol2 chk2 n2 fuel3 rhs3 sol3
      chk3 n3
    obtain ⟨hf, hi, ht⟩ := MultiSolve_success_state K fuel1 A rhs1 sol1 chk1 n1 s s1 out1 h1
    obtain ⟨-, cds2, hb2, hc2⟩ := Backsolve_spec K rhs2 sol2 s1
    have e2 := MultiSolve_repeat K fuel2 A rhs2 sol2 chk2 n2 s1 hi hla hf ht
    have hs2 : (Backsolve K rhs2 sol2 s1).2.1.initialized_ = true ∧
        (Backsolve K rhs2 sol2 s1).2.1.la_ ≠ 0 ∧
        (Backsolve K rhs2 sol2 s1).2.1.factorized_ = true ∧
        (Backsolve K rhs2 sol2 s1).2.1.atag_ = A.tag ∧
        (Backsolve K rhs2 sol2 s1).2.1.negevals_ = s1.negevals_ := by
      rw [hb2]; exact ⟨hi, hla, hf, ht, rfl⟩
    obtain ⟨-, cds3, hb3, hc3⟩ := Backsolve_spec K rhs3 sol3 (Backsolve K rhs2 sol2 s1).2.1
    have e3 := MultiSolve_repeat K fuel3 A rhs3 sol3 chk3 n3 (Backsolve K rhs2 sol2 s1).2.1
      hs2.1 hs2.2.1 hs2.2.2.1 hs2.2.2.2.1
    refine ⟨(Backsolve K rhs2 sol2 s1).2.1, (Backsolve K rhs3 sol3
      (Backsolve K rhs2 sol2 s1).2.1).2.1, (Backsolve K rhs2 sol2 s1).2.2,
      (Backsolve K rhs3 sol3 (Backsolve K rhs2 sol2 s1).2.1).2.2, e2, e3, ?_, ?_⟩
    · refine ⟨cds2 ++ cds3, ?_, ?_⟩
      · rw [hb3]; dsimp only; rw [hb2]; simp
      · intro e he
        rcases List.mem_append.1 he with he | he
        · exact hc2 e he
        · exact hc3 e he
    · unfold NumberOfNegEVals
      rw [hb3]; dsimp only; exact hs2.2.2.2.2
  · intro K A fuel rhsV solV n s s2 rF out hsym hnf hF hlast h0 hne
    obtain ⟨evs, s0, -, -, -, -, -, -, -, hlog, -, -, -, hr⟩ :=
      Factorization_spec K fuel A true n _ s2 rF hF
    rw [hlog, List.getLast?_concat] at hlast
    simp only [Option.some_bind, KernelCall.bdOut, Option.some.injEq] at hlast
    subst hlast
    have hrF : rF = ESolveStatus.S_WRONG_INERTIA := by
      rw [hr]
      unfold Factorization.outcome
      rw [if_neg (by rw [h0]; decide), if_neg (by rw [h0]; decide), if_pos ⟨rfl, hne⟩]
    subst hrF
    rw [MultiSolve_of_not_factorized K fuel A rhsV solV true n s hsym hnf, hF]
    dsimp only
    rw [if_pos (by decide)]

/-- C2, a counterexample to the claim as stated: on the matrix of the spec's scenario, with a
kernel whose factorization succeeds with one negative eigenvalue, the three solves with
(no check), (check, 1 expected) and (check, 2 expected) return `S_SUCCESS`, `S_SUCCESS` and
again `S_SUCCESS`; the third does not return `S_WRONG_INERTIA`. -/
theorem C2_third_solve_returns_success :
    statusOfMultiSolve goodKernel 1 exampleMatrix [[1, 0, 1]] [[0, 0, 0]] false 0
      (initializedEngine goodKernel noOptions) = some ESolveStatus.S_SUCCESS ∧
    NumberOfNegEVals (engineAfterMultiSolve goodKernel 1 exampleMatrix [[1, 0, 1]] [[0, 0, 0]]
      false 0 (initializedEngine goodKernel noOptions)) = 1 ∧
    statusOfMultiSolve goodKernel 1 exampleMatrix [[1, 0, 1]] [[0, 0, 0]] true 1
      (engineAfterMultiSolve goodKernel 1 exampleMatrix [[1, 0, 1]] [[0, 0, 0]] false 0
        (initializedEngine goodKernel noOptions)) = some ESolveStatus.S_SUCCESS ∧
    statusOfMultiSolve goodKernel 1 exampleMatrix [[1, 0, 1]] [[0, 0, 0]] true 2
      (engineAfterMultiSolve goodKernel 1 exampleMatrix [[1, 0, 1]] [[0, 0, 0]] true 1
        (engineAfterMultiSolve goodKernel 1 exampleMatrix [[1, 0, 1]] [[0, 0, 0]] false 0
          (initializedEngine goodKernel noOptions))) = some ESolveStatus.S_SUCCESS ∧
    statusOfMultiSolve goodKernel 1 exampleMatrix [[1, 0, 1]] [[0, 0, 0]] true 2
      (engineAfterMultiSolve goodKernel 1 exampleMatrix [[1, 0, 1]] [[0, 0, 0]] true 1
        (engineAfterMultiSolve goodKernel 1 exampleMatrix [[1, 0, 1]] [[0, 0, 0]] false 0
          (initializedEngine goodKernel noOptions))) ≠ some ESolveStatus.S_WRONG_INERTIA := by
  refine ⟨?_, ?_, ?_, ?_, ?_⟩ <;> with_unfolding_all decide

/-- C2 as the code behaves, at the matrix of the spec's scenario: after a first successful
solve the two repeat solves return `S_SUCCESS`, and a first solve that expects two negative
eigenvalues returns `S_WRONG_INERTIA`. -/
theorem C2_inertia_checked_only_when_factorizing_witness :
    (MultiSolve goodKernel 1 exampleMatrix [[1, 0, 1]] [[0, 0, 0]] false 0
        (initializedEngine goodKernel noOptions) =
      some (ESolveStatus.S_SUCCESS,
        engineAfterMultiSolve goodKernel 1 exampleMatrix [[1, 0, 1]] [[0, 0, 0]] false 0
          (initializedEngine goodKernel noOptions), [[1, 0, 1]]) ∧
     (engineAfterMultiSolve goodKernel 1 exampleMatrix [[1, 0, 1]] [[0, 0, 0]] false 0
        (initializedEngine goodKernel noOptions)).la_ ≠ 0 ∧
     ∃ (s2 s3 : Ma27SymLinearSolver ℚ) (out2 out3 : List (List ℚ)),
       MultiSolve goodKernel 1 exampleMatrix [[1, 0, 1]] [[0, 0, 0]] true 1
         (engineAfterMultiSolve goodKernel 1 exampleMatrix [[1, 0, 1]] [[0, 0, 0]] false 0
           (initializedEngine goodKernel noOptions)) =
         some (ESolveStatus.S_SUCCESS, s2, out2) ∧
       MultiSolve goodKernel 1 exampleMatrix [[1, 0, 1]] [[0, 0, 0]] true 2 s2 =
         some (ESolveStatus.S_SUCCESS, s3, out3) ∧
       (∃ cds : List (KernelCall ℚ),
         s3.log = (engineAfterMultiSolve goodKernel 1 exampleMatrix [[1, 0, 1]] [[0, 0, 0]]
           false 0 (initializedEngine goodKernel noOptions)).log ++ cds ∧
         ∀ e ∈ cds, e.isCd = true) ∧
       NumberOfNegEVals s3 = NumberOfNegEVals
         (engineAfterMultiSolve goodKernel 1 exampleMatrix [[1, 0, 1]] [[0, 0, 0]] false 0
           (initializedEngine goodKernel noOptions))) ∧
    ((MultiSolve.symbolicStep goodKernel
        (MultiSolve.structureStep exampleMatrix (initializedEngine goodKernel noOptions))).1 =
        ESolveStatus.S_SUCCESS ∧
     (MultiSolve.beforeFactorization goodKernel exampleMatrix
        (initializedEngine goodKernel noOptions)).factorized_ = false ∧
     MultiSolve goodKernel 1 exampleMatrix [[1, 0, 1]] [[0, 0, 0]] true 2
        (initializedEngine goodKernel noOptions) =
       some (ESolveStatus.S_WRONG_INERTIA,
         engineAfterFactorization goodKernel 1 exampleMatrix true 2
           (MultiSolve.beforeFactorization goodKernel exampleMatrix
             (initializedEngine goodKernel noOptions)), [[0, 0, 0]])) :=
  have h1 : MultiSolve goodKernel 1 exampleMatrix [[1, 0, 1]] [[0, 0, 0]] false 0
        (initializedEngine goodKernel noOptions) =
      some (ESolveStatus.S_SUCCESS,
        engineAfterMultiSolve goodKernel 1 exampleMatrix [[1, 0, 1]] [[0, 0, 0]] false 0
          (initializedEngine goodKernel noOptions), [[1, 0, 1]]) := by
    with_unfolding_all rfl
  have h2 : (engineAfterMultiSolve goodKernel 1 exampleMatrix [[1, 0, 1]] [[0, 0, 0]] false 0
        (initializedEngine goodKernel noOptions)).la_ ≠ 0 := by with_unfolding_all decide
  have h3 : (MultiSolve.symbolicStep goodKernel
        (MultiSolve.structureStep exampleMatrix (initializedEngine goodKernel noOptions))).1 =
        ESolveStatus.S_SUCCESS := by rfl
  have h4 : (MultiSolve.beforeFactorization goodKernel exampleMatrix
        (initializedEngine goodKernel noOptions)).factorized_ = false := by rfl
  have h5 : Factorization goodKernel 1 exampleMatrix true 2
      (MultiSolve.beforeFactorization goodKernel exampleMatrix
        (initializedEngine goodKernel noOptions)) =
      some (ESolveStatus.S_WRONG_INERTIA,
        engineAfterFactorization goodKernel 1 exampleMatrix true 2
          (MultiSolve.beforeFactorization goodKernel exampleMatrix
            (initializedEngine goodKernel noOptions))) := by rfl
  have h6 : (engineAfterFactorization goodKernel 1 exampleMatrix true 2
      (MultiSolve.beforeFactorization goodKernel exampleMatrix
        (initializedEngine goodKernel noOptions))).log.getLast?.bind KernelCall.bdOut =
      some ⟨[2, 1, -1, 1, 3] ++ List.replicate 35 0, List.replicate 40 0, 1, 0, 0, 0, 0, 1⟩ := by
    with_unfolding_all decide
  ⟨⟨h1, h2, C2_inertia_checked_only_when_factorizing.1 goodKernel exampleMatrix 1 [[1, 0, 1]]
      [[0, 0, 0]] false 0 _ _ _ h1 h2 1 [[1, 0, 1]] [[0, 0, 0]] true 1 1 [[1, 0, 1]]
      [[0, 0, 0]] true 2⟩,
   ⟨h3, h4, C2_inertia_checked_only_when_factorizing.2 goodKernel exampleMatrix 1 [[1, 0, 1]]
      [[0, 0, 0]] 2 _ _ _ _ h3 h4 h5 h6 rfl (by decide)⟩⟩

theorem readOption_eq {β : Type} (o : Option α) (p : α → Prop) [DecidablePred p] (d : α)
    (upd : α → β) (e : Exception) :
    (match o with
      | some value => if p value then Except.ok (upd value) else Except.error e
      | none => Except.ok (upd d)) =
    if (∀ v ∈ o, p v) then Except.ok (upd (o.getD d)) else Except.error e := by
  cases o <;> simp

/-- The method `InitializeImpl` in closed form: the options are in range and it returns true
with the supplied values or the defaults stored, or it raises `OPTION_OUT_OF_RANGE`. -/
theorem InitializeImpl_eq (K : Kernel α) (options : OptionsList α) (pfx : String)
    (s : Ma27SymLinearSolver α) :
    InitializeImpl K options pfx s =
      if OptionsInRange options pfx then
        Except.ok (true,
          { s with
            pivtol_ := (options.GetNumericValue "pivtol" pfx).getD 1e-8,
            pivtolmax_ := (options.GetNumericValue "pivtolmax" pfx).getD 1e-4,
            liw_init_factor_ := (options.GetNumericValue "liw_init_factor" pfx).getD 5,
            la_init_factor_ := (options.GetNumericValue "la_init_factor" pfx).getD 5,
            meminc_factor_ := (options.GetNumericValue "meminc_factor" pfx).getD 10,
            icntl_ := (K.ma27id.1.set 0 0).set 1 0,
            cntl_ := K.ma27id.2.set 0 ((options.GetNumericValue "pivtol" pfx).getD 1e-8),
            atag_ := 0, dim_ := 0, nonzeros_ := 0, initialized_ := false, factorized_ := false,
            la_increase_ := false, liw_increase_ := false })
      else Except.error Exception.OPTION_OUT_OF_RANGE := by
  unfold InitializeImpl
  simp only [readOption_eq]
  by_cases p1 : ∀ v ∈ options.GetNumericValue "pivtol" pfx, v > 0 ∧ v < 1
  swap
  · rw [if_neg p1, if_neg (fun h => p1 h.1)]
  rw [if_pos p1]; dsimp only
  by_cases p2 : ∀ v ∈ options.GetNumericValue "pivtolmax" pfx,
      v ≥ (options.GetNumericValue "pivtol" pfx).getD 1e-8 ∧ v < 1
  swap
  · rw [if_neg p2, if_neg (fun h => p2 h.2.1)]
  rw [if_pos p2]; dsimp only
  by_cases p3 : ∀ v ∈ options.GetNumericValue "liw_init_factor" pfx, v ≥ 1
  swap
  · rw [if_neg p3, if_neg (fun h => p3 h.2.2.1)]
  rw [if_pos p3]; dsimp only
  by_cases p4 : ∀ v ∈ options.GetNumericValue "la_init_factor" pfx, v ≥ 1
  swap
  · rw [if_neg p4, if_neg (fun h => p4 h.2.2.2.1)]
  rw [if_pos p4]; dsimp only
  by_cases p5 : ∀ v ∈ options.GetNumericValue "meminc_factor" pfx, v > 1
  swap
  · rw [if_neg p5, if_neg (fun h => p5 h.2.2.2.2)]
  rw [if_pos p5, if_pos ⟨p1, p2, p3, p4, p5⟩]

/-- C6: `IncreaseQuality` returns false exactly when `pivtol_` equals `pivtolmax_`; when it
returns false the engine is unchanged; when it returns true, `pivtol_` has become
`min(pivtolmax_, pow(pivtol_, 0.75))` and `factorized_` is false. -/
theorem C6_IncreaseQuality_contract (pow : α → α → α) (s : Ma27SymLinearSolver α) :
    ((IncreaseQuality pow s).1 = false ↔ s.pivtol_ = s.pivtolmax_) ∧
    ((IncreaseQuality pow s).1 = false → (IncreaseQuality pow s).2 = s) ∧
    ((IncreaseQuality pow s).1 = true →
      (IncreaseQuality pow s).2.pivtol_ = min s.pivtolmax_ (pow s.pivtol_ 0.75) ∧
      (IncreaseQuality pow s).2.factorized_ = false) := by
  unfold IncreaseQuality
  by_cases h : s.pivtol_ = s.pivtolmax_
  · rw [if_pos h]
    exact ⟨⟨fun _ => h, fun _ => rfl⟩, fun _ => rfl, fun hc => absurd hc (by simp)⟩
  · rw [if_neg h]
    exact ⟨⟨fun hc => absurd hc (by simp), fun hc => absurd hc h⟩,
      fun hc => absurd hc (by simp), fun _ => ⟨rfl, rfl⟩⟩

/-- C6, at a freshly initialised engine (tolerance 1e-8, maximum 1e-4) and at that engine
with the tolerance set to its maximum. -/
theorem C6_IncreaseQuality_contract_witness :
    ((IncreaseQuality (fun x _ => 100 * x) (initializedEngine goodKernel noOptions)).1 = true ∧
     (IncreaseQuality (fun x _ => 100 * x) (initializedEngine goodKernel noOptions)).2.pivtol_ =
       min (initializedEngine goodKernel noOptions).pivtolmax_
         ((fun x _ => 100 * x) (initializedEngine goodKernel noOptions).pivtol_ (0.75 : ℚ)) ∧
     (IncreaseQuality (fun x _ => 100 * x)
       (initializedEngine goodKernel noOptions)).2.factorized_ = false) ∧
    ((IncreaseQuality (fun x _ => 100 * x)
        { initializedEngine goodKernel noOptions with pivtol_ := 1e-4 }).1 = false ∧
     (IncreaseQuality (fun x _ => 100 * x)
        { initializedEngine goodKernel noOptions with pivtol_ := 1e-4 }).2 =
       { initializedEngine goodKernel noOptions with pivtol_ := 1e-4 }) :=
  have h1 : (IncreaseQuality (fun x _ => 100 * x)
      (initializedEngine goodKernel noOptions)).1 = true := by
    simp [IncreaseQuality, initializedEngine, InitializeImpl, noOptions]
    norm_num
  have h2 : (IncreaseQuality (fun x _ => 100 * x)
      { initializedEngine goodKernel noOptions with pivtol_ := 1e-4 }).1 = false := by
    simp [IncreaseQuality, initializedEngine, InitializeImpl, noOptions]
  ⟨⟨h1, (C6_IncreaseQuality_contract (fun x _ => 100 * x)
      (initializedEngine goodKernel noOptions)).2.2 h1⟩,
   ⟨h2, (C6_IncreaseQuality_contract (fun x _ => 100 * x)
      { initializedEngine goodKernel noOptions with pivtol_ := 1e-4 }).2.1 h2⟩⟩

/-- C7, the failing input: `pivtol` = 1/2 is supplied and `pivtolmax` is not.  `InitializeImpl`
accepts this, storing `pivtol_` = 1/2 and the default `pivtolmax_` = 1e-4 below it, and the next
`IncreaseQuality` returns true and lowers `pivtol_`, whatever `pow` computes. -/
theorem C7_IncreaseQuality_lowers_pivtol (K : Kernel α) (pow : α → α → α)
    (s0 : Ma27SymLinearSolver α) :
    ∃ s : Ma27SymLinearSolver α,
      InitializeImpl K (onlyPivtol (1 / 2)) "" s0 = Except.ok (true, s) ∧
      s.pivtol_ = 1 / 2 ∧ s.pivtolmax_ = 1e-4 ∧
      (IncreaseQuality pow s).1 = true ∧
      (IncreaseQuality pow s).2.pivtol_ ≤ 1e-4 ∧
      (IncreaseQuality pow s).2.pivtol_ < s.pivtol_ := by
  have hin : OptionsInRange (onlyPivtol (1 / 2 : α)) "" := by
    unfold OptionsInRange onlyPivtol
    refine ⟨?_, ?_, ?_, ?_, ?_⟩
    · simp; norm_num
    all_goals simp
  have hI := InitializeImpl_eq K (onlyPivtol (1 / 2 : α)) "" s0
  rw [if_pos hin] at hI
  refine ⟨_, hI, ?_, ?_, ?_⟩
  · simp [onlyPivtol]
  · simp [onlyPivtol]
  · have hne : ((1 : α) / 2) ≠ 1e-4 := by norm_num
    have hlt : (1e-4 : α) < 1 / 2 := by norm_num
    simp only [IncreaseQuality, onlyPivtol]
    simp only [if_true, Option.getD_some, String.reduceEq, if_false, Option.getD_none]
    rw [if_neg hne]
    exact ⟨rfl, min_le_left _ _, lt_of_le_of_lt (min_le_left _ _) hlt⟩

/-- A call of `MultiSolve` that returns leaves the settings of the engine as they were. -/
theorem MultiSolve_settings (K : Kernel α) (fuel : Nat) (A : SymMatrix α)
    (rhsV solV : List (List α)) (chk : Bool) (n : Int) (s s' : Ma27SymLinearSolver α)
    (r : ESolveStatus) (solV' : List (List α))
    (h : MultiSolve K fuel A rhsV solV chk n s = some (r, s', solV')) :
    s'.settings = s.settings := by
  obtain ⟨-, -, hset, -, -, -, -⟩ := beforeFactorization_spec K A s
  by_cases hsym : (MultiSolve.symbolicStep K (MultiSolve.structureStep A s)).1 =
      ESolveStatus.S_SUCCESS
  swap
  · rw [MultiSolve_of_symbolic_failed K fuel A rhsV solV chk n s hsym] at h
    simp only [Option.some.injEq, Prod.mk.injEq] at h
    obtain ⟨-, rfl, -⟩ := h
    obtain ⟨-, -, -, a4, -, -⟩ := structureStep_spec A s
    obtain ⟨-, -, -, b4, -, -⟩ := symbolicStep_spec K (MultiSolve.structureStep A s)
    rw [b4, a4]
  cases hf : (MultiSolve.beforeFactorization K A s).factorized_ with
  | true =>
    rw [MultiSolve_of_factorized K fuel A rhsV solV chk n s hsym hf] at h
    obtain ⟨-, cds, hbs, -⟩ := Backsolve_spec K rhsV solV (MultiSolve.beforeFactorization K A s)
    simp only [Option.some.injEq] at h
    rw [h] at hbs
    dsimp only at hbs
    rw [hbs]
    exact hset
  | false =>
    rw [MultiSolve_of_not_factorized K fuel A rhsV solV chk n s hsym hf] at h
    cases hF : Factorization K fuel A chk n (MultiSolve.beforeFactorization K A s) with
    | none => rw [hF] at h; exact absurd h (by simp)
    | some p =>
      obtain ⟨rF, sF⟩ := p
      rw [hF] at h
      dsimp only at h
      obtain ⟨-, -, -, -, -, -, -, -, hw, -, -, -, -, -⟩ :=
        Factorization_spec K fuel A chk n _ sF rF hF
      split at h
      · simp only [Option.some.injEq, Prod.mk.injEq] at h
        obtain ⟨-, rfl, -⟩ := h
        rw [hw.settings_eq, hset]
      · obtain ⟨-, cds, hbs, -⟩ := Backsolve_spec K rhsV solV { sF with factorized_ := true }
        simp only [Option.some.injEq] at h
        rw [h] at hbs
        dsimp only at hbs
        rw [hbs]
        exact hw.settings_eq.trans hset

/-- C10: `InitializeImpl` raises `OPTION_OUT_OF_RANGE` if and only if a supplied option is
outside its range; otherwise it returns true, and each of the five members holds the supplied
value, or its default (1e-8, 1e-4, 5, 5, 10) when the option was not supplied. -/
theorem C10_InitializeImpl_option_ranges (K : Kernel α) (options : OptionsList α)
    (pfx : String) (s : Ma27SymLinearSolver α) :
    (InitializeImpl K options pfx s = Except.error Exception.OPTION_OUT_OF_RANGE ↔
      ¬ OptionsInRange options pfx) ∧
    (OptionsInRange options pfx →
      ∃ s' : Ma27SymLinearSolver α,
        InitializeImpl K options pfx s = Except.ok (true, s') ∧
        s'.pivtol_ = (options.GetNumericValue "pivtol" pfx).getD 1e-8 ∧
        s'.pivtolmax_ = (options.GetNumericValue "pivtolmax" pfx).getD 1e-4 ∧
        s'.liw_init_factor_ = (options.GetNumericValue "liw_init_factor" pfx).getD 5 ∧
        s'.la_init_factor_ = (options.GetNumericValue "la_init_factor" pfx).getD 5 ∧
        s'.meminc_factor_ = (options.GetNumericValue "meminc_factor" pfx).getD 10) := by
  have hI := InitializeImpl_eq K options pfx s
  constructor
  · constructor
    · intro he hin
      rw [if_pos hin, he] at hI
      exact absurd hI (by simp)
    · intro hin
      rw [if_neg hin] at hI
      exact hI
  · intro hin
    rw [if_pos hin] at hI
    exact ⟨_, hI, rfl, rfl, rfl, rfl, rfl⟩

/-- C10, at an options list in which only `pivtol` = 1/2 is supplied. -/
theorem C10_InitializeImpl_option_ranges_witness :
    OptionsInRange (onlyPivtol (1 / 2 : ℚ)) "" ∧
    ∃ s' : Ma27SymLinearSolver ℚ,
      InitializeImpl goodKernel (onlyPivtol (1 / 2)) "" zeroEngine = Except.ok (true, s') ∧
      s'.pivtol_ = ((onlyPivtol (1 / 2 : ℚ)).GetNumericValue "pivtol" "").getD 1e-8 ∧
      s'.pivtolmax_ = ((onlyPivtol (1 / 2 : ℚ)).GetNumericValue "pivtolmax" "").getD 1e-4 ∧
      s'.liw_init_factor_ =
        ((onlyPivtol (1 / 2 : ℚ)).GetNumericValue "liw_init_factor" "").getD 5 ∧
      s'.la_init_factor_ =
        ((onlyPivtol (1 / 2 : ℚ)).GetNumericValue "la_init_factor" "").getD 5 ∧
      s'.meminc_factor_ =
        ((onlyPivtol (1 / 2 : ℚ)).GetNumericValue "meminc_factor" "").getD 10 :=
  have h : OptionsInRange (onlyPivtol (1 / 2 : ℚ)) "" := by
    unfold OptionsInRange onlyPivtol
    simp
    norm_num
  ⟨h, (C10_InitializeImpl_option_ranges goodKernel (onlyPivtol (1 / 2)) "" zeroEngine).2 h⟩

theorem IncreaseQuality.repeated_succ (pow : α → α → α) :
    ∀ (k : Nat) (s : Ma27SymLinearSolver α),
      IncreaseQuality.repeated pow (k + 1) s =
        (IncreaseQuality pow (IncreaseQuality.repeated pow k s)).2 := by
  intro k
  induction k with
  | zero => intro s; rfl
  | succ k ih =>
    intro s
    show IncreaseQuality.repeated pow (k + 1) (IncreaseQuality pow s).2 = _
    rw [ih]
    rfl

theorem IncreaseQuality_pivtolmax (pow : α → α → α) (s : Ma27SymLinearSolver α) :
    (IncreaseQuality pow s).2.pivtolmax_ = s.pivtolmax_ := by
  unfold IncreaseQuality
  split <;> rfl

theorem IncreaseQuality.repeated_pivtolmax (pow : α → α → α) (s : Ma27SymLinearSolver α) :
    ∀ k : Nat, (IncreaseQuality.repeated pow k s).pivtolmax_ = s.pivtolmax_ := by
  intro k
  induction k with
  | zero => rfl
  | succ k ih => rw [IncreaseQuality.repeated_succ, IncreaseQuality_pivtolmax, ih]

theorem IncreaseQuality_at_max (pow : α → α → α) (s : Ma27SymLinearSolver α)
    (h : s.pivtol_ = s.pivtolmax_) : IncreaseQuality pow s = (false, s) := by
  unfold IncreaseQuality
  rw [if_pos h]

/-- Over the reals, a power of a number in (0,1) with a small enough positive exponent
exceeds any bound below 1. -/
theorem exists_rpow_gt (p M : ℝ) (hp0 : 0 < p) (hp1 : p < 1) (hM0 : 0 < M) (hM1 : M < 1) :
    ∃ k : Nat, M < p ^ ((3 / 4 : ℝ) ^ k) := by
  have hlp : Real.log p < 0 := Real.log_neg hp0 hp1
  have hlM : Real.log M < 0 := Real.log_neg hM0 hM1
  have ht : 0 < Real.log M / Real.log p := div_pos_of_neg_of_neg hlM hlp
  obtain ⟨k, hk⟩ := exists_pow_lt_of_lt_one ht (by norm_num : (3 / 4 : ℝ) < 1)
  refine ⟨k, ?_⟩
  rw [Real.rpow_def_of_pos hp0]
  have h1 : Real.log M < Real.log p * (3 / 4 : ℝ) ^ k := by
    have h2 : Real.log p * (Real.log M / Real.log p) < Real.log p * (3 / 4 : ℝ) ^ k :=
      mul_lt_mul_of_neg_left hk hlp
    rwa [mul_div_cancel₀ _ (ne_of_lt hlp)] at h2
  calc M = Real.exp (Real.log M) := (Real.exp_log hM0).symm
    _ < Real.exp (Real.log p * (3 / 4 : ℝ) ^ k) := Real.exp_lt_exp.2 h1

/-- Over the reals, the tolerance after `k` calls of `IncreaseQuality` is the maximum or the
initial tolerance to the power `(3/4)^k`. -/
theorem IncreaseQuality.repeated_pivtol (s : Ma27SymLinearSolver ℝ) (hp0 : 0 < s.pivtol_) :
    ∀ k : Nat,
      (IncreaseQuality.repeated Real.rpow k s).pivtol_ = s.pivtolmax_ ∨
      (IncreaseQuality.repeated Real.rpow k s).pivtol_ = s.pivtol_ ^ ((3 / 4 : ℝ) ^ k) := by
  intro k
  induction k with
  | zero => right; simp [IncreaseQuality.repeated]
  | succ k ih =>
    rw [IncreaseQuality.repeated_succ]
    have hmax := IncreaseQuality.repeated_pivtolmax Real.rpow s k
    by_cases hm : (IncreaseQuality.repeated Real.rpow k s).pivtol_ = s.pivtolmax_
    · left
      rw [IncreaseQuality_at_max Real.rpow _ (by rw [hm, hmax])]
      exact hm
    · rcases ih with ih | ih
      · exact absurd ih hm
      · have hstep : (IncreaseQuality Real.rpow (IncreaseQuality.repeated Real.rpow k s)).2.pivtol_ =
            min s.pivtolmax_ (s.pivtol_ ^ ((3 / 4 : ℝ) ^ (k + 1))) := by
          unfold IncreaseQuality
          rw [if_neg (by rw [hmax]; exact hm)]
          dsimp only
          rw [hmax, ih]
          congr 1
          show (s.pivtol_ ^ ((3 / 4 : ℝ) ^ k)) ^ (0.75 : ℝ) = _
          rw [← Real.rpow_mul (le_of_lt hp0), pow_succ]
          norm_num
        rw [hstep]
        rcases min_choice s.pivtolmax_ (s.pivtol_ ^ ((3 / 4 : ℝ) ^ (k + 1))) with h | h
        · left; exact h
        · right; exact h

/-- Every engine state reached after `InitializeImpl` has both tolerances strictly between 0
and 1 (over the reals). -/
theorem ReachableAfterInit.tolerances (K : Kernel ℝ) (s : Ma27SymLinearSolver ℝ)
    (h : ReachableAfterInit K Real.rpow s) :
    0 < s.pivtol_ ∧ s.pivtol_ < 1 ∧ 0 < s.pivtolmax_ ∧ s.pivtolmax_ < 1 := by
  induction h with
  | init options pfx s0 s b hI =>
    rw [InitializeImpl_eq] at hI
    by_cases hin : OptionsInRange options pfx
    · rw [if_pos hin] at hI
      simp only [Except.ok.injEq, Prod.mk.injEq] at hI
      obtain ⟨-, rfl⟩ := hI
      obtain ⟨h1, h2, -, -, -⟩ := hin
      dsimp only
      have hp : 0 < (options.GetNumericValue "pivtol" pfx).getD 1e-8 ∧
          (options.GetNumericValue "pivtol" pfx).getD 1e-8 < 1 := by
        cases ho : options.GetNumericValue "pivtol" pfx with
        | none => simp only [Option.getD_none]; norm_num
        | some v => exact h1 v ho
      refine ⟨hp.1, hp.2, ?_⟩
      cases ho : options.GetNumericValue "pivtolmax" pfx with
      | none => simp only [Option.getD_none]; norm_num
      | some v =>
        obtain ⟨h3, h4⟩ := h2 v ho
        exact ⟨lt_of_lt_of_le hp.1 h3, h4⟩
    · rw [if_neg hin] at hI
      exact absurd hI (by simp)
  | multiSolve fuel A rhsV solV solV' chk n r s s' _ hM ih =>
    obtain ⟨e1, e2⟩ := settings_pivtol_eq (MultiSolve_settings K fuel A rhsV solV chk n s s' r
      solV' hM)
    rw [e1, e2]
    exact ih
  | increaseQuality s _ ih =>
    obtain ⟨h1, h2, h3, h4⟩ := ih
    rw [IncreaseQuality_pivtolmax]
    refine ⟨?_, ?_, h3, h4⟩
    · unfold IncreaseQuality
      split
      · exact h1
      · exact lt_min h3 (Real.rpow_pos_of_pos h1 _)
    · unfold IncreaseQuality
      split
      · exact h2
      · exact lt_of_le_of_lt (min_le_left _ _) h4

/-- C8: over exact real arithmetic, from every engine state reached after `InitializeImpl`
some number `k` of calls of `IncreaseQuality` brings `pivtol_` to `pivtolmax_`, and from then
on every call of `IncreaseQuality` returns false, changes nothing and finds `pivtol_` at
`pivtolmax_`. -/
theorem C8_IncreaseQuality_reaches_maximum (K : Kernel ℝ) (s : Ma27SymLinearSolver ℝ)
    (h : ReachableAfterInit K Real.rpow s) :
    ∃ k : Nat,
      (IncreaseQuality.repeated Real.rpow k s).pivtol_ = s.pivtolmax_ ∧
      ∀ j : Nat, k ≤ j →
        IncreaseQuality Real.rpow (IncreaseQuality.repeated Real.rpow j s) =
          (false, IncreaseQuality.repeated Real.rpow j s) ∧
        (IncreaseQuality.repeated Real.rpow j s).pivtol_ = s.pivtolmax_ := by
  obtain ⟨hp0, hp1, hM0, hM1⟩ := ReachableAfterInit.tolerances K s h
  obtain ⟨k, hk⟩ := exists_rpow_gt s.pivtol_ s.pivtolmax_ hp0 hp1 hM0 hM1
  have hreach : (IncreaseQuality.repeated Real.rpow (k + 1) s).pivtol_ = s.pivtolmax_ := by
    rw [IncreaseQuality.repeated_succ]
    have hmax := IncreaseQuality.repeated_pivtolmax Real.rpow s k
    by_cases hm : (IncreaseQuality.repeated Real.rpow k s).pivtol_ = s.pivtolmax_
    · rw [IncreaseQuality_at_max Real.rpow _ (by rw [hm, hmax])]
      exact hm
    · rcases IncreaseQuality.repeated_pivtol s hp0 k with ih | ih
      · exact absurd ih hm
      · unfold IncreaseQuality
        rw [if_neg (by rw [hmax]; exact hm)]
        dsimp only
        rw [hmax, ih]
        apply min_eq_left
        have h1 : (s.pivtol_ ^ ((3 / 4 : ℝ) ^ k)) ^ (0.75 : ℝ) =
            s.pivtol_ ^ ((3 / 4 : ℝ) ^ (k + 1)) := by
          rw [← Real.rpow_mul (le_of_lt hp0), pow_succ]
          norm_num
        show s.pivtolmax_ ≤ (s.pivtol_ ^ ((3 / 4 : ℝ) ^ k)) ^ (0.75 : ℝ)
        rw [h1]
        have h2 : s.pivtol_ ^ ((3 / 4 : ℝ) ^ k) ≤ s.pivtol_ ^ ((3 / 4 : ℝ) ^ (k + 1)) :=
          Real.rpow_le_rpow_of_exponent_ge hp0 (le_of_lt hp1)
            (by rw [pow_succ]; exact mul_le_of_le_one_right (by positivity) (by norm_num))
        exact le_trans (le_of_lt hk) h2
  have hstay : ∀ j : Nat, k + 1 ≤ j →
      (IncreaseQuality.repeated Real.rpow j s).pivtol_ = s.pivtolmax_ := by
    intro j hj
    induction j, hj using Nat.le_induction with
    | base => exact hreach
    | succ j _ ih =>
      rw [IncreaseQuality.repeated_succ,
        IncreaseQuality_at_max Real.rpow _
          (by rw [ih, IncreaseQuality.repeated_pivtolmax])]
      exact ih
  refine ⟨k + 1, hreach, fun j hj => ⟨?_, hstay j hj⟩⟩
  exact IncreaseQuality_at_max Real.rpow _
    (by rw [hstay j hj, IncreaseQuality.repeated_pivtolmax])

theorem InitializeImpl_emptyOptions (K : Kernel α) (s0 : Ma27SymLinearSolver α) :
    InitializeImpl K emptyOptions "" s0 = Except.ok (true, defaultsEngine K s0) := by
  rw [InitializeImpl_eq, if_pos]
  · rfl
  · unfold OptionsInRange emptyOptions
    simp

/-- C8, over the reals, at the engine that `InitializeImpl` with no option supplied makes of a
constructed engine (tolerance 1e-8, maximum 1e-4). -/
theorem C8_IncreaseQuality_reaches_maximum_witness :
    ReachableAfterInit (idleKernel : Kernel ℝ) Real.rpow
      (defaultsEngine idleKernel (Ma27SymLinearSolver.ctor blankEngine)) ∧
    ∃ k : Nat,
      (IncreaseQuality.repeated Real.rpow k
        (defaultsEngine (idleKernel : Kernel ℝ) (Ma27SymLinearSolver.ctor blankEngine))).pivtol_ =
        (defaultsEngine (idleKernel : Kernel ℝ)
          (Ma27SymLinearSolver.ctor blankEngine)).pivtolmax_ ∧
      ∀ j : Nat, k ≤ j →
        IncreaseQuality Real.rpow
            (IncreaseQuality.repeated Real.rpow j
              (defaultsEngine (idleKernel : Kernel ℝ) (Ma27SymLinearSolver.ctor blankEngine))) =
          (false, IncreaseQuality.repeated Real.rpow j
            (defaultsEngine (idleKernel : Kernel ℝ) (Ma27SymLinearSolver.ctor blankEngine))) ∧
        (IncreaseQuality.repeated Real.rpow j
          (defaultsEngine (idleKernel : Kernel ℝ)
            (Ma27SymLinearSolver.ctor blankEngine))).pivtol_ =
          (defaultsEngine (idleKernel : Kernel ℝ)
            (Ma27SymLinearSolver.ctor blankEngine)).pivtolmax_ :=
  have h : ReachableAfterInit (idleKernel : Kernel ℝ) Real.rpow
      (defaultsEngine idleKernel (Ma27SymLinearSolver.ctor blankEngine)) :=
    ReachableAfterInit.init emptyOptions "" (Ma27SymLinearSolver.ctor blankEngine) _ true
      (InitializeImpl_emptyOptions idleKernel _)
  ⟨h, C8_IncreaseQuality_reaches_maximum idleKernel _ h⟩

/-- C9, the failing input: an engine initialised with the defaults solves the matrix of the
spec's scenario, `IncreaseQuality` then returns true and raises `pivtol_` from 1e-8 to 1e-6
(`pow` being exact at this input), and the next `MultiSolve` on the unchanged matrix does begin
with a new call of MA27BD, but the control array handed to it still holds the old tolerance
1e-8 in `cntl_[0]`, not the raised `pivtol_`. -/
theorem C9_refactorization_receives_old_tolerance (pow : ℚ → ℚ → ℚ)
    (hpow : pow 1e-8 0.75 = 1e-6) :
    (IncreaseQuality pow (engineAfterMultiSolve goodKernel 1 exampleMatrix [[1, 0, 1]]
      [[0, 0, 0]] false 0 (initializedEngine goodKernel noOptions))).1 = true ∧
    (IncreaseQuality pow (engineAfterMultiSolve goodKernel 1 exampleMatrix [[1, 0, 1]]
      [[0, 0, 0]] false 0 (initializedEngine goodKernel noOptions))).2.pivtol_ = 1e-6 ∧
    ∃ (s3 : Ma27SymLinearSolver ℚ) (sol3 : List (List ℚ)) (e : KernelCall ℚ)
      (evs : List (KernelCall ℚ)) (cntl : List ℚ),
      MultiSolve goodKernel 1 exampleMatrix [[1, 0, 1]] [[0, 0, 0]] false 0
        (IncreaseQuality pow (engineAfterMultiSolve goodKernel 1 exampleMatrix [[1, 0, 1]]
          [[0, 0, 0]] false 0 (initializedEngine goodKernel noOptions))).2 =
        some (ESolveStatus.S_SUCCESS, s3, sol3) ∧
      s3.log = (IncreaseQuality pow (engineAfterMultiSolve goodKernel 1 exampleMatrix
        [[1, 0, 1]] [[0, 0, 0]] false 0 (initializedEngine goodKernel noOptions))).2.log ++
        e :: evs ∧
      e.isBd = true ∧ e.bdCntl = some cntl ∧ cntl.head? = some 1e-8 ∧
      cntl.head? ≠ some (IncreaseQuality pow (engineAfterMultiSolve goodKernel 1 exampleMatrix
        [[1, 0, 1]] [[0, 0, 0]] false 0 (initializedEngine goodKernel noOptions))).2.pivtol_ := by
  have hM0 : MultiSolve goodKernel 1 exampleMatrix [[1, 0, 1]] [[0, 0, 0]] false 0
      (initializedEngine goodKernel noOptions) =
      some (ESolveStatus.S_SUCCESS, engineAfterMultiSolve goodKernel 1 exampleMatrix
        [[1, 0, 1]] [[0, 0, 0]] false 0 (initializedEngine goodKernel noOptions),
        [[1, 0, 1]]) := by with_unfolding_all rfl
  have hla : (engineAfterMultiSolve goodKernel 1 exampleMatrix [[1, 0, 1]] [[0, 0, 0]] false 0
      (initializedEngine goodKernel noOptions)).la_ ≠ 0 := by with_unfolding_all decide
  have hI : InitializeImpl goodKernel noOptions "" (Ma27SymLinearSolver.ctor zeroEngine) =
      Except.ok (true, defaultsEngine goodKernel (Ma27SymLinearSolver.ctor zeroEngine)) :=
    InitializeImpl_emptyOptions goodKernel _
  have h0 : initializedEngine goodKernel noOptions =
      defaultsEngine goodKernel (Ma27SymLinearSolver.ctor zeroEngine) := by
    unfold initializedEngine
    rw [hI]
  have hset := MultiSolve_settings _ _ _ _ _ _ _ _ _ _ _ hM0
  rw [h0] at hset
  obtain ⟨hp, hm⟩ := settings_pivtol_eq hset
  have hc := settings_cntl_eq hset
  have hp' : (engineAfterMultiSolve goodKernel 1 exampleMatrix [[1, 0, 1]] [[0, 0, 0]] false 0
      (initializedEngine goodKernel noOptions)).pivtol_ = 1e-8 := hp
  have hm' : (engineAfterMultiSolve goodKernel 1 exampleMatrix [[1, 0, 1]] [[0, 0, 0]] false 0
      (initializedEngine goodKernel noOptions)).pivtolmax_ = 1e-4 := hm
  have hc' : (engineAfterMultiSolve goodKernel 1 exampleMatrix [[1, 0, 1]] [[0, 0, 0]] false 0
      (initializedEngine goodKernel noOptions)).cntl_ = [1e-8, 1 / 10, 1 / 10, 1 / 10, 1 / 10] :=
    hc
  have hne : (engineAfterMultiSolve goodKernel 1 exampleMatrix [[1, 0, 1]] [[0, 0, 0]] false 0
      (initializedEngine goodKernel noOptions)).pivtol_ ≠
      (engineAfterMultiSolve goodKernel 1 exampleMatrix [[1, 0, 1]] [[0, 0, 0]] false 0
      (initializedEngine goodKernel noOptions)).pivtolmax_ := by
    rw [hp', hm']; norm_num
  have hQ : IncreaseQuality pow (engineAfterMultiSolve goodKernel 1 exampleMatrix [[1, 0, 1]]
      [[0, 0, 0]] false 0 (initializedEngine goodKernel noOptions)) =
      (true, { engineAfterMultiSolve goodKernel 1 exampleMatrix [[1, 0, 1]]
        [[0, 0, 0]] false 0 (initializedEngine goodKernel noOptions) with
        factorized_ := false, pivtol_ := 1e-6 }) := by
    unfold IncreaseQuality
    rw [if_neg hne]
    dsimp only
    rw [hp', hm', hpow]
    norm_num
  rw [hQ]
  dsimp only
  have hM2 : MultiSolve goodKernel 1 exampleMatrix [[1, 0, 1]] [[0, 0, 0]] false 0
      { engineAfterMultiSolve goodKernel 1 exampleMatrix [[1, 0, 1]]
        [[0, 0, 0]] false 0 (initializedEngine goodKernel noOptions) with
        factorized_ := false, pivtol_ := 1e-6 } =
      some (ESolveStatus.S_SUCCESS, engineAfterMultiSolve goodKernel 1 exampleMatrix
        [[1, 0, 1]] [[0, 0, 0]] false 0 { engineAfterMultiSolve goodKernel 1 exampleMatrix
          [[1, 0, 1]] [[0, 0, 0]] false 0 (initializedEngine goodKernel noOptions) with
          factorized_ := false, pivtol_ := 1e-6 }, [[1, 0, 1]]) := by
    with_unfolding_all rfl
  obtain ⟨e, evs, hl, hb, hcn⟩ := MultiSolve_refactorizes goodKernel 1 exampleMatrix [[1, 0, 1]]
    [[0, 0, 0]] false 0
    { engineAfterMultiSolve goodKernel 1 exampleMatrix [[1, 0, 1]]
        [[0, 0, 0]] false 0 (initializedEngine goodKernel noOptions) with
        factorized_ := false, pivtol_ := 1e-6 } _ _ _ hla rfl hM2
  refine ⟨rfl, rfl, _, _, e, evs, _, hM2, hl, hb, hcn, ?_, ?_⟩
  · show List.head? (engineAfterMultiSolve goodKernel 1 exampleMatrix [[1, 0, 1]]
      [[0, 0, 0]] false 0 (initializedEngine goodKernel noOptions)).cntl_ = _
    rw [hc']; rfl
  · show List.head? (engineAfterMultiSolve goodKernel 1 exampleMatrix [[1, 0, 1]]
      [[0, 0, 0]] false 0 (initializedEngine goodKernel noOptions)).cntl_ ≠ _
    rw [hc']
    simp only [List.head?_cons, ne_eq, Option.some.injEq]
    norm_num

/-- C9, with a `pow` that is exact at the one input the scenario uses. -/
theorem C9_refactorization_receives_old_tolerance_witness :
    (fun (x _ : ℚ) => 100 * x) 1e-8 0.75 = 1e-6 ∧
    (IncreaseQuality (fun (x _ : ℚ) => 100 * x) (engineAfterMultiSolve goodKernel 1
      exampleMatrix [[1, 0, 1]] [[0, 0, 0]] false 0
      (initializedEngine goodKernel noOptions))).2.pivtol_ = 1e-6 :=
  have h : (fun (x _ : ℚ) => 100 * x) 1e-8 0.75 = 1e-6 := by norm_num
  ⟨h, (C9_refactorization_receives_old_tolerance (fun (x _ : ℚ) => 100 * x) h).2.1⟩

/-- C11, the failing input: `pivtol` = 1/2 is supplied and `pivtolmax` is not.  The engine that
`InitializeImpl` returns is reachable, its tolerance lies in (0,1), and its maximum 1e-4 lies
below the tolerance: `pivtol_ <= pivtolmax_` does not hold. -/
theorem C11_pivtol_above_pivtolmax (K : Kernel α) (pow : α → α → α)
    (s0 : Ma27SymLinearSolver α) :
    ∃ s : Ma27SymLinearSolver α,
      InitializeImpl K (onlyPivtol (1 / 2)) "" s0 = Except.ok (true, s) ∧
      ReachableAfterInit K pow s ∧
      0 < s.pivtol_ ∧ s.pivtol_ < 1 ∧ s.pivtolmax_ < s.pivtol_ ∧
      ¬ (s.pivtol_ ≤ s.pivtolmax_) := by
  have hin : OptionsInRange (onlyPivtol (1 / 2 : α)) "" := by
    unfold OptionsInRange onlyPivtol
    refine ⟨?_, ?_, ?_, ?_, ?_⟩
    · simp; norm_num
    all_goals simp
  have hI := InitializeImpl_eq K (onlyPivtol (1 / 2 : α)) "" s0
  rw [if_pos hin] at hI
  refine ⟨_, hI, ReachableAfterInit.init _ _ _ _ _ hI, ?_, ?_, ?_, ?_⟩
  · simp [onlyPivtol]
  · simp [onlyPivtol]; norm_num
  · simp [onlyPivtol]; norm_num
  · simp [onlyPivtol]; norm_num

/-- C15, the failing input (the spec's scenario).  An initialised engine attempts the all-zero
2x2 matrix and returns `S_SINGULAR`; `InitializeImpl` is called again and clears
`initialized_` but leaves `la_` = 25 as it is; the next `MultiSolve`, on the 3x3 matrix,
captures the new structure (`dim_` = 3) but, `la_` being nonzero, does not invoke MA27AD: its
kernel calls are MA27BD and MA27CD only, made with the `ikeep_` (6 entries), `nsteps_` and
workspace lengths of the 2x2 analysis.  A newly constructed and initialised engine invokes
MA27AD first and sizes `la_` to 40 and `ikeep_` to 9 entries. -/
theorem C15_reinitialized_engine_skips_analysis :
    statusOfMultiSolve valueKernel 1 storedZeroMatrix [[0, 0]] [[7, 7]] false 0
      (initializedEngine valueKernel noOptions) = some ESolveStatus.S_SINGULAR ∧
    InitializeImpl valueKernel noOptions ""
      (engineAfterMultiSolve valueKernel 1 storedZeroMatrix [[0, 0]] [[7, 7]] false 0
        (initializedEngine valueKernel noOptions)) =
      Except.ok (true, defaultsEngine valueKernel
        (engineAfterMultiSolve valueKernel 1 storedZeroMatrix [[0, 0]] [[7, 7]] false 0
          (initializedEngine valueKernel noOptions))) ∧
    (defaultsEngine valueKernel
      (engineAfterMultiSolve valueKernel 1 storedZeroMatrix [[0, 0]] [[7, 7]] false 0
        (initializedEngine valueKernel noOptions))).initialized_ = false ∧
    (defaultsEngine valueKernel
      (engineAfterMultiSolve valueKernel 1 storedZeroMatrix [[0, 0]] [[7, 7]] false 0
        (initializedEngine valueKernel noOptions))).la_ = 25 ∧
    statusOfMultiSolve valueKernel 1 secondMatrix [[1, 0, 1]] [[0, 0, 0]] false 0
      (defaultsEngine valueKernel
        (engineAfterMultiSolve valueKernel 1 storedZeroMatrix [[0, 0]] [[7, 7]] false 0
          (initializedEngine valueKernel noOptions))) = some ESolveStatus.S_SUCCESS ∧
    ((engineAfterMultiSolve valueKernel 1 secondMatrix [[1, 0, 1]] [[0, 0, 0]] false 0
      (defaultsEngine valueKernel
        (engineAfterMultiSolve valueKernel 1 storedZeroMatrix [[0, 0]] [[7, 7]] false 0
          (initializedEngine valueKernel noOptions)))).log.drop
      (engineAfterMultiSolve valueKernel 1 storedZeroMatrix [[0, 0]] [[7, 7]] false 0
        (initializedEngine valueKernel noOptions)).log.length).map
      (fun e => (e.isAd, e.isBd, e.isCd)) = [(false, true, false), (false, false, true)] ∧
    ((engineAfterMultiSolve valueKernel 1 secondMatrix [[1, 0, 1]] [[0, 0, 0]] false 0
      (defaultsEngine valueKernel
        (engineAfterMultiSolve valueKernel 1 storedZeroMatrix [[0, 0]] [[7, 7]] false 0
          (initializedEngine valueKernel noOptions)))).dim_,
     (engineAfterMultiSolve valueKernel 1 secondMatrix [[1, 0, 1]] [[0, 0, 0]] false 0
      (defaultsEngine valueKernel
        (engineAfterMultiSolve valueKernel 1 storedZeroMatrix [[0, 0]] [[7, 7]] false 0
          (initializedEngine valueKernel noOptions)))).la_,
     (engineAfterMultiSolve valueKernel 1 secondMatrix [[1, 0, 1]] [[0, 0, 0]] false 0
      (defaultsEngine valueKernel
        (engineAfterMultiSolve valueKernel 1 storedZeroMatrix [[0, 0]] [[7, 7]] false 0
          (initializedEngine valueKernel noOptions)))).ikeep_.length,
     (engineAfterMultiSolve valueKernel 1 secondMatrix [[1, 0, 1]] [[0, 0, 0]] false 0
      (defaultsEngine valueKernel
        (engineAfterMultiSolve valueKernel 1 storedZeroMatrix [[0, 0]] [[7, 7]] false 0
          (initializedEngine valueKernel noOptions)))).nsteps_) = (3, 25, 6, 2) ∧
    (engineAfterMultiSolve valueKernel 1 secondMatrix [[1, 0, 1]] [[0, 0, 0]] false 0
      (initializedEngine valueKernel noOptions)).log.map
      (fun e => (e.isAd, e.isBd, e.isCd)) =
      [(true, false, false), (false, true, false), (false, false, true)] ∧
    ((engineAfterMultiSolve valueKernel 1 secondMatrix [[1, 0, 1]] [[0, 0, 0]] false 0
      (initializedEngine valueKernel noOptions)).dim_,
     (engineAfterMultiSolve valueKernel 1 secondMatrix [[1, 0, 1]] [[0, 0, 0]] false 0
      (initializedEngine valueKernel noOptions)).la_,
     (engineAfterMultiSolve valueKernel 1 secondMatrix [[1, 0, 1]] [[0, 0, 0]] false 0
      (initializedEngine valueKernel noOptions)).ikeep_.length,
     (engineAfterMultiSolve valueKernel 1 secondMatrix [[1, 0, 1]] [[0, 0, 0]] false 0
      (initializedEngine valueKernel noOptions)).nsteps_) = (3, 40, 9, 3) := by
  refine ⟨?_, ?_, ?_, ?_, ?_, ?_, ?_, ?_, ?_⟩
  · with_unfolding_all decide
  · exact InitializeImpl_emptyOptions valueKernel _
  · rfl
  · with_unfolding_all decide
  · with_unfolding_all decide
  · with_unfolding_all decide
  · with_unfolding_all decide
  · with_unfolding_all decide
  · with_unfolding_all decide

/-- What a returning call of `Factorization` is made of: the retry loop run from the engine
with its marked workspaces enlarged, followed by the marking step when the last status
is 0. -/
theorem Factorization_inv (K : Kernel α) (fuel : Nat) (A : SymMatrix α) (chk : Bool)
    (n : Int) (s s' : Ma27SymLinearSolver α) (r : ESolveStatus)
    (h : Factorization K fuel A chk n s = some (r, s')) :
    ∃ (s1 : Ma27SymLinearSolver α) (f br bi : Int),
      FactorizationLoop K A fuel (Factorization.growIfMarked s) = some (s1, f, br, bi) ∧
      s' = (if f = 0 then Factorization.markIfCompressed br bi s1 else s1) := by
  unfold Factorization at h
  dsimp only at h
  cases hl : FactorizationLoop K A fuel (Factorization.growIfMarked s) with
  | none => rw [hl] at h; exact absurd h (by simp)
  | some y =>
    obtain ⟨s1, f, br, bi⟩ := y
    rw [hl] at h
    dsimp only at h
    refine ⟨s1, f, br, bi, rfl, ?_⟩
    by_cases h5 : f = -5 ∨ f = 3
    · rw [if_pos h5] at h
      simp only [Option.some.injEq, Prod.mk.injEq] at h
      have hf : f ≠ 0 := by rcases h5 with h5 | h5 <;> rw [h5] <;> decide
      rw [if_neg hf]
      exact h.2.symm
    · rw [if_neg h5] at h
      by_cases h0 : f = 0
      · rw [if_neg (not_not.2 h0)] at h
        rw [if_pos h0]
        split at h <;>
          · simp only [Option.some.injEq, Prod.mk.injEq] at h
            exact h.2.symm
      · rw [if_pos h0] at h
        simp only [Option.some.injEq, Prod.mk.injEq] at h
        rw [if_neg h0]
        exact h.2.symm

/-- The kernel with required sizes 50 and 500 never reports a requirement below the length
it was given. -/
theorem thresholdKernel_reports (A : SymMatrix ℚ) : thresholdKernel.ReportsAtLeastGiven A := by
  intro s
  unfold Factorization.callMa27bd thresholdKernel
  dsimp only
  constructor
  · intro h
    split at h
    · rw [if_pos (by assumption)]; omega
    · split at h <;> simp at h
  · intro h
    split at h
    · simp at h
    · rename_i h1
      rw [if_neg h1]
      split at h
      · rw [if_pos (by assumption)]; omega
      · simp at h

/-- C12, the counterexample: a kernel that answers status -3 while reporting the
requirement 1.  The call of `Factorization` hands MA27BD the lengths (real, integer)
`(40, 40)` first and `(400, 10)` on the retry: the integer workspace has shrunk. -/
theorem C12_retry_can_shrink_liw :
    (engineAfterFactorization stingyKernel 2 exampleMatrix false 0
        (preparedEngine stingyKernel exampleMatrix)).log.filterMap KernelCall.bdLengths =
      [(40, 40), (400, 10)] ∧
    (preparedEngine stingyKernel exampleMatrix).meminc_factor_ = 10 := by
  constructor <;> with_unfolding_all decide

/-- The kernel of the examples with required sizes 50 and 500 is a kernel with fixed required
sizes. -/
theorem thresholdKernel_threshold (A : SymMatrix ℚ) :
    thresholdKernel.ThresholdWorkspace A 50 500 := by
  refine ⟨by decide, by decide, ?_⟩
  intro s
  unfold Factorization.callMa27bd thresholdKernel
  dsimp only
  constructor
  · intro h
    split at h
    · rename_i h1
      rw [if_pos h1]
      exact ⟨h1, rfl⟩
    · split at h <;> simp at h
  · intro h
    split at h
    · simp at h
    · rename_i h1
      rw [if_neg h1]
      split at h
      · rename_i h2
        rw [if_pos h2]
        exact ⟨h2, rfl⟩
      · simp at h

/-- The marks after the marking step. -/
theorem markIfCompressed_flags (ncmpbr ncmpbi : Int) (s : Ma27SymLinearSolver α) :
    ((Factorization.markIfCompressed ncmpbr ncmpbi s).la_increase_ = true ↔
      10 ≤ ncmpbr ∨ s.la_increase_ = true) ∧
    ((Factorization.markIfCompressed ncmpbr ncmpbi s).liw_increase_ = true ↔
      10 ≤ ncmpbi ∨ s.liw_increase_ = true) := by
  by_cases h1 : ncmpbr ≥ 10 <;> by_cases h2 : ncmpbi ≥ 10 <;>
    simp [Factorization.markIfCompressed, h1, h2]

/-- The solution vectors after the loop of `Backsolve` run from index `i`: the vector at an
index `j` that the loop visits holds the kernel's solve of the right-hand side of that index,
and every other vector is as it was. -/
theorem BacksolveLoop_getElem (K : Kernel α) :
    ∀ (rhsV : List (List α)) (i : Nat) (s : Ma27SymLinearSolver α) (solV : List (List α))
      (j : Nat),
      (BacksolveLoop K rhsV i s solV).2[j]? =
        if i ≤ j ∧ j < i + rhsV.length then
          (solV[j]?).map (Backsolve.solution K s (s.log.length + (j - i))
            (rhsV.getD (j - i) []))
        else solV[j]? := by
  intro rhsV
  induction rhsV with
  | nil =>
    intro i s solV j
    have : ¬ (i ≤ j ∧ j < i + ([] : List (List α)).length) := by
      simp only [List.length_nil]; omega
    rw [if_neg this]
    rfl
  | cons rhs rest ih =>
    intro i s solV j
    unfold BacksolveLoop
    dsimp only
    rw [ih]
    have hlen : (Backsolve.solveOne K rhs s).1.log.length = s.log.length + 1 := by
      simp [Backsolve.solveOne]
    by_cases h1 : i + 1 ≤ j ∧ j < i + 1 + rest.length
    · have h2 : i ≤ j ∧ j < i + (rhs :: rest).length := by
        simp only [List.length_cons]; omega
      rw [if_pos h1, if_pos h2, List.getElem?_set_ne (by omega), hlen]
      have e1 : s.log.length + 1 + (j - (i + 1)) = s.log.length + (j - (i + 1) + 1) := by
        omega
      have e2 : j - i = (j - (i + 1)) + 1 := by omega
      rw [e1]
      conv_rhs => rw [e2]
      rw [List.getD_cons_succ]
      rfl
    · rw [if_neg h1]
      by_cases h3 : j = i
      · subst h3
        have h2 : j ≤ j ∧ j < j + (rhs :: rest).length := by
          simp only [List.length_cons]; omega
        rw [if_pos h2, Nat.sub_self]
        by_cases hj : j < solV.length
        · rw [List.getElem?_set_self hj, List.getElem?_eq_getElem hj]
          simp [Backsolve.solution, Backsolve.solveOne, List.getElem?_eq_getElem hj]
        · have hn : solV[j]? = none := List.getElem?_eq_none (not_lt.1 hj)
          rw [hn, List.getElem?_eq_none (by rw [List.length_set]; exact not_lt.1 hj)]
          rfl
      · have h2 : ¬ (i ≤ j ∧ j < i + (rhs :: rest).length) := by
          simp only [List.length_cons]; omega
        rw [if_neg h2, List.getElem?_set_ne (fun h => h3 h.symm)]

/-- The loop of `Backsolve` keeps the number of solution vectors. -/
theorem BacksolveLoop_length (K : Kernel α) :
    ∀ (rhsV : List (List α)) (i : Nat) (s : Ma27SymLinearSolver α) (solV : List (List α)),
      (BacksolveLoop K rhsV i s solV).2.length = solV.length := by
  intro rhsV
  induction rhsV with
  | nil => intro i s solV; rfl
  | cons rhs rest ih =>
    intro i s solV
    unfold BacksolveLoop
    dsimp only
    rw [ih, List.length_set]

/-- With a deterministic solve, `Backsolve` writes the same solution vectors from two engines
that differ in the log only. -/
theorem Backsolve_deterministic (K : Kernel α) (hK : K.SolveDeterministic)
    (rhsV solV : List (List α)) (s : Ma27SymLinearSolver α) (l : List (KernelCall α)) :
    (Backsolve K rhsV solV { s with log := l }).2.2 = (Backsolve K rhsV solV s).2.2 := by
  apply List.ext_getElem?
  intro j
  show (BacksolveLoop K rhsV 0 { s with log := l } solV).2[j]? =
    (BacksolveLoop K rhsV 0 s solV).2[j]?
  rw [BacksolveLoop_getElem, BacksolveLoop_getElem]
  split
  · congr 1
    funext v
    unfold Backsolve.solution
    dsimp only
    rw [hK (l.length + (j - 0)) (s.log.length + (j - 0))]
  · rfl

/-- C16: `Backsolve` returns `S_SUCCESS` and leaves every member of the engine as it was (the
engine afterwards is the engine before with calls of MA27CD, one per right-hand side, appended
to the ghost log); the number of solution vectors stays; for every index `i` of a right-hand
side, `solV[i]` afterwards is the kernel's solve of `rhsV[i]` (the invocation number
`log.length + i`) put into `solV[i]`, and the vectors beyond are untouched; and with a
deterministic solve, a second `Backsolve` of the same right-hand sides, run on the engine that
the first one left, writes the same solution vectors. -/
theorem C16_Backsolve_frame_and_solution (K : Kernel α) (rhsV solV : List (List α))
    (s : Ma27SymLinearSolver α) :
    (Backsolve K rhsV solV s).1 = ESolveStatus.S_SUCCESS ∧
    (∃ evs : List (KernelCall α),
      (Backsolve K rhsV solV s).2.1 = { s with log := s.log ++ evs } ∧
      (∀ e ∈ evs, e.isCd = true) ∧ evs.length = rhsV.length) ∧
    (Backsolve K rhsV solV s).2.2.length = solV.length ∧
    (∀ i : Nat, i < rhsV.length →
      (Backsolve K rhsV solV s).2.2[i]? =
        (solV[i]?).map (Backsolve.solution K s (s.log.length + i) (rhsV.getD i []))) ∧
    (∀ j : Nat, rhsV.length ≤ j → (Backsolve K rhsV solV s).2.2[j]? = solV[j]?) ∧
    (K.SolveDeterministic →
      (Backsolve K rhsV solV (Backsolve K rhsV solV s).2.1).2.2 =
        (Backsolve K rhsV solV s).2.2) := by
  refine ⟨rfl, BacksolveLoop_spec K rhsV 0 s solV, BacksolveLoop_length K rhsV 0 s solV,
    ?_, ?_, ?_⟩
  · intro i hi
    show (BacksolveLoop K rhsV 0 s solV).2[i]? = _
    rw [BacksolveLoop_getElem, if_pos ⟨Nat.zero_le _, by omega⟩, Nat.sub_zero]
  · intro j hj
    show (BacksolveLoop K rhsV 0 s solV).2[j]? = _
    rw [BacksolveLoop_getElem, if_neg (by omega)]
  · intro hK
    obtain ⟨evs, h1, -, -⟩ := BacksolveLoop_spec K rhsV 0 s solV
    have h2 : (Backsolve K rhsV solV s).2.1 = { s with log := s.log ++ evs } := h1
    rw [h2]
    exact Backsolve_deterministic K hK rhsV solV s _

/-- C16 at the engine that a successful `MultiSolve` on the example matrix left: solving the
right-hand side `[1, 0, 1]` twice gives `[1, 0, 1]` both times with the kernel of the
examples, whose solve returns its right-hand side. -/
theorem C16_Backsolve_frame_and_solution_witness :
    goodKernel.SolveDeterministic ∧
    (Backsolve goodKernel [[1, 0, 1]] [[0, 0, 0]]
      (engineAfterMultiSolve goodKernel 1 exampleMatrix [[1, 0, 1]] [[0, 0, 0]] false 0
        (initializedEngine goodKernel noOptions))).2.2 = [[1, 0, 1]] ∧
    (Backsolve goodKernel [[1, 0, 1]] [[0, 0, 0]]
      (Backsolve goodKernel [[1, 0, 1]] [[0, 0, 0]]
        (engineAfterMultiSolve goodKernel 1 exampleMatrix [[1, 0, 1]] [[0, 0, 0]] false 0
          (initializedEngine goodKernel noOptions))).2.1).2.2 =
      (Backsolve goodKernel [[1, 0, 1]] [[0, 0, 0]]
        (engineAfterMultiSolve goodKernel 1 exampleMatrix [[1, 0, 1]] [[0, 0, 0]] false 0
          (initializedEngine goodKernel noOptions))).2.2 :=
  ⟨fun _ _ _ _ _ _ _ _ _ _ _ _ => rfl, by with_unfolding_all decide,
    (C16_Backsolve_frame_and_solution goodKernel [[1, 0, 1]] [[0, 0, 0]]
      (engineAfterMultiSolve goodKernel 1 exampleMatrix [[1, 0, 1]] [[0, 0, 0]] false 0
        (initializedEngine goodKernel noOptions))).2.2.2.2.2
      (fun _ _ _ _ _ _ _ _ _ _ _ _ => rfl)⟩

theorem KernelCall.isBd_of_isCd {e : KernelCall α} (h : e.isCd = true) : e.isBd = false := by
  cases e <;> simp_all [KernelCall.isCd, KernelCall.isBd]

/-- The ways in which a call of `MultiSolve` returns: from its symbolic step, with a status
other than `S_SUCCESS`; or, the engine being factorized at line 189, from the backsolve alone;
or, the engine not being factorized there, from a call of `Factorization` that failed, or from
the backsolve that follows a successful one. -/
theorem MultiSolve_cases (K : Kernel α) (fuel : Nat) (A : SymMatrix α)
    (rhsV solV : List (List α)) (chk : Bool) (n : Int) (s s' : Ma27SymLinearSolver α)
    (r : ESolveStatus) (solV' : List (List α))
    (h : MultiSolve K fuel A rhsV solV chk n s = some (r, s', solV')) :
    ((MultiSolve.symbolicStep K (MultiSolve.structureStep A s)).1 ≠ ESolveStatus.S_SUCCESS ∧
      r = (MultiSolve.symbolicStep K (MultiSolve.structureStep A s)).1 ∧
      s' = (MultiSolve.symbolicStep K (MultiSolve.structureStep A s)).2) ∨
    ((MultiSolve.symbolicStep K (MultiSolve.structureStep A s)).1 = ESolveStatus.S_SUCCESS ∧
      (MultiSolve.beforeFactorization K A s).factorized_ = true ∧
      (r, s', solV') = Backsolve K rhsV solV (MultiSolve.beforeFactorization K A s)) ∨
    ((MultiSolve.symbolicStep K (MultiSolve.structureStep A s)).1 = ESolveStatus.S_SUCCESS ∧
      (MultiSolve.beforeFactorization K A s).factorized_ = false ∧
      ∃ (rF : ESolveStatus) (sF : Ma27SymLinearSolver α),
        Factorization K fuel A chk n (MultiSolve.beforeFactorization K A s) = some (rF, sF) ∧
        ((rF ≠ ESolveStatus.S_SUCCESS ∧ r = rF ∧ s' = sF) ∨
         (rF = ESolveStatus.S_SUCCESS ∧
          (r, s', solV') = Backsolve K rhsV solV { sF with factorized_ := true }))) := by
  by_cases hsym : (MultiSolve.symbolicStep K (MultiSolve.structureStep A s)).1 =
      ESolveStatus.S_SUCCESS
  swap
  · rw [MultiSolve_of_symbolic_failed K fuel A rhsV solV chk n s hsym] at h
    simp only [Option.some.injEq, Prod.mk.injEq] at h
    exact Or.inl ⟨hsym, h.1.symm, h.2.1.symm⟩
  cases hf : (MultiSolve.beforeFactorization K A s).factorized_ with
  | true =>
    rw [MultiSolve_of_factorized K fuel A rhsV solV chk n s hsym hf] at h
    simp only [Option.some.injEq] at h
    exact Or.inr (Or.inl ⟨hsym, rfl, h.symm⟩)
  | false =>
    rw [MultiSolve_of_not_factorized K fuel A rhsV solV chk n s hsym hf] at h
    cases hF : Factorization K fuel A chk n (MultiSolve.beforeFactorization K A s) with
    | none => rw [hF] at h; exact absurd h (by simp)
    | some p =>
      obtain ⟨rF, sF⟩ := p
      rw [hF] at h
      dsimp only at h
      refine Or.inr (Or.inr ⟨hsym, rfl, rF, sF, rfl, ?_⟩)
      by_cases hr : rF = ESolveStatus.S_SUCCESS
      · rw [if_neg (not_not.2 hr)] at h
        simp only [Option.some.injEq] at h
        exact Or.inr ⟨hr, h.symm⟩
      · rw [if_pos hr] at h
        simp only [Option.some.injEq, Prod.mk.injEq] at h
        exact Or.inl ⟨hr, h.1.symm, h.2.1.symm⟩

theorem settings_meminc_eq {s s' : Ma27SymLinearSolver α} (h : s'.settings = s.settings) :
    s'.meminc_factor_ = s.meminc_factor_ := by
  simp only [Ma27SymLinearSolver.settings, Prod.mk.injEq] at h
  exact h.2.2.2.2.1

/-- A call of `IncreaseQuality` that finds `pivtol_` away from `pivtolmax_` returns true and
raises `pivtol_` as line 465 says. -/
theorem IncreaseQuality_of_ne (pow : α → α → α) (s : Ma27SymLinearSolver α)
    (h : s.pivtol_ ≠ s.pivtolmax_) :
    (IncreaseQuality pow s).1 = true ∧
    (IncreaseQuality pow s).2.pivtol_ = min s.pivtolmax_ (pow s.pivtol_ 0.75) := by
  unfold IncreaseQuality
  rw [if_neg h]
  exact ⟨rfl, rfl⟩

/-- A call of `IncreaseQuality` returns true only if `pivtol_` is away from `pivtolmax_`. -/
theorem IncreaseQuality_ne_of_true (pow : α → α → α) (s : Ma27SymLinearSolver α)
    (h : (IncreaseQuality pow s).1 = true) : s.pivtol_ ≠ s.pivtolmax_ := by
  intro hc
  rw [IncreaseQuality_at_max pow s hc] at h
  exact absurd h (by simp)

/-- Over the reals, `pow(1e-8, 0.75)` is `1e-6`. -/
theorem rpow_default_pivtol : Real.rpow (1e-8 : ℝ) (0.75 : ℝ) = 1e-6 := by
  show (1e-8 : ℝ) ^ (0.75 : ℝ) = 1e-6
  have h1 : (1e-8 : ℝ) = (1e-2 : ℝ) ^ (4 : ℝ) := by
    rw [show (4 : ℝ) = ((4 : ℕ) : ℝ) by norm_num, Real.rpow_natCast]
    norm_num
  rw [h1, ← Real.rpow_mul (by norm_num), show (4 : ℝ) * 0.75 = ((3 : ℕ) : ℝ) by norm_num,
    Real.rpow_natCast]
  norm_num

/-- Over the reals, `pow(1e-6, 0.75)` is at least `1e-5`. -/
theorem rpow_second_pivtol : (1e-5 : ℝ) ≤ Real.rpow (1e-6 : ℝ) (0.75 : ℝ) := by
  show (1e-5 : ℝ) ≤ (1e-6 : ℝ) ^ (0.75 : ℝ)
  have h1 : (1e-6 : ℝ) = (1e-1 : ℝ) ^ (6 : ℝ) := by
    rw [show (6 : ℝ) = ((6 : ℕ) : ℝ) by norm_num, Real.rpow_natCast]
    norm_num
  have h2 : (1e-5 : ℝ) = (1e-1 : ℝ) ^ (5 : ℝ) := by
    rw [show (5 : ℝ) = ((5 : ℕ) : ℝ) by norm_num, Real.rpow_natCast]
    norm_num
  rw [h1, ← Real.rpow_mul (by norm_num), h2]
  exact Real.rpow_le_rpow_of_exponent_ge (by norm_num) (by norm_num) (by norm_num)

/-- Over the reals, the first two calls of `IncreaseQuality` on an engine initialised with the
defaults both return true; the first raises `pivtol_` from 1e-8 to 1e-6, the second to at
least 1e-5. -/
theorem IncreaseQuality_defaults (K : Kernel ℝ) (s0 : Ma27SymLinearSolver ℝ) :
    (defaultsEngine K s0).pivtol_ = 1e-8 ∧
    (IncreaseQuality Real.rpow (defaultsEngine K s0)).1 = true ∧
    (IncreaseQuality Real.rpow (defaultsEngine K s0)).2.pivtol_ = 1e-6 ∧
    (IncreaseQuality Real.rpow (IncreaseQuality Real.rpow (defaultsEngine K s0)).2).1 = true ∧
    1e-5 ≤ (IncreaseQuality Real.rpow
      (IncreaseQuality Real.rpow (defaultsEngine K s0)).2).2.pivtol_ := by
  have hne : (defaultsEngine K s0).pivtol_ ≠ (defaultsEngine K s0).pivtolmax_ := by
    show (1e-8 : ℝ) ≠ 1e-4
    norm_num
  obtain ⟨h1, h2⟩ := IncreaseQuality_of_ne Real.rpow (defaultsEngine K s0) hne
  have h3 : (IncreaseQuality Real.rpow (defaultsEngine K s0)).2.pivtol_ = 1e-6 := by
    rw [h2]
    show min (1e-4 : ℝ) (Real.rpow (1e-8 : ℝ) (0.75 : ℝ)) = 1e-6
    rw [rpow_default_pivtol]
    norm_num
  have hmax : (IncreaseQuality Real.rpow (defaultsEngine K s0)).2.pivtolmax_ = 1e-4 := by
    rw [IncreaseQuality_pivtolmax]
    rfl
  have hne2 : (IncreaseQuality Real.rpow (defaultsEngine K s0)).2.pivtol_ ≠
      (IncreaseQuality Real.rpow (defaultsEngine K s0)).2.pivtolmax_ := by
    rw [h3, hmax]
    norm_num
  obtain ⟨h4, h5⟩ := IncreaseQuality_of_ne Real.rpow _ hne2
  refine ⟨rfl, h1, h3, h4, ?_⟩
  rw [h5, hmax, h3]
  exact le_min (by norm_num) rpow_second_pivtol

/-- C20, the counterexample, over the reals: on an engine initialised with the defaults
(`pivtol_` = 1e-8, `pivtolmax_` = 1e-4) two consecutive calls of `IncreaseQuality` both return
true; the first raises `pivtol_` by 1e-6 - 1e-8, the second by more than that (to at least
1e-5). -/
theorem C20_second_increase_is_larger :
    InitializeImpl (idleKernel : Kernel ℝ) emptyOptions "" (Ma27SymLinearSolver.ctor blankEngine) =
      Except.ok (true, defaultsEngine idleKernel (Ma27SymLinearSolver.ctor blankEngine)) ∧
    (IncreaseQuality Real.rpow
      (defaultsEngine (idleKernel : Kernel ℝ) (Ma27SymLinearSolver.ctor blankEngine))).1 = true ∧
    (IncreaseQuality Real.rpow (IncreaseQuality Real.rpow
      (defaultsEngine (idleKernel : Kernel ℝ) (Ma27SymLinearSolver.ctor blankEngine))).2).1 =
        true ∧
    (IncreaseQuality Real.rpow
      (defaultsEngine (idleKernel : Kernel ℝ) (Ma27SymLinearSolver.ctor blankEngine))).2.pivtol_ -
      (defaultsEngine (idleKernel : Kernel ℝ) (Ma27SymLinearSolver.ctor blankEngine)).pivtol_ <
    (IncreaseQuality Real.rpow (IncreaseQuality Real.rpow
      (defaultsEngine (idleKernel : Kernel ℝ) (Ma27SymLinearSolver.ctor blankEngine))).2).2.pivtol_ -
      (IncreaseQuality Real.rpow
        (defaultsEngine (idleKernel : Kernel ℝ)
          (Ma27SymLinearSolver.ctor blankEngine))).2.pivtol_ := by
  obtain ⟨h0, h1, h2, h3, h4⟩ :=
    IncreaseQuality_defaults (idleKernel : Kernel ℝ) (Ma27SymLinearSolver.ctor blankEngine)
  refine ⟨InitializeImpl_emptyOptions idleKernel _, h1, h3, ?_⟩
  rw [h2, h0]
  have : (1e-6 : ℝ) - 1e-8 < 1e-5 - 1e-6 := by norm_num
  linarith

/-- C20, amended, over exact real arithmetic: for every engine state reached after
`InitializeImpl` on which two consecutive calls of `IncreaseQuality` both return true, each
call raises `pivtol_`, and the factor by which the second call raises it is no larger than
the factor by which the first call did: the steps diminish on the logarithmic scale. -/
theorem C20_increase_factor_diminishes (K : Kernel ℝ) (s : Ma27SymLinearSolver ℝ)
    (hreach : ReachableAfterInit K Real.rpow s)
    (h1 : (IncreaseQuality Real.rpow s).1 = true)
    (h2 : (IncreaseQuality Real.rpow (IncreaseQuality Real.rpow s).2).1 = true) :
    s.pivtol_ < (IncreaseQuality Real.rpow s).2.pivtol_ ∧
    (IncreaseQuality Real.rpow s).2.pivtol_ <
      (IncreaseQuality Real.rpow (IncreaseQuality Real.rpow s).2).2.pivtol_ ∧
    (IncreaseQuality Real.rpow (IncreaseQuality Real.rpow s).2).2.pivtol_ /
        (IncreaseQuality Real.rpow s).2.pivtol_ ≤
      (IncreaseQuality Real.rpow s).2.pivtol_ / s.pivtol_ := by
  obtain ⟨hp0, hp1, hM0, hM1⟩ := ReachableAfterInit.tolerances K s hreach
  have e1 := (IncreaseQuality_of_ne Real.rpow s (IncreaseQuality_ne_of_true _ s h1)).2
  have hne2 := IncreaseQuality_ne_of_true _ _ h2
  have e2 := (IncreaseQuality_of_ne Real.rpow _ hne2).2
  rw [IncreaseQuality_pivtolmax] at hne2 e2
  generalize (IncreaseQuality Real.rpow (IncreaseQuality Real.rpow s).2).2.pivtol_ = x2
    at e2 ⊢
  generalize (IncreaseQuality Real.rpow s).2.pivtol_ = x1 at e1 e2 hne2 ⊢
  generalize s.pivtol_ = x0 at e1 hp0 hp1 ⊢
  generalize s.pivtolmax_ = M at e1 e2 hne2 hM0 hM1
  change x1 = min M (x0 ^ (0.75 : ℝ)) at e1
  change x2 = min M (x1 ^ (0.75 : ℝ)) at e2
  have hlt : x0 ^ (0.75 : ℝ) < M := by
    by_contra hc
    exact hne2 (by rw [e1]; exact min_eq_left (not_lt.1 hc))
  have hx1 : x1 = x0 ^ (0.75 : ℝ) := by rw [e1]; exact min_eq_right (le_of_lt hlt)
  have hx1pos : 0 < x1 := by rw [hx1]; exact Real.rpow_pos_of_pos hp0 _
  have hx1M : x1 < M := by rw [hx1]; exact hlt
  have hx1lt : x1 < 1 := lt_trans hx1M hM1
  have g01 : x0 < x1 := by
    rw [hx1]
    calc x0 = x0 ^ (1 : ℝ) := (Real.rpow_one x0).symm
      _ < x0 ^ (0.75 : ℝ) := Real.rpow_lt_rpow_of_exponent_gt hp0 hp1 (by norm_num)
  have g12 : x1 < x2 := by
    rw [e2]
    refine lt_min hx1M ?_
    calc x1 = x1 ^ (1 : ℝ) := (Real.rpow_one x1).symm
      _ < x1 ^ (0.75 : ℝ) := Real.rpow_lt_rpow_of_exponent_gt hx1pos hx1lt (by norm_num)
  refine ⟨g01, g12, ?_⟩
  rw [div_le_div_iff₀ hx1pos hp0]
  have hx2 : x2 ≤ x1 ^ (0.75 : ℝ) := by rw [e2]; exact min_le_right _ _
  have k1 : x1 ^ (0.75 : ℝ) * x0 = x0 ^ ((0.75 : ℝ) * 0.75 + 1) := by
    rw [hx1, ← Real.rpow_mul (le_of_lt hp0), Real.rpow_add hp0, Real.rpow_one]
  have k2 : x1 * x1 = x0 ^ ((0.75 : ℝ) + 0.75) := by
    rw [hx1, ← Real.rpow_add hp0]
  calc x2 * x0 ≤ x1 ^ (0.75 : ℝ) * x0 := mul_le_mul_of_nonneg_right hx2 (le_of_lt hp0)
    _ = x0 ^ ((0.75 : ℝ) * 0.75 + 1) := k1
    _ ≤ x0 ^ ((0.75 : ℝ) + 0.75) :=
      Real.rpow_le_rpow_of_exponent_ge hp0 (le_of_lt hp1) (by norm_num)
    _ = x1 * x1 := k2.symm

/-- C20, amended, at the engine that `InitializeImpl` with no option supplied makes of a
constructed engine: two calls of `IncreaseQuality` return true there. -/
theorem C20_increase_factor_diminishes_witness :
    ReachableAfterInit (idleKernel : Kernel ℝ) Real.rpow
      (defaultsEngine idleKernel (Ma27SymLinearSolver.ctor blankEngine)) ∧
    (IncreaseQuality Real.rpow
      (defaultsEngine (idleKernel : Kernel ℝ) (Ma27SymLinearSolver.ctor blankEngine))).1 = true ∧
    (IncreaseQuality Real.rpow (IncreaseQuality Real.rpow
      (defaultsEngine (idleKernel : Kernel ℝ) (Ma27SymLinearSolver.ctor blankEngine))).2).1 =
        true ∧
    (IncreaseQuality Real.rpow (IncreaseQuality Real.rpow
      (defaultsEngine (idleKernel : Kernel ℝ) (Ma27SymLinearSolver.ctor blankEngine))).2).2.pivtol_ /
        (IncreaseQuality Real.rpow
          (defaultsEngine (idleKernel : Kernel ℝ)
            (Ma27SymLinearSolver.ctor blankEngine))).2.pivtol_ ≤
      (IncreaseQuality Real.rpow
        (defaultsEngine (idleKernel : Kernel ℝ) (Ma27SymLinearSolver.ctor blankEngine))).2.pivtol_ /
        (defaultsEngine (idleKernel : Kernel ℝ) (Ma27SymLinearSolver.ctor blankEngine)).pivtol_ :=
  have h : ReachableAfterInit (idleKernel : Kernel ℝ) Real.rpow
      (defaultsEngine idleKernel (Ma27SymLinearSolver.ctor blankEngine)) :=
    ReachableAfterInit.init emptyOptions "" (Ma27SymLinearSolver.ctor blankEngine) _ true
      (InitializeImpl_emptyOptions idleKernel _)
  have hd := IncreaseQuality_defaults (idleKernel : Kernel ℝ)
    (Ma27SymLinearSolver.ctor blankEngine)
  ⟨h, hd.2.1, hd.2.2.2.1,
    (C20_increase_factor_diminishes idleKernel _ h hd.2.1 hd.2.2.2.1).2.2⟩

/-- The status `S_SUCCESS` of `Factorization` means that the last answer of MA27BD had status 0
and that the reported count of negative eigenvalues is the requested one, if a check was
requested. -/
theorem outcome_success (chk : Bool) (n iflag negevals : Int)
    (h : Factorization.outcome chk n iflag negevals = ESolveStatus.S_SUCCESS) :
    iflag = 0 ∧ (chk = true → n = negevals) := by
  unfold Factorization.outcome at h
  split at h
  · exact absurd h (by decide)
  · split at h
    · exact absurd h (by decide)
    · rename_i h0
      split at h
      · exact absurd h (by decide)
      · rename_i hc
        refine ⟨not_not.1 h0, fun hchk => ?_⟩
        by_contra hne
        exact hc ⟨hchk, hne⟩

/-- The marking step leaves the arrays of the factorization alone. -/
theorem markIfCompressed_arrays (ncmpbr ncmpbi : Int) (s : Ma27SymLinearSolver α) :
    (Factorization.markIfCompressed ncmpbr ncmpbi s).a_ = s.a_ ∧
    (Factorization.markIfCompressed ncmpbr ncmpbi s).iw_ = s.iw_ ∧
    (Factorization.markIfCompressed ncmpbr ncmpbi s).maxfrt_ = s.maxfrt_ := by
  unfold Factorization.markIfCompressed
  dsimp only
  split <;> split <;> exact ⟨rfl, rfl, rfl⟩

/-- The structure step leaves an engine factorized only if it did nothing. -/
theorem structureStep_factorized (A : SymMatrix α) (s : Ma27SymLinearSolver α)
    (h : (MultiSolve.structureStep A s).factorized_ = true) :
    s.initialized_ = true ∧ MultiSolve.structureStep A s = s := by
  unfold MultiSolve.structureStep InitializeStructure at h ⊢
  cases hi : s.initialized_ with
  | true => simp
  | false =>
    rw [hi] at h
    simp at h

/-- The comparison of the change tag leaves an engine factorized only if it did nothing. -/
theorem tagStep_factorized (A : SymMatrix α) (s : Ma27SymLinearSolver α)
    (h : (MultiSolve.tagStep A s).factorized_ = true) : MultiSolve.tagStep A s = s := by
  unfold MultiSolve.tagStep at h ⊢
  by_cases hc : A.HasChanged s.atag_ = true
  · rw [if_pos hc] at h
    simp at h
  · rw [if_neg hc]

/-- A call of `InitializeImpl` that returns leaves the engine not factorized. -/
theorem InitializeImpl_factorized (K : Kernel α) (options : OptionsList α) (pfx : String)
    (s s' : Ma27SymLinearSolver α) (b : Bool)
    (h : InitializeImpl K options pfx s = Except.ok (b, s')) : s'.factorized_ = false := by
  rw [InitializeImpl_eq] at h
  by_cases hin : OptionsInRange options pfx
  · rw [if_pos hin] at h
    simp only [Except.ok.injEq, Prod.mk.injEq] at h
    rw [← h.2]
  · rw [if_neg hin] at h
    exact absurd h (by simp)

/-- A call of `IncreaseQuality` leaves the engine as it was or not factorized. -/
theorem IncreaseQuality_factorized (pow : α → α → α) (s : Ma27SymLinearSolver α) :
    (IncreaseQuality pow s).2 = s ∨ (IncreaseQuality pow s).2.factorized_ = false := by
  unfold IncreaseQuality
  split
  · exact Or.inl rfl
  · exact Or.inr rfl

/-- A recorded factorization stays recorded when the log grows by calls of MA27CD and the
members of the factorization stay. -/
theorem LastFactorizationHolds.append {s t : Ma27SymLinearSolver α}
    (h : LastFactorizationHolds s) (cds : List (KernelCall α))
    (hlog : t.log = s.log ++ cds) (hcd : ∀ e ∈ cds, e.isCd = true)
    (hws : t.negevals_ = s.negevals_ ∧ t.la_ = s.la_ ∧ t.liw_ = s.liw_ ∧ t.a_ = s.a_ ∧
      t.iw_ = s.iw_ ∧ t.maxfrt_ = s.maxfrt_) :
    LastFactorizationHolds t := by
  obtain ⟨pre, post, a, la, liw, cntl, out, h1, h2, h3, h4, v1, v2, v3, v4, v5⟩ := h
  obtain ⟨w0, w1, w2, w3, w4, w5⟩ := hws
  refine ⟨pre, post ++ cds, a, la, liw, cntl, out, ?_, ?_, h3, by rw [w0, h4],
    by rw [w1, v1], by rw [w2, v2], by rw [w3, v3], by rw [w4, v4], by rw [w5, v5]⟩
  · rw [hlog, h1, List.append_assoc]
    rfl
  · intro e he
    rcases List.mem_append.1 he with he | he
    · exact h2 e he
    · exact hcd e he

/-- A call of `Factorization` that returns `S_SUCCESS` ends in a call of MA27BD with status 0
and the requested inertia, made from an engine `s0` with the lengths the engine has
afterwards, and the engine holds what that call wrote. -/
theorem Factorization_success (K : Kernel α) (fuel : Nat) (A : SymMatrix α) (chk : Bool)
    (n : Int) (s s' : Ma27SymLinearSolver α)
    (h : Factorization K fuel A chk n s = some (ESolveStatus.S_SUCCESS, s')) :
    ∃ (bds : List (KernelCall α)) (s0 : Ma27SymLinearSolver α),
      s'.log = s.log ++ bds ++ [KernelCall.bd (TripletHelper.FillValues s0.nonzeros_ A s0.a_)
        s'.la_ s'.liw_ s0.cntl_ (Factorization.callMa27bd K A s0)] ∧
      (∀ e ∈ bds, e.isBd = true) ∧ s0.la_ = s'.la_ ∧
      (Factorization.callMa27bd K A s0).iflag = 0 ∧
      (chk = true → n = (Factorization.callMa27bd K A s0).negevals) ∧
      s'.negevals_ = (Factorization.callMa27bd K A s0).negevals ∧
      s'.a_ = (Factorization.callMa27bd K A s0).a ∧
      s'.iw_ = (Factorization.callMa27bd K A s0).iw ∧
      s'.maxfrt_ = (Factorization.callMa27bd K A s0).maxfrt ∧
      s'.initialized_ = s.initialized_ := by
  obtain ⟨s1, f, br, bi, hl, hs'⟩ :=
    Factorization_inv K fuel A chk n s s' ESolveStatus.S_SUCCESS h
  obtain ⟨evs, s0, hs1, hw, hlog0, hev, -, hf, -, -, -, -⟩ :=
    FactorizationLoop_spec K A fuel _ s1 f br bi hl
  obtain ⟨evs', s0', -, hlog0', -, -, -, -, hw', hlog', hneg', -, -, hr⟩ :=
    Factorization_spec K fuel A chk n s s' ESolveStatus.S_SUCCESS h
  obtain ⟨h0, hin⟩ := outcome_success chk n _ _ hr.symm
  obtain ⟨-, m2, m3, m4, m5⟩ := markIfCompressed_spec br bi s1
  obtain ⟨m6, m7, m8⟩ := markIfCompressed_arrays br bi s1
  have hfields : s'.log = s1.log ∧ s'.la_ = s1.la_ ∧ s'.liw_ = s1.liw_ ∧ s'.a_ = s1.a_ ∧
      s'.iw_ = s1.iw_ ∧ s'.maxfrt_ = s1.maxfrt_ ∧ s'.negevals_ = s1.negevals_ := by
    rw [hs']; split
    · exact ⟨m2, m4, m5, m6, m7, m8, m3⟩
    · exact ⟨rfl, rfl, rfl, rfl, rfl, rfl, rfl⟩
  obtain ⟨f1, f2, f3, f4, f5, f6, f7⟩ := hfields
  have hs1log : s1.log = s0.log ++ [KernelCall.bd
      (TripletHelper.FillValues s0.nonzeros_ A s0.a_) s0.la_ s0.liw_ s0.cntl_
      (Factorization.callMa27bd K A s0)] := by
    rw [hs1]; rfl
  have hs1f : s1.la_ = s0.la_ ∧ s1.liw_ = s0.liw_ ∧
      s1.a_ = (Factorization.callMa27bd K A s0).a ∧
      s1.iw_ = (Factorization.callMa27bd K A s0).iw ∧
      s1.maxfrt_ = (Factorization.callMa27bd K A s0).maxfrt ∧
      s1.negevals_ = (Factorization.callMa27bd K A s0).negevals := by
    rw [hs1]; exact ⟨rfl, rfl, rfl, rfl, rfl, rfl⟩
  obtain ⟨g1, g2, g3, g4, g5, g6⟩ := hs1f
  -- the two descriptions of the log end in the same call
  have hsame : Factorization.callMa27bd K A s0 = Factorization.callMa27bd K A s0' := by
    have e := hlog'
    rw [f1, hs1log] at e
    have e2 := (List.append_inj' e rfl).2
    simp only [List.cons.injEq, KernelCall.bd.injEq, and_true] at e2
    exact e2.2.2.2.2
  rw [← hsame] at h0 hin
  refine ⟨evs, s0, ?_, ?_, by rw [f2, g1], h0, hin, by rw [f7, g6], by rw [f4, g3],
    by rw [f5, g4], by rw [f6, g5], hw'.initialized_eq⟩
  · rw [f1, hs1log, hlog0, growIfMarked_log, f2, f3, g1, g2]
  · intro e he
    obtain ⟨o, ho, -⟩ := hev e he
    exact KernelCall.isBd_of_bdOut ho

/-- The backsolve on an engine that holds a recorded factorization leaves such an engine, and
appends calls of MA27CD only. -/
theorem Backsolve_keeps (K : Kernel α) (rhsV solV solV' : List (List α))
    (t s' : Ma27SymLinearSolver α) (r : ESolveStatus)
    (hf : t.factorized_ = true) (hi : t.initialized_ = true) (hla : t.la_ ≠ 0)
    (hl : LastFactorizationHolds t) (h : (r, s', solV') = Backsolve K rhsV solV t) :
    s'.factorized_ = true ∧ s'.initialized_ = true ∧ s'.la_ ≠ 0 ∧
    LastFactorizationHolds s' ∧
    ∃ cds : List (KernelCall α), s'.log = t.log ++ cds ∧ ∀ e ∈ cds, e.isCd = true := by
  obtain ⟨-, cds, hbs, hcd⟩ := Backsolve_spec K rhsV solV t
  rw [← h] at hbs
  dsimp only at hbs
  have hlog : s'.log = t.log ++ cds := by rw [hbs]
  refine ⟨by rw [hbs]; exact hf, by rw [hbs]; exact hi, by rw [hbs]; exact hla, ?_, cds,
    hlog, hcd⟩
  refine hl.append cds hlog hcd ?_
  rw [hbs]
  exact ⟨rfl, rfl, rfl, rfl, rfl, rfl⟩

/-- What a call of `MultiSolve` that returns does to an engine in which `factorized_` stands
for a recorded factorization in a sized workspace, with a kernel that never reports success
from an empty real workspace: the engine afterwards is again such an engine; if MA27CD was
invoked, the call ended in the backsolve on such an engine; and if MA27BD was invoked and the
engine is factorized afterwards, the last call of MA27BD had status 0 and the requested
inertia. -/
theorem MultiSolve_outcome (K : Kernel α) (hK : K.SucceedsOnlySized) (fuel : Nat)
    (A : SymMatrix α) (rhsV solV : List (List α)) (chk : Bool) (n : Int)
    (s s' : Ma27SymLinearSolver α) (r : ESolveStatus) (solV' : List (List α))
    (hinv : s.factorized_ = true →
      s.initialized_ = true ∧ s.la_ ≠ 0 ∧ LastFactorizationHolds s)
    (h : MultiSolve K fuel A rhsV solV chk n s = some (r, s', solV')) :
    ∃ evs : List (KernelCall α),
      s'.log = s.log ++ evs ∧
      (s'.factorized_ = true →
        s'.initialized_ = true ∧ s'.la_ ≠ 0 ∧ LastFactorizationHolds s') ∧
      ((∀ e ∈ evs, e.isCd = false) ∨
        ∃ t : Ma27SymLinearSolver α,
          (r, s', solV') = Backsolve K rhsV solV t ∧ t.factorized_ = true ∧
          t.initialized_ = true ∧ t.la_ ≠ 0 ∧ LastFactorizationHolds t) ∧
      ((∃ e ∈ evs, e.isBd = true) → s'.factorized_ = true →
        ∃ (pre post : List (KernelCall α)) (a : List α) (la liw : Int) (cntl : List α)
          (out : Ma27bdOut α),
          evs = pre ++ KernelCall.bd a la liw cntl out :: post ∧
          (∀ e ∈ post, e.isBd = false) ∧ out.iflag = 0 ∧
          (chk = true → n = out.negevals)) := by
  obtain ⟨bi1, -, -, -, -, -, ads, hbl, yads⟩ := beforeFactorization_spec K A s
  -- an engine that is factorized at line 189 is the engine at entry
  have hsame : (MultiSolve.beforeFactorization K A s).factorized_ = true →
      MultiSolve.beforeFactorization K A s = s ∧ s.factorized_ = true := by
    intro hf
    have hby : MultiSolve.beforeFactorization K A s =
        (MultiSolve.symbolicStep K (MultiSolve.structureStep A s)).2 :=
      tagStep_factorized A _ hf
    have hyf : (MultiSolve.symbolicStep K (MultiSolve.structureStep A s)).2.factorized_ =
        true := by rw [← hby]; exact hf
    rw [(symbolicStep_spec K _).2.1] at hyf
    obtain ⟨hi, hst⟩ := structureStep_factorized A s hyf
    rw [hst] at hyf hby
    obtain ⟨-, hla, -⟩ := hinv hyf
    rw [(symbolicStep_spec K s).2.2.2.2.1 hla] at hby
    exact ⟨hby, hyf⟩
  rcases MultiSolve_cases K fuel A rhsV solV chk n s s' r solV' h with
    ⟨hne, -, hs'⟩ | ⟨-, hf, hb⟩ | ⟨-, hf, rF, sF, hF, hcase⟩
  · -- stopped in the symbolic step: MA27AD was invoked, so the engine was not factorized
    obtain ⟨-, b2, -, -, -, ads', b6, b7⟩ :=
      symbolicStep_spec K (MultiSolve.structureStep A s)
    have b5' := (symbolicStep_spec K s).2.2.2.2.1
    have hlog : s'.log = s.log ++ ads' := by
      rw [hs', b6, (structureStep_spec A s).2.2.1]
    have hnf : s'.factorized_ = false := by
      rw [hs', b2]
      by_contra hc
      have hc' : (MultiSolve.structureStep A s).factorized_ = true := by
        simpa using hc
      obtain ⟨hi, hst⟩ := structureStep_factorized A s hc'
      rw [hst] at hc'
      obtain ⟨-, hla, -⟩ := hinv hc'
      apply hne
      rw [hst, b5' hla]
    refine ⟨ads', hlog, ?_, Or.inl ?_, ?_⟩
    · intro hc
      rw [hnf] at hc
      exact absurd hc (by decide)
    · exact fun e he => KernelCall.isCd_of_isAd (b7 e he)
    · intro _ hc
      rw [hnf] at hc
      exact absurd hc (by decide)
  · -- factorized at line 189: the backsolve alone, on the engine at entry
    obtain ⟨hbs, hsf⟩ := hsame hf
    obtain ⟨hi, hla, hl⟩ := hinv hsf
    rw [hbs] at hb
    obtain ⟨k1, k2, k3, k4, cds, k5, k6⟩ :=
      Backsolve_keeps K rhsV solV solV' s s' r hsf hi hla hl hb
    refine ⟨cds, k5, fun _ => ⟨k2, k3, k4⟩, Or.inr ⟨s, hb, hsf, hi, hla, hl⟩, ?_⟩
    rintro ⟨e, he, hbd⟩
    rw [KernelCall.isBd_of_isCd (k6 e he)] at hbd
    exact absurd hbd (by decide)
  · rcases hcase with ⟨hne, -, hs'⟩ | ⟨hsucc, hb⟩
    · -- the factorization failed
      obtain ⟨-, -, -, -, -, -, -, -, hw, -, -, -, -, -⟩ :=
        Factorization_spec K fuel A chk n _ sF rF hF
      obtain ⟨e0, bds, hl, hb0, -, hbds⟩ := Factorization_log K fuel A chk n _ _ _ hF
      have hsf : s'.factorized_ = false := by rw [hs', hw.factorized_eq, hf]
      refine ⟨ads ++ e0 :: bds, by rw [hs', hl, hbl, List.append_assoc], ?_, Or.inl ?_, ?_⟩
      · intro hc
        rw [hsf] at hc
        exact absurd hc (by decide)
      · intro e he
        rcases List.mem_append.1 he with he | he
        · exact KernelCall.isCd_of_isAd (yads e he)
        · rcases List.mem_cons.1 he with rfl | he
          · exact KernelCall.isCd_of_isBd hb0
          · exact KernelCall.isCd_of_isBd (hbds e he)
      · intro _ hc
        rw [hsf] at hc
        exact absurd hc (by decide)
    · -- the factorization succeeded: the backsolve follows
      rw [hsucc] at hF
      obtain ⟨bds, s0, q1, q2, q0, q3, q4, q5, q6, q7, q8, q9⟩ :=
        Factorization_success K fuel A chk n _ sF hF
      have hla : sF.la_ ≠ 0 := by
        rw [← q0]
        exact hK _ _ _ _ _ _ _ _ _ _ _ _ _ q3
      have hlt : LastFactorizationHolds { sF with factorized_ := true } :=
        ⟨(MultiSolve.beforeFactorization K A s).log ++ bds, [], _, sF.la_, sF.liw_, _,
          Factorization.callMa27bd K A s0, q1, by simp, q3, q5, rfl, rfl, q6, q7, q8⟩
      have hti : ({ sF with factorized_ := true } : Ma27SymLinearSolver α).initialized_ =
          true := by
        show sF.initialized_ = true
        rw [q9, bi1]
      obtain ⟨k1, k2, k3, k4, cds, k5, k6⟩ :=
        Backsolve_keeps K rhsV solV solV' _ s' r rfl hti hla hlt hb
      have hlog : s'.log = s.log ++ ((ads ++ bds) ++
          KernelCall.bd (TripletHelper.FillValues s0.nonzeros_ A s0.a_) sF.la_ sF.liw_
            s0.cntl_ (Factorization.callMa27bd K A s0) :: cds) := by
        rw [k5]
        show sF.log ++ cds = _
        rw [q1, hbl]
        simp only [List.append_assoc, List.singleton_append]
      refine ⟨_, hlog, fun _ => ⟨k2, k3, k4⟩, Or.inr ⟨_, hb, rfl, hti, hla, hlt⟩, ?_⟩
      intro _ _
      exact ⟨ads ++ bds, cds, _, sF.la_, sF.liw_, _, Factorization.callMa27bd K A s0, rfl,
        fun e he => KernelCall.isBd_of_isCd (k6 e he), q3, q4⟩

/-- With a kernel that never reports success from an empty real workspace, in every engine
state reachable from construction `factorized_` stands for a recorded factorization in a
sized workspace and implies that the structure is captured. -/
theorem ReachableFromConstruction.invariant (K : Kernel α) (hK : K.SucceedsOnlySized)
    (pow : α → α → α) (s : Ma27SymLinearSolver α) (h : ReachableFromConstruction K pow s) :
    s.factorized_ = true → s.initialized_ = true ∧ s.la_ ≠ 0 ∧ LastFactorizationHolds s := by
  induction h with
  | construct indet =>
    intro hc
    exact absurd hc (by simp [Ma27SymLinearSolver.ctor])
  | init options pfx s s' b _ hI _ =>
    intro hc
    rw [InitializeImpl_factorized K options pfx s s' b hI] at hc
    exact absurd hc (by decide)
  | multiSolve fuel A rhsV solV solV' chk n r s s' _ hcall ih =>
    obtain ⟨evs, -, hinv, -, -⟩ :=
      MultiSolve_outcome K hK fuel A rhsV solV chk n s s' r solV' ih hcall
    exact hinv
  | increaseQuality s _ ih =>
    rcases IncreaseQuality_factorized pow s with he | hf
    · rw [he]; exact ih
    · intro hc
      rw [hf] at hc
      exact absurd hc (by decide)

/-- The kernel with required sizes 50 and 500 reports success only from a real workspace of
at least 500 places. -/
theorem thresholdKernel_succeedsOnlySized : thresholdKernel.SucceedsOnlySized := by
  intro t n nz irn icn a la iw liw ikeep nsteps icntl cntl h
  unfold thresholdKernel at h
  dsimp only at h
  split at h
  · simp at h
  · split at h
    · simp at h
    · omega

/-- C21, for a kernel that never reports a successful factorization from an empty real
workspace.  In every engine state reachable from construction through calls of
`InitializeImpl`, `MultiSolve` and `IncreaseQuality` that return, `factorized_ == true`
implies that the structure is captured, that the workspace is sized, that the last call of
MA27BD in the log returned status 0, that the kernel has only been asked to solve since, that
`negevals_` is the count that call reported, and that the workspace lengths and the arrays
`a_`, `iw_`, `maxfrt_` are those of that call.  Every call of `MultiSolve` from such a state
that returns either invokes no MA27CD, or ends in the backsolve on an engine of that kind;
and when it has invoked MA27BD and leaves the engine factorized, the last call of MA27BD had
status 0 and, if a check was requested, reported the requested number of negative
eigenvalues. -/
theorem C21_factorized_means_factorization_in_force (K : Kernel α)
    (hK : K.SucceedsOnlySized) (pow : α → α → α)
    (s : Ma27SymLinearSolver α) (h : ReachableFromConstruction K pow s) :
    (s.factorized_ = true →
      s.initialized_ = true ∧ s.la_ ≠ 0 ∧ LastFactorizationHolds s) ∧
    ∀ (fuel : Nat) (A : SymMatrix α) (rhsV solV : List (List α)) (chk : Bool) (n : Int)
      (r : ESolveStatus) (s' : Ma27SymLinearSolver α) (solV' : List (List α)),
      MultiSolve K fuel A rhsV solV chk n s = some (r, s', solV') →
      ∃ evs : List (KernelCall α),
        s'.log = s.log ++ evs ∧
        ((∀ e ∈ evs, e.isCd = false) ∨
          ∃ t : Ma27SymLinearSolver α,
            (r, s', solV') = Backsolve K rhsV solV t ∧ t.factorized_ = true ∧
            t.initialized_ = true ∧ t.la_ ≠ 0 ∧ LastFactorizationHolds t) ∧
        ((∃ e ∈ evs, e.isBd = true) → s'.factorized_ = true →
          ∃ (pre post : List (KernelCall α)) (a : List α) (la liw : Int) (cntl : List α)
            (out : Ma27bdOut α),
            evs = pre ++ KernelCall.bd a la liw cntl out :: post ∧
            (∀ e ∈ post, e.isBd = false) ∧ out.iflag = 0 ∧
            (chk = true → n = out.negevals)) := by
  have hinv := ReachableFromConstruction.invariant K hK pow s h
  refine ⟨hinv, ?_⟩
  intro fuel A rhsV solV chk n r s' solV' hcall
  obtain ⟨evs, h1, -, h3, h4⟩ :=
    MultiSolve_outcome K hK fuel A rhsV solV chk n s s' r solV' hinv hcall
  exact ⟨evs, h1, h3, h4⟩

/-- C21 at the engine that a successful `MultiSolve` on the matrix of the spec's scenario
left, with the kernel whose factorization needs lengths 50 and 500: the engine is factorized,
and the log ends in the successful call of MA27BD followed by the solve. -/
theorem C21_factorized_means_factorization_in_force_witness :
    thresholdKernel.SucceedsOnlySized ∧
    ReachableFromConstruction thresholdKernel (fun x _ => x)
      (engineAfterMultiSolve thresholdKernel 3 exampleMatrix [[1, 0, 1]] [[0, 0, 0]] true 1
        (initializedEngine thresholdKernel noOptions)) ∧
    (engineAfterMultiSolve thresholdKernel 3 exampleMatrix [[1, 0, 1]] [[0, 0, 0]] true 1
        (initializedEngine thresholdKernel noOptions)).factorized_ = true ∧
    (engineAfterMultiSolve thresholdKernel 3 exampleMatrix [[1, 0, 1]] [[0, 0, 0]] true 1
        (initializedEngine thresholdKernel noOptions)).initialized_ = true ∧
    (engineAfterMultiSolve thresholdKernel 3 exampleMatrix [[1, 0, 1]] [[0, 0, 0]] true 1
        (initializedEngine thresholdKernel noOptions)).la_ ≠ 0 ∧
    LastFactorizationHolds
      (engineAfterMultiSolve thresholdKernel 3 exampleMatrix [[1, 0, 1]] [[0, 0, 0]] true 1
        (initializedEngine thresholdKernel noOptions)) := by
  have hreach : ReachableFromConstruction thresholdKernel (fun x _ => x)
      (engineAfterMultiSolve thresholdKernel 3 exampleMatrix [[1, 0, 1]] [[0, 0, 0]] true 1
        (initializedEngine thresholdKernel noOptions)) := by
    refine ReachableFromConstruction.multiSolve 3 exampleMatrix [[1, 0, 1]] [[0, 0, 0]]
      [[1, 0, 1]] true 1 ESolveStatus.S_SUCCESS (initializedEngine thresholdKernel noOptions)
      _ (ReachableFromConstruction.init noOptions "" (Ma27SymLinearSolver.ctor zeroEngine)
        _ true (ReachableFromConstruction.construct zeroEngine) ?_) ?_
    · with_unfolding_all rfl
    · with_unfolding_all rfl
  have hf : (engineAfterMultiSolve thresholdKernel 3 exampleMatrix [[1, 0, 1]] [[0, 0, 0]]
      true 1 (initializedEngine thresholdKernel noOptions)).factorized_ = true := by
    with_unfolding_all decide
  have hthm := (C21_factorized_means_factorization_in_force thresholdKernel
    thresholdKernel_succeedsOnlySized (fun x _ => x) _ hreach).1 hf
  exact ⟨thresholdKernel_succeedsOnlySized, hreach, hf, hthm.1, hthm.2.1, hthm.2.2⟩

/-- A conversion to `ipfint` that is defined yields the truncated value, which is in range. -/
theorem Machine.toIpfint_ok (x : α) (k : Int) (h : Machine.toIpfint x = Except.ok k) :
    k = trunc x ∧ ipfintMin ≤ k ∧ k ≤ ipfintMax := by
  unfold Machine.toIpfint at h
  split at h
  · rename_i hr
    have hk : trunc x = k := by injection h
    rw [← hk]
    exact ⟨rfl, hr.1, hr.2⟩
  · exact absurd h (by simp)

/-- A conversion to `ipfint` of a value whose truncation is in range is defined. -/
theorem Machine.toIpfint_of_range (x : α) (h1 : ipfintMin ≤ trunc x)
    (h2 : trunc x ≤ ipfintMax) : Machine.toIpfint x = Except.ok (trunc x) := by
  unfold Machine.toIpfint
  rw [if_pos ⟨h1, h2⟩]

/-- A conversion to `ipfint` of a value whose truncation is out of range is undefined. -/
theorem Machine.toIpfint_of_not_range (x : α)
    (h : ¬ (ipfintMin ≤ trunc x ∧ trunc x ≤ ipfintMax)) :
    Machine.toIpfint x = Except.error Fault.undefined := by
  unfold Machine.toIpfint
  rw [if_neg h]

/-- An allocation that succeeds is one of a non-negative length, and the array has that many
places, with the contents that the free store gives. -/
theorem Machine.newArray_ok {β : Type} (store : Int → Option (Nat → β)) (n : Int)
    (xs : List β) (h : Machine.newArray store n = Except.ok xs) :
    0 ≤ n ∧ xs.length = n.toNat ∧
      ∃ c, store n = some c ∧ xs = (List.range n.toNat).map c := by
  unfold Machine.newArray at h
  split at h
  · exact absurd h (by simp)
  · rename_i hn
    split at h
    · exact absurd h (by simp)
    · rename_i c hc
      have hx : (List.range n.toNat).map c = xs := by injection h
      refine ⟨not_lt.1 hn, ?_, c, hc, hx.symm⟩
      rw [← hx]
      simp

/-- An allocation of a non-negative length for which the free store has room succeeds. -/
theorem Machine.newArray_of_isSome {β : Type} (store : Int → Option (Nat → β)) (n : Int)
    (hn : 0 ≤ n) (h : (store n).isSome = true) :
    ∃ xs, Machine.newArray store n = Except.ok xs := by
  unfold Machine.newArray
  rw [if_neg (not_lt.2 hn)]
  cases hs : store n with
  | none => rw [hs] at h; exact absurd h (by simp)
  | some c => exact ⟨_, rfl⟩

/-- What a reallocation that succeeds has done: both new lengths are the truncated rounded
products, they are `ipfint` values, and both arrays are fresh arrays of the new lengths. -/
theorem Machine.increaseWorkspace_ok (fl : α → α) (H : Heap α) (iflag ierror : Int)
    (s s2 : Ma27SymLinearSolver α)
    (h : Machine.Factorization.increaseWorkspace fl H iflag ierror s = Except.ok s2) :
    (iflag = -3 → s2.liw_ = grown fl s.meminc_factor_ ierror ∧
      s2.la_ = grown fl s.meminc_factor_ s.la_) ∧
    (iflag ≠ -3 → s2.liw_ = grown fl s.meminc_factor_ s.liw_ ∧
      s2.la_ = grown fl s.meminc_factor_ ierror) ∧
    ipfintMin ≤ s2.liw_ ∧ s2.liw_ ≤ ipfintMax ∧ ipfintMin ≤ s2.la_ ∧ s2.la_ ≤ ipfintMax ∧
    Machine.newArray H.ipfints s2.liw_ = Except.ok s2.iw_ ∧
    Machine.newArray H.doubles s2.la_ = Except.ok s2.a_ ∧
    s2 = { s with liw_ := s2.liw_, la_ := s2.la_, iw_ := s2.iw_, a_ := s2.a_ } := by
  unfold Machine.Factorization.increaseWorkspace at h
  split at h
  · exact absurd h (by simp)
  · rename_i liw la hlen
    split at h
    · exact absurd h (by simp)
    · rename_i iw hiw
      split at h
      · exact absurd h (by simp)
      · rename_i a ha
        have hs2 : { s with liw_ := liw, la_ := la, iw_ := iw, a_ := a } = s2 := by
          injection h
        subst hs2
        dsimp only
        have key : (iflag = -3 → liw = grown fl s.meminc_factor_ ierror ∧
              la = grown fl s.meminc_factor_ s.la_) ∧
            (iflag ≠ -3 → liw = grown fl s.meminc_factor_ s.liw_ ∧
              la = grown fl s.meminc_factor_ ierror) ∧
            ipfintMin ≤ liw ∧ liw ≤ ipfintMax ∧ ipfintMin ≤ la ∧ la ≤ ipfintMax := by
          by_cases h3 : iflag = -3
          · rw [if_pos h3] at hlen
            split at hlen
            · exact absurd hlen (by simp)
            · rename_i liw1 h1
              split at hlen
              · exact absurd hlen (by simp)
              · rename_i la1 h2
                have e : (liw1, la1) = (liw, la) := by injection hlen
                simp only [Prod.mk.injEq] at e
                obtain ⟨rfl, rfl⟩ := e
                obtain ⟨a1, a2, a3⟩ := Machine.toIpfint_ok _ _ h1
                obtain ⟨b1, b2, b3⟩ := Machine.toIpfint_ok _ _ h2
                exact ⟨fun _ => ⟨a1, b1⟩, fun hn => absurd h3 hn, a2, a3, b2, b3⟩
          · rw [if_neg h3] at hlen
            split at hlen
            · exact absurd hlen (by simp)
            · rename_i liw1 h1
              split at hlen
              · exact absurd hlen (by simp)
              · rename_i la1 h2
                have e : (liw1, la1) = (liw, la) := by injection hlen
                simp only [Prod.mk.injEq] at e
                obtain ⟨rfl, rfl⟩ := e
                obtain ⟨a1, a2, a3⟩ := Machine.toIpfint_ok _ _ h1
                obtain ⟨b1, b2, b3⟩ := Machine.toIpfint_ok _ _ h2
                exact ⟨fun hn => absurd hn h3, fun _ => ⟨a1, b1⟩, a2, a3, b2, b3⟩
        exact ⟨key.1, key.2.1, key.2.2.1, key.2.2.2.1, key.2.2.2.2.1, key.2.2.2.2.2, hiw, ha,
          rfl⟩

/-- A reallocation succeeds when both new lengths are non-negative `ipfint` values for which
the free store has room. -/
theorem Machine.increaseWorkspace_intro (fl : α → α) (H : Heap α) (iflag ierror : Int)
    (s : Ma27SymLinearSolver α) (c : Int) (hH : H.Provides c) (hc : c ≤ ipfintMax)
    (h1 : 0 ≤ (if iflag = -3 then grown fl s.meminc_factor_ ierror
      else grown fl s.meminc_factor_ s.liw_))
    (h2 : (if iflag = -3 then grown fl s.meminc_factor_ ierror
      else grown fl s.meminc_factor_ s.liw_) ≤ c)
    (h3 : 0 ≤ (if iflag = -3 then grown fl s.meminc_factor_ s.la_
      else grown fl s.meminc_factor_ ierror))
    (h4 : (if iflag = -3 then grown fl s.meminc_factor_ s.la_
      else grown fl s.meminc_factor_ ierror) ≤ c) :
    ∃ s2, Machine.Factorization.increaseWorkspace fl H iflag ierror s = Except.ok s2 := by
  have hmin : ∀ k : Int, 0 ≤ k → ipfintMin ≤ k := by
    intro k hk
    exact le_trans (by decide) hk
  unfold Machine.Factorization.increaseWorkspace
  by_cases hf : iflag = -3
  · rw [if_pos hf] at h1 h2 h3 h4
    rw [if_pos hf]
    unfold grown at h1 h2 h3 h4
    rw [Machine.toIpfint_of_range _ (hmin _ h1) (le_trans h2 hc),
      Machine.toIpfint_of_range _ (hmin _ h3) (le_trans h4 hc)]
    dsimp only
    obtain ⟨iw, hiw⟩ := Machine.newArray_of_isSome H.ipfints _ h1 (hH _ h1 h2).2
    obtain ⟨a, ha⟩ := Machine.newArray_of_isSome H.doubles _ h3 (hH _ h3 h4).1
    rw [hiw]
    dsimp only
    rw [ha]
    exact ⟨_, rfl⟩
  · rw [if_neg hf] at h1 h2 h3 h4
    rw [if_neg hf]
    unfold grown at h1 h2 h3 h4
    rw [Machine.toIpfint_of_range _ (hmin _ h1) (le_trans h2 hc),
      Machine.toIpfint_of_range _ (hmin _ h3) (le_trans h4 hc)]
    dsimp only
    obtain ⟨iw, hiw⟩ := Machine.newArray_of_isSome H.ipfints _ h1 (hH _ h1 h2).2
    obtain ⟨a, ha⟩ := Machine.newArray_of_isSome H.doubles _ h3 (hH _ h3 h4).1
    rw [hiw]
    dsimp only
    rw [ha]
    exact ⟨_, rfl⟩

/-- What the preparation of a call of MA27BD needs: room in `a_` for the matrix values, a
product `2*dim_` that is an `ipfint`, and the scratch array. -/
theorem Machine.prepareCall_ok (H : Heap α) (s : Ma27SymLinearSolver α)
    (h : Machine.Factorization.prepareCall H s = Except.ok ()) :
    s.nonzeros_.toNat ≤ s.a_.length ∧ ipfintMin ≤ 2 * s.dim_ ∧ 2 * s.dim_ ≤ ipfintMax ∧
    ∃ iw1, Machine.newArray H.ipfints (2 * s.dim_) = Except.ok iw1 := by
  unfold Machine.Factorization.prepareCall at h
  split at h
  · exact absurd h (by simp)
  · rename_i h1
    split at h
    · exact absurd h (by simp)
    · rename_i h2
      split at h
      · exact absurd h (by simp)
      · rename_i iw1 h3
        exact ⟨not_lt.1 h1, (not_not.1 h2).1, (not_not.1 h2).2, iw1, h3⟩

/-- The preparation of a call of MA27BD goes through when `a_` has room for the matrix
values, `2*dim_` is an `ipfint` and the scratch array can be allocated. -/
theorem Machine.prepareCall_intro (H : Heap α) (s : Ma27SymLinearSolver α)
    (h1 : s.nonzeros_.toNat ≤ s.a_.length) (h2 : ipfintMin ≤ 2 * s.dim_)
    (h3 : 2 * s.dim_ ≤ ipfintMax)
    (h4 : ∃ iw1, Machine.newArray H.ipfints (2 * s.dim_) = Except.ok iw1) :
    Machine.Factorization.prepareCall H s = Except.ok () := by
  obtain ⟨iw1, h4⟩ := h4
  unfold Machine.Factorization.prepareCall
  rw [if_neg (not_lt.2 h1), if_neg (not_not.2 ⟨h2, h3⟩), h4]

/-- The retry loop on the machine ends in a fault when the preparation of the call does. -/
theorem Machine.FactorizationLoop_unprepared (fl : α → α) (H : Heap α) (K : Kernel α)
    (A : SymMatrix α) (fuel : Nat) (s : Ma27SymLinearSolver α) (f : Fault)
    (h : Machine.Factorization.prepareCall H s = Except.error f) :
    Machine.FactorizationLoop fl H K A (fuel + 1) s = some (Except.error (f, s.log)) := by
  rw [Machine.FactorizationLoop, h]

/-- One round of the retry loop on the machine after status -3 or -4, when the reallocation
succeeds. -/
theorem Machine.FactorizationLoop_retry (fl : α → α) (H : Heap α) (K : Kernel α)
    (A : SymMatrix α) (fuel : Nat) (s s2 : Ma27SymLinearSolver α)
    (hp : Machine.Factorization.prepareCall H s = Except.ok ())
    (h : (Factorization.callMa27bd K A s).iflag = -3 ∨
      (Factorization.callMa27bd K A s).iflag = -4)
    (h2 : Machine.Factorization.increaseWorkspace fl H (Factorization.callMa27bd K A s).iflag
      (Factorization.callMa27bd K A s).ierror (Factorization.receive K A s) = Except.ok s2) :
    Machine.FactorizationLoop fl H K A (fuel + 1) s =
      Machine.FactorizationLoop fl H K A fuel s2 := by
  rw [Machine.FactorizationLoop, hp]
  dsimp only
  rw [if_pos h, h2]

/-- One round of the retry loop on the machine after status -3 or -4, when the reallocation
ends in a fault: the call ends there, after the one invocation of MA27BD. -/
theorem Machine.FactorizationLoop_retry_fault (fl : α → α) (H : Heap α) (K : Kernel α)
    (A : SymMatrix α) (fuel : Nat) (s : Ma27SymLinearSolver α) (f : Fault)
    (hp : Machine.Factorization.prepareCall H s = Except.ok ())
    (h : (Factorization.callMa27bd K A s).iflag = -3 ∨
      (Factorization.callMa27bd K A s).iflag = -4)
    (h2 : Machine.Factorization.increaseWorkspace fl H (Factorization.callMa27bd K A s).iflag
      (Factorization.callMa27bd K A s).ierror (Factorization.receive K A s) =
        Except.error f) :
    Machine.FactorizationLoop fl H K A (fuel + 1) s =
      some (Except.error (f, (Factorization.receive K A s).log)) := by
  rw [Machine.FactorizationLoop, hp]
  dsimp only
  rw [if_pos h, h2]

/-- The last round of the retry loop on the machine, on a status other than -3 and -4. -/
theorem Machine.FactorizationLoop_done (fl : α → α) (H : Heap α) (K : Kernel α)
    (A : SymMatrix α) (fuel : Nat) (s : Ma27SymLinearSolver α)
    (hp : Machine.Factorization.prepareCall H s = Except.ok ())
    (h : ¬ ((Factorization.callMa27bd K A s).iflag = -3 ∨
      (Factorization.callMa27bd K A s).iflag = -4)) :
    Machine.FactorizationLoop fl H K A (fuel + 1) s =
      some (Except.ok (Factorization.receive K A s, (Factorization.callMa27bd K A s).iflag,
        (Factorization.callMa27bd K A s).ncmpbr, (Factorization.callMa27bd K A s).ncmpbi)) := by
  rw [Machine.FactorizationLoop, hp]
  dsimp only
  rw [if_neg h]

/-- How a round of the retry loop on the machine that leads to a return went: the call was
prepared, and either the status was neither -3 nor -4, or the reallocation succeeded and the
loop returned from the new engine. -/
theorem Machine.FactorizationLoop_ok_cases (fl : α → α) (H : Heap α) (K : Kernel α)
    (A : SymMatrix α) (fuel : Nat) (s : Ma27SymLinearSolver α)
    (y : Ma27SymLinearSolver α × Int × Int × Int)
    (h : Machine.FactorizationLoop fl H K A (fuel + 1) s = some (Except.ok y)) :
    Machine.Factorization.prepareCall H s = Except.ok () ∧
    ((¬ ((Factorization.callMa27bd K A s).iflag = -3 ∨
          (Factorization.callMa27bd K A s).iflag = -4) ∧
        y = (Factorization.receive K A s, (Factorization.callMa27bd K A s).iflag,
          (Factorization.callMa27bd K A s).ncmpbr, (Factorization.callMa27bd K A s).ncmpbi)) ∨
      (((Factorization.callMa27bd K A s).iflag = -3 ∨
          (Factorization.callMa27bd K A s).iflag = -4) ∧
        ∃ s2, Machine.Factorization.increaseWorkspace fl H
            (Factorization.callMa27bd K A s).iflag (Factorization.callMa27bd K A s).ierror
            (Factorization.receive K A s) = Except.ok s2 ∧
          Machine.FactorizationLoop fl H K A fuel s2 = some (Except.ok y))) := by
  cases hp : Machine.Factorization.prepareCall H s with
  | error f =>
    rw [Machine.FactorizationLoop_unprepared fl H K A fuel s f hp] at h
    exact absurd h (by simp)
  | ok u =>
    refine ⟨rfl, ?_⟩
    by_cases hflag : (Factorization.callMa27bd K A s).iflag = -3 ∨
        (Factorization.callMa27bd K A s).iflag = -4
    · right
      refine ⟨hflag, ?_⟩
      cases hi : Machine.Factorization.increaseWorkspace fl H
          (Factorization.callMa27bd K A s).iflag (Factorization.callMa27bd K A s).ierror
          (Factorization.receive K A s) with
      | error f =>
        rw [Machine.FactorizationLoop_retry_fault fl H K A fuel s f hp hflag hi] at h
        exact absurd h (by simp)
      | ok s2 =>
        rw [Machine.FactorizationLoop_retry fl H K A fuel s s2 hp hflag hi] at h
        exact ⟨s2, rfl, h⟩
    · left
      rw [Machine.FactorizationLoop_done fl H K A fuel s hp hflag] at h
      simp only [Option.some.injEq, Except.ok.injEq] at h
      exact ⟨hflag, h.symm⟩

/-- The members that the enlargement of marked workspaces leaves alone. -/
theorem Machine.growIfMarked_frame (fl : α → α) (H : Heap α) (s sg : Ma27SymLinearSolver α)
    (h : Machine.Factorization.growIfMarked fl H s = Except.ok sg) :
    sg.log = s.log ∧ sg.meminc_factor_ = s.meminc_factor_ ∧ sg.nonzeros_ = s.nonzeros_ ∧
    sg.dim_ = s.dim_ ∧ sg.cntl_ = s.cntl_ ∧ WorkspaceUpdate s sg := by
  unfold Machine.Factorization.growIfMarked at h
  unfold WorkspaceUpdate
  split at h
  · exact absurd h (by simp)
  · rename_i s1 h1
    have k1 : s1.log = s.log ∧ s1.meminc_factor_ = s.meminc_factor_ ∧
        s1.nonzeros_ = s.nonzeros_ ∧ s1.dim_ = s.dim_ ∧ s1.cntl_ = s.cntl_ ∧
        WorkspaceUpdate s s1 := by
      unfold WorkspaceUpdate
      split at h1
      · split at h1
        · exact absurd h1 (by simp)
        · split at h1
          · exact absurd h1 (by simp)
          · injection h1 with h1
            subst h1
            exact ⟨rfl, rfl, rfl, rfl, rfl, rfl⟩
      · injection h1 with h1
        subst h1
        exact ⟨rfl, rfl, rfl, rfl, rfl, rfl⟩
    have k2 : sg.log = s1.log ∧ sg.meminc_factor_ = s1.meminc_factor_ ∧
        sg.nonzeros_ = s1.nonzeros_ ∧ sg.dim_ = s1.dim_ ∧ sg.cntl_ = s1.cntl_ ∧
        WorkspaceUpdate s1 sg := by
      unfold WorkspaceUpdate
      split at h
      · split at h
        · exact absurd h (by simp)
        · split at h
          · exact absurd h (by simp)
          · injection h with h
            subst h
            exact ⟨rfl, rfl, rfl, rfl, rfl, rfl⟩
      · injection h with h
        subst h
        exact ⟨rfl, rfl, rfl, rfl, rfl, rfl⟩
    obtain ⟨a1, a2, a3, a4, a5, a6⟩ := k1
    obtain ⟨b1, b2, b3, b4, b5, b6⟩ := k2
    exact ⟨b1.trans a1, b2.trans a2, b3.trans a3, b4.trans a4, b5.trans a5,
      WorkspaceUpdate.trans a6 b6⟩

/-- What the enlargement of marked workspaces has done when it succeeds: a marked length is the
truncated rounded product, an `ipfint` value, its array is a fresh one of that length, and
both marks are cleared; an unmarked workspace is as it was. -/
theorem Machine.growIfMarked_ok (fl : α → α) (H : Heap α) (s sg : Ma27SymLinearSolver α)
    (h : Machine.Factorization.growIfMarked fl H s = Except.ok sg) :
    sg.la_ = (if s.la_increase_ = true then grown fl s.meminc_factor_ s.la_ else s.la_) ∧
    sg.liw_ = (if s.liw_increase_ = true then grown fl s.meminc_factor_ s.liw_ else s.liw_) ∧
    sg.la_increase_ = false ∧ sg.liw_increase_ = false ∧
    (s.la_increase_ = true → ipfintMin ≤ sg.la_ ∧ sg.la_ ≤ ipfintMax ∧
      Machine.newArray H.doubles sg.la_ = Except.ok sg.a_) ∧
    (s.la_increase_ = false → sg.a_ = s.a_) ∧
    (s.liw_increase_ = true → ipfintMin ≤ sg.liw_ ∧ sg.liw_ ≤ ipfintMax ∧
      Machine.newArray H.ipfints sg.liw_ = Except.ok sg.iw_) ∧
    (s.liw_increase_ = false → sg.iw_ = s.iw_) := by
  unfold Machine.Factorization.growIfMarked at h
  split at h
  · exact absurd h (by simp)
  · rename_i s1 h1
    have k1 : s1.la_ = (if s.la_increase_ = true then grown fl s.meminc_factor_ s.la_
          else s.la_) ∧
        s1.la_increase_ = false ∧
        (s.la_increase_ = true → ipfintMin ≤ s1.la_ ∧ s1.la_ ≤ ipfintMax ∧
          Machine.newArray H.doubles s1.la_ = Except.ok s1.a_) ∧
        (s.la_increase_ = false → s1.a_ = s.a_) ∧
        s1.liw_ = s.liw_ ∧ s1.liw_increase_ = s.liw_increase_ ∧ s1.iw_ = s.iw_ ∧
        s1.meminc_factor_ = s.meminc_factor_ := by
      by_cases hm : s.la_increase_ = true
      · rw [if_pos hm] at h1
        split at h1
        · exact absurd h1 (by simp)
        · rename_i la hla
          split at h1
          · exact absurd h1 (by simp)
          · rename_i a ha
            injection h1 with h1
            subst h1
            obtain ⟨a1, a2, a3⟩ := Machine.toIpfint_ok _ _ hla
            refine ⟨?_, rfl, fun _ => ⟨a2, a3, ha⟩, fun hn => ?_, rfl, rfl, rfl, rfl⟩
            · rw [if_pos hm]; exact a1
            · rw [hm] at hn; exact absurd hn (by simp)
      · rw [if_neg hm] at h1
        injection h1 with h1
        subst h1
        have hf : s.la_increase_ = false := by simpa using hm
        refine ⟨?_, hf, fun ht => absurd ht hm, fun _ => rfl, rfl, rfl, rfl, rfl⟩
        rw [if_neg hm]
    obtain ⟨k1a, k1b, k1c, k1d, l1, l2, l3, l4⟩ := k1
    by_cases hm : s1.liw_increase_ = true
    · rw [if_pos hm] at h
      split at h
      · exact absurd h (by simp)
      · rename_i liw hliw
        split at h
        · exact absurd h (by simp)
        · rename_i iw hiw
          injection h with h
          subst h
          obtain ⟨a1, a2, a3⟩ := Machine.toIpfint_ok _ _ hliw
          rw [l2] at hm
          refine ⟨k1a, ?_, k1b, rfl, k1c, k1d, fun _ => ⟨a2, a3, hiw⟩, fun hn => ?_⟩
          · rw [if_pos hm]
            show liw = _
            rw [a1, l4, l1]; rfl
          · rw [hm] at hn; exact absurd hn (by simp)
    · rw [if_neg hm] at h
      injection h with h
      subst h
      have hf : s1.liw_increase_ = false := by simpa using hm
      rw [l2] at hm
      refine ⟨k1a, ?_, k1b, hf, k1c, k1d, fun ht => absurd ht hm, fun _ => l3⟩
      rw [if_neg hm]; exact l1

/-- An engine without marks is not touched by the enlargement step. -/
theorem Machine.growIfMarked_unmarked (fl : α → α) (H : Heap α) (s : Ma27SymLinearSolver α)
    (h1 : s.la_increase_ = false) (h2 : s.liw_increase_ = false) :
    Machine.Factorization.growIfMarked fl H s = Except.ok s := by
  unfold Machine.Factorization.growIfMarked
  rw [h1]
  simp only [Bool.false_eq_true, if_false]
  rw [h2]
  simp

/-- The method `Factorization` on the machine, once the enlargement step and the retry loop
have gone through: the status follows from the last answer of MA27BD, and the marking step is
taken when that answer has status 0. -/
theorem Machine.Factorization_of_loop (fl : α → α) (H : Heap α) (K : Kernel α) (fuel : Nat)
    (A : SymMatrix α) (chk : Bool) (n : Int) (s sg s1 : Ma27SymLinearSolver α) (f br bi : Int)
    (hg : Machine.Factorization.growIfMarked fl H s = Except.ok sg)
    (hl : Machine.FactorizationLoop fl H K A fuel sg = some (Except.ok (s1, f, br, bi))) :
    Machine.Factorization fl H K fuel A chk n s =
      some (Except.ok (Factorization.outcome chk n f s1.negevals_,
        if f = 0 then Factorization.markIfCompressed br bi s1 else s1)) := by
  unfold Machine.Factorization Factorization.outcome
  rw [hg]
  dsimp only
  rw [hl]
  dsimp only
  by_cases h5 : f = -5 ∨ f = 3
  · have hf : f ≠ 0 := by rcases h5 with h5 | h5 <;> rw [h5] <;> decide
    rw [if_pos h5, if_pos h5, if_neg hf]
  · rw [if_neg h5, if_neg h5]
    by_cases h0 : f = 0
    · rw [if_neg (not_not.2 h0), if_neg (not_not.2 h0), if_pos h0,
        (markIfCompressed_spec br bi s1).2.2.1]
      split <;> rfl
    · rw [if_pos h0, if_pos h0, if_neg h0]

/-- How a call of `Factorization` on the machine that returns went: the enlargement step
succeeded, the retry loop returned, the status follows from the last answer of MA27BD, and the
marking step was taken when that answer has status 0. -/
theorem Machine.Factorization_returned (fl : α → α) (H : Heap α) (K : Kernel α) (fuel : Nat)
    (A : SymMatrix α) (chk : Bool) (n : Int) (s s' : Ma27SymLinearSolver α) (r : ESolveStatus)
    (h : Machine.Factorization fl H K fuel A chk n s = some (Except.ok (r, s'))) :
    ∃ (sg s1 : Ma27SymLinearSolver α) (f br bi : Int),
      Machine.Factorization.growIfMarked fl H s = Except.ok sg ∧
      Machine.FactorizationLoop fl H K A fuel sg = some (Except.ok (s1, f, br, bi)) ∧
      r = Factorization.outcome chk n f s1.negevals_ ∧
      s' = (if f = 0 then Factorization.markIfCompressed br bi s1 else s1) := by
  cases hg : Machine.Factorization.growIfMarked fl H s with
  | error e =>
    unfold Machine.Factorization at h
    rw [hg] at h
    exact absurd h (by simp)
  | ok sg =>
    cases hl : Machine.FactorizationLoop fl H K A fuel sg with
    | none =>
      unfold Machine.Factorization at h
      rw [hg] at h
      dsimp only at h
      rw [hl] at h
      exact absurd h (by simp)
    | some res =>
      cases res with
      | error e =>
        unfold Machine.Factorization at h
        rw [hg] at h
        dsimp only at h
        rw [hl] at h
        exact absurd h (by simp)
      | ok y =>
        obtain ⟨s1, f, br, bi⟩ := y
        rw [Machine.Factorization_of_loop fl H K fuel A chk n s sg s1 f br bi hg hl] at h
        simp only [Option.some.injEq, Except.ok.injEq, Prod.mk.injEq] at h
        exact ⟨sg, s1, f, br, bi, rfl, hl, h.1.symm, h.2.symm⟩

/-- The members that a reallocation on the machine leaves alone. -/
theorem Machine.increaseWorkspace_frame (fl : α → α) (H : Heap α) (iflag ierror : Int)
    (s s2 : Ma27SymLinearSolver α)
    (h : Machine.Factorization.increaseWorkspace fl H iflag ierror s = Except.ok s2) :
    s2.log = s.log ∧ s2.meminc_factor_ = s.meminc_factor_ ∧ s2.cntl_ = s.cntl_ ∧
    s2.nonzeros_ = s.nonzeros_ ∧ s2.dim_ = s.dim_ ∧ s2.la_increase_ = s.la_increase_ ∧
    s2.liw_increase_ = s.liw_increase_ ∧ s2.airn_ = s.airn_ ∧ s2.ajcn_ = s.ajcn_ ∧
    s2.ikeep_ = s.ikeep_ ∧ s2.nsteps_ = s.nsteps_ ∧ s2.icntl_ = s.icntl_ ∧
    WorkspaceUpdate s s2 := by
  have e := (Machine.increaseWorkspace_ok fl H iflag ierror s s2 h).2.2.2.2.2.2.2.2
  unfold WorkspaceUpdate
  rw [e]
  exact ⟨rfl, rfl, rfl, rfl, rfl, rfl, rfl, rfl, rfl, rfl, rfl, rfl, rfl⟩

/-- The retry loop on the machine, when it returns: it ends in a call of MA27BD made from an
engine `s0` whose status is neither -3 nor -4; every kernel invocation before that one is a
call of MA27BD answered with status -3 or -4; the first invocation is the call made from the
initial engine; there are at most as many invocations as there was fuel; and the loop leaves
the two marks alone. -/
theorem Machine.FactorizationLoop_trace (fl : α → α) (H : Heap α) (K : Kernel α)
    (A : SymMatrix α) :
    ∀ (fuel : Nat) (s s1 : Ma27SymLinearSolver α) (f br bi : Int),
      Machine.FactorizationLoop fl H K A fuel s = some (Except.ok (s1, f, br, bi)) →
      ∃ (pre : List (KernelCall α)) (s0 : Ma27SymLinearSolver α),
        s1 = Factorization.receive K A s0 ∧ s0.log = s.log ++ pre ∧
        (∀ e ∈ pre, ∃ o, e.bdOut = some o ∧ (o.iflag = -3 ∨ o.iflag = -4)) ∧
        pre.length + 1 ≤ fuel ∧ (pre = [] → s0 = s) ∧
        (pre ++ [KernelCall.bd (TripletHelper.FillValues s0.nonzeros_ A s0.a_) s0.la_ s0.liw_
          s0.cntl_ (Factorization.callMa27bd K A s0)]).head? =
          some (KernelCall.bd (TripletHelper.FillValues s.nonzeros_ A s.a_) s.la_ s.liw_
            s.cntl_ (Factorization.callMa27bd K A s)) ∧
        s0.la_increase_ = s.la_increase_ ∧ s0.liw_increase_ = s.liw_increase_ ∧
        (Factorization.callMa27bd K A s0).iflag = f ∧
        (Factorization.callMa27bd K A s0).ncmpbr = br ∧
        (Factorization.callMa27bd K A s0).ncmpbi = bi ∧ f ≠ -3 ∧ f ≠ -4 ∧
        Machine.Factorization.prepareCall H s0 = Except.ok () := by
  intro fuel
  induction fuel with
  | zero => intro s s1 f br bi h; simp [Machine.FactorizationLoop] at h
  | succ fuel ih =>
    intro s s1 f br bi h
    obtain ⟨hp, hc⟩ := Machine.FactorizationLoop_ok_cases fl H K A fuel s _ h
    rcases hc with ⟨hflag, hy⟩ | ⟨hflag, s2, hi, hl⟩
    · simp only [Prod.mk.injEq] at hy
      obtain ⟨rfl, rfl, rfl, rfl⟩ := hy
      refine ⟨[], s, rfl, by simp, by simp, by simp, fun _ => rfl, rfl, rfl, rfl, rfl, rfl,
        rfl, ?_, ?_, hp⟩
      · exact fun h3 => hflag (Or.inl h3)
      · exact fun h4 => hflag (Or.inr h4)
    · obtain ⟨e1, -, -, -, -, e6, e7, -, -, -, -, -, -⟩ :=
        Machine.increaseWorkspace_frame fl H _ _ _ s2 hi
      obtain ⟨pre, s0, h1, h2, h3, h4, h5, h6, h7, h8, h9, h10, h11, h12, h13, h14⟩ :=
        ih s2 s1 f br bi hl
      refine ⟨KernelCall.bd (TripletHelper.FillValues s.nonzeros_ A s.a_) s.la_ s.liw_
        s.cntl_ (Factorization.callMa27bd K A s) :: pre, s0, h1, ?_, ?_, ?_, ?_, rfl, ?_, ?_,
        h9, h10, h11, h12, h13, h14⟩
      · rw [h2, e1]
        show (s.log ++ [_]) ++ _ = _
        rw [List.append_assoc]
        rfl
      · intro e he
        rcases List.mem_cons.1 he with he | he
        · rw [he]
          exact ⟨_, rfl, hflag⟩
        · exact h3 e he
      · simp only [List.length_cons]
        omega
      · intro hnil
        exact absurd hnil (by simp)
      · rw [h7, e6]; rfl
      · rw [h8, e7]; rfl

/-- The log after one call of MA27BD. -/
theorem receive_log (K : Kernel α) (A : SymMatrix α) (s : Ma27SymLinearSolver α) :
    (Factorization.receive K A s).log = s.log ++ [Factorization.bdCall K A s] := rfl

/-- However the retry loop on the machine ends, the log it leaves extends the log it
found. -/
theorem Machine.FactorizationLoop_extends (fl : α → α) (H : Heap α) (K : Kernel α)
    (A : SymMatrix α) :
    ∀ (fuel : Nat) (s : Ma27SymLinearSolver α),
      (∀ (y : Ma27SymLinearSolver α × Int × Int × Int),
        Machine.FactorizationLoop fl H K A fuel s = some (Except.ok y) →
        ∃ evs, y.1.log = s.log ++ evs) ∧
      (∀ (f : Fault) (log : List (KernelCall α)),
        Machine.FactorizationLoop fl H K A fuel s = some (Except.error (f, log)) →
        ∃ evs, log = s.log ++ evs) := by
  intro fuel
  induction fuel with
  | zero =>
    intro s
    constructor
    · intro y h; simp [Machine.FactorizationLoop] at h
    · intro f log h; simp [Machine.FactorizationLoop] at h
  | succ fuel ih =>
    intro s
    cases hp : Machine.Factorization.prepareCall H s with
    | error f0 =>
      rw [Machine.FactorizationLoop_unprepared fl H K A fuel s f0 hp]
      constructor
      · intro y h; exact absurd h (by simp)
      · intro f log h
        simp only [Option.some.injEq, Except.error.injEq, Prod.mk.injEq] at h
        exact ⟨[], by rw [← h.2]; simp⟩
    | ok u =>
      by_cases hflag : (Factorization.callMa27bd K A s).iflag = -3 ∨
          (Factorization.callMa27bd K A s).iflag = -4
      · cases hi : Machine.Factorization.increaseWorkspace fl H
            (Factorization.callMa27bd K A s).iflag (Factorization.callMa27bd K A s).ierror
            (Factorization.receive K A s) with
        | error f0 =>
          rw [Machine.FactorizationLoop_retry_fault fl H K A fuel s f0 hp hflag hi]
          constructor
          · intro y h; exact absurd h (by simp)
          · intro f log h
            simp only [Option.some.injEq, Except.error.injEq, Prod.mk.injEq] at h
            exact ⟨[Factorization.bdCall K A s], by rw [← h.2]; rfl⟩
        | ok s2 =>
          rw [Machine.FactorizationLoop_retry fl H K A fuel s s2 hp hflag hi]
          have e1 := (Machine.increaseWorkspace_frame fl H _ _ _ s2 hi).1
          rw [receive_log] at e1
          obtain ⟨i1, i2⟩ := ih s2
          constructor
          · intro y h
            obtain ⟨evs, he⟩ := i1 y h
            exact ⟨Factorization.bdCall K A s :: evs, by
              rw [he, e1, List.append_assoc]; rfl⟩
          · intro f log h
            obtain ⟨evs, he⟩ := i2 f log h
            exact ⟨Factorization.bdCall K A s :: evs, by
              rw [he, e1, List.append_assoc]; rfl⟩
      · rw [Machine.FactorizationLoop_done fl H K A fuel s hp hflag]
        constructor
        · intro y h
          simp only [Option.some.injEq, Except.ok.injEq] at h
          exact ⟨[Factorization.bdCall K A s], by rw [← h]; rfl⟩
        · intro f log h; exact absurd h (by simp)

/-- When the call of MA27BD from `s` is prepared, the log that the retry loop on the machine
leaves, however it ends, continues the log it found with that call. -/
theorem Machine.FactorizationLoop_first (fl : α → α) (H : Heap α) (K : Kernel α)
    (A : SymMatrix α) (fuel : Nat) (s : Ma27SymLinearSolver α)
    (hp : Machine.Factorization.prepareCall H s = Except.ok ()) :
    (∀ (y : Ma27SymLinearSolver α × Int × Int × Int),
      Machine.FactorizationLoop fl H K A fuel s = some (Except.ok y) →
      ∃ evs, y.1.log = s.log ++ Factorization.bdCall K A s :: evs) ∧
    (∀ (f : Fault) (log : List (KernelCall α)),
      Machine.FactorizationLoop fl H K A fuel s = some (Except.error (f, log)) →
      ∃ evs, log = s.log ++ Factorization.bdCall K A s :: evs) := by
  cases fuel with
  | zero =>
    constructor
    · intro y h; simp [Machine.FactorizationLoop] at h
    · intro f log h; simp [Machine.FactorizationLoop] at h
  | succ fuel =>
    by_cases hflag : (Factorization.callMa27bd K A s).iflag = -3 ∨
        (Factorization.callMa27bd K A s).iflag = -4
    · cases hi : Machine.Factorization.increaseWorkspace fl H
          (Factorization.callMa27bd K A s).iflag (Factorization.callMa27bd K A s).ierror
          (Factorization.receive K A s) with
      | error f0 =>
        rw [Machine.FactorizationLoop_retry_fault fl H K A fuel s f0 hp hflag hi]
        constructor
        · intro y h; exact absurd h (by simp)
        · intro f log h
          simp only [Option.some.injEq, Except.error.injEq, Prod.mk.injEq] at h
          exact ⟨[], by rw [← h.2]; rfl⟩
      | ok s2 =>
        rw [Machine.FactorizationLoop_retry fl H K A fuel s s2 hp hflag hi]
        have e1 := (Machine.increaseWorkspace_frame fl H _ _ _ s2 hi).1
        rw [receive_log] at e1
        obtain ⟨i1, i2⟩ := Machine.FactorizationLoop_extends fl H K A fuel s2
        constructor
        · intro y h
          obtain ⟨evs, he⟩ := i1 y h
          exact ⟨evs, by rw [he, e1, List.append_assoc]; rfl⟩
        · intro f log h
          obtain ⟨evs, he⟩ := i2 f log h
          exact ⟨evs, by rw [he, e1, List.append_assoc]; rfl⟩
    · rw [Machine.FactorizationLoop_done fl H K A fuel s hp hflag]
      constructor
      · intro y h
        simp only [Option.some.injEq, Except.ok.injEq] at h
        exact ⟨[], by rw [← h]; rfl⟩
      · intro f log h; exact absurd h (by simp)

/-- The method `Factorization` on the machine ends in the fault in which its retry loop
ends. -/
theorem Machine.Factorization_of_loop_fault (fl : α → α) (H : Heap α) (K : Kernel α)
    (fuel : Nat) (A : SymMatrix α) (chk : Bool) (n : Int) (s sg : Ma27SymLinearSolver α)
    (e : Fault × List (KernelCall α))
    (hg : Machine.Factorization.growIfMarked fl H s = Except.ok sg)
    (hl : Machine.FactorizationLoop fl H K A fuel sg = some (Except.error e)) :
    Machine.Factorization fl H K fuel A chk n s = some (Except.error e) := by
  unfold Machine.Factorization
  rw [hg]
  dsimp only
  rw [hl]

/-- The method `Factorization` on the machine ends in the fault in which the enlargement of
a marked workspace ends, before any kernel invocation. -/
theorem Machine.Factorization_of_grow_fault (fl : α → α) (H : Heap α) (K : Kernel α)
    (fuel : Nat) (A : SymMatrix α) (chk : Bool) (n : Int) (s : Ma27SymLinearSolver α)
    (f : Fault) (hg : Machine.Factorization.growIfMarked fl H s = Except.error f) :
    Machine.Factorization fl H K fuel A chk n s = some (Except.error (f, s.log)) := by
  unfold Machine.Factorization
  rw [hg]

/-- C17, the counterexample: the kernel answers status -3 with the requirement 300000000 and
the growth factor is the default 10.  The product 3000000000 is not an `ipfint`, so the
conversion `(ipfint)(meminc_factor_ * (double)(ierror))` is undefined: the call of
`Factorization` ends there, whatever the fuel, after the one invocation of MA27BD with the
lengths (40, 40), and the kernel is not invoked again. -/
theorem C17_retry_can_end_without_second_call :
    (preparedEngine hungryKernel exampleMatrix).meminc_factor_ = 10 ∧
    (Factorization.callMa27bd hungryKernel exampleMatrix
      (preparedEngine hungryKernel exampleMatrix)).iflag = -3 ∧
    (Factorization.callMa27bd hungryKernel exampleMatrix
      (preparedEngine hungryKernel exampleMatrix)).ierror = 300000000 ∧
    trunc ((10 : ℚ) * ((300000000 : Int) : ℚ)) = 3000000000 ∧
    ¬ (3000000000 ≤ ipfintMax) ∧
    (∀ fuel : Nat,
      Machine.Factorization id plentyHeap hungryKernel (fuel + 1) exampleMatrix false 0
          (preparedEngine hungryKernel exampleMatrix) =
        some (Except.error (Fault.undefined,
          (preparedEngine hungryKernel exampleMatrix).log ++
            [Factorization.bdCall hungryKernel exampleMatrix
              (preparedEngine hungryKernel exampleMatrix)]))) ∧
    ((preparedEngine hungryKernel exampleMatrix).log ++
        [Factorization.bdCall hungryKernel exampleMatrix
          (preparedEngine hungryKernel exampleMatrix)]).filterMap KernelCall.bdLengths =
      [(40, 40)] := by
  refine ⟨by with_unfolding_all decide, by with_unfolding_all decide,
    by with_unfolding_all decide, by with_unfolding_all decide, by decide, ?_,
    by with_unfolding_all decide⟩
  intro fuel
  apply Machine.Factorization_of_loop_fault id plentyHeap hungryKernel (fuel + 1) exampleMatrix
    false 0 _ (preparedEngine hungryKernel exampleMatrix)
  · exact Machine.growIfMarked_unmarked id plentyHeap _ (by with_unfolding_all decide)
      (by with_unfolding_all decide)
  · exact Machine.FactorizationLoop_retry_fault id plentyHeap hungryKernel exampleMatrix fuel
      _ Fault.undefined (by with_unfolding_all rfl) (by with_unfolding_all decide)
      (by with_unfolding_all rfl)

/-- Truncation is monotone. -/
theorem trunc_mono (x y : α) (h : x ≤ y) : trunc x ≤ trunc y := by
  unfold trunc
  by_cases hx : 0 ≤ x
  · rw [if_pos hx, if_pos (le_trans hx h)]
    exact Int.floor_le_floor h
  · rw [if_neg hx]
    by_cases hy : 0 ≤ y
    · rw [if_pos hy]
      have h1 : ⌈x⌉ ≤ 0 := Int.ceil_le.2 (by exact_mod_cast le_of_lt (not_le.1 hx))
      have h2 : (0 : Int) ≤ ⌊y⌋ := Int.floor_nonneg.2 hy
      exact le_trans h1 h2
    · rw [if_neg hy]
      exact Int.ceil_le_ceil h

/-- Truncation of an integer is that integer. -/
theorem trunc_intCast (k : Int) : trunc (k : α) = k := by
  unfold trunc
  split
  · exact Int.floor_intCast k
  · exact Int.ceil_intCast k

/-- With a rounding that is monotone and exact on the integers up to `2^31`, and a factor of
at least 1: a length between 0 and `2^31` that is not above `x` is not above the truncated
rounded product of the factor and `x`. -/
theorem le_grown (fl : α → α) (hfl : Rounding fl) (m : α) (hm : 1 ≤ m) (n x : Int)
    (hn : 0 ≤ n) (hn2 : n ≤ 2147483648) (hx : n ≤ x) : n ≤ grown fl m x := by
  unfold grown
  have h1 : (n : α) ≤ m * (x : α) := by
    have hx0 : (0 : α) ≤ (x : α) := by exact_mod_cast le_trans hn hx
    calc (n : α) ≤ (x : α) := by exact_mod_cast hx
      _ = 1 * (x : α) := (one_mul _).symm
      _ ≤ m * (x : α) := mul_le_mul_of_nonneg_right hm hx0
  have h2 : (n : α) ≤ fl (m * (x : α)) := by
    rw [← hfl.2 n (le_trans (by decide) hn) hn2]
    exact hfl.1 h1
  have := trunc_mono _ _ h2
  rw [trunc_intCast] at this
  exact this

/-- With a rounding that is monotone and a non-negative factor, the truncated rounded product
is monotone in the length. -/
theorem grown_mono (fl : α → α) (hfl : Rounding fl) (m : α) (hm : 0 ≤ m) (x y : Int)
    (h : x ≤ y) : grown fl m x ≤ grown fl m y := by
  unfold grown
  apply trunc_mono
  apply hfl.1
  exact mul_le_mul_of_nonneg_left (by exact_mod_cast h) hm

/-- The identity is a rounding: arithmetic that is exact. -/
theorem Rounding_id : Rounding (id : α → α) :=
  ⟨fun _ _ h => h, fun _ _ _ => rfl⟩

/-- On the machine, with a growth factor of at least 1, lengths that are non-negative `ipfint`
values and a kernel whose reported requirement is not below the length it was given, a
reallocation that succeeds shrinks neither length. -/
theorem Machine.retry_step_grows (fl : α → α) (hfl : Rounding fl) (H : Heap α) (K : Kernel α)
    (A : SymMatrix α) (hK : K.ReportsAtLeastGiven A) (s s2 : Ma27SymLinearSolver α)
    (hm : 1 ≤ s.meminc_factor_) (hla : 0 ≤ s.la_) (hla2 : s.la_ ≤ ipfintMax)
    (hliw : 0 ≤ s.liw_) (hliw2 : s.liw_ ≤ ipfintMax)
    (hflag : (Factorization.callMa27bd K A s).iflag = -3 ∨
      (Factorization.callMa27bd K A s).iflag = -4)
    (hi : Machine.Factorization.increaseWorkspace fl H (Factorization.callMa27bd K A s).iflag
      (Factorization.callMa27bd K A s).ierror (Factorization.receive K A s) = Except.ok s2) :
    s.la_ ≤ s2.la_ ∧ s.liw_ ≤ s2.liw_ := by
  obtain ⟨k1, k2, -⟩ := Machine.increaseWorkspace_ok fl H _ _ _ s2 hi
  have hm2 : 1 ≤ (Factorization.receive K A s).meminc_factor_ := hm
  have b1 : s.la_ ≤ 2147483648 := le_trans hla2 (by decide)
  have b2 : s.liw_ ≤ 2147483648 := le_trans hliw2 (by decide)
  rcases hflag with h3 | h4
  · obtain ⟨e1, e2⟩ := k1 h3
    rw [e1, e2]
    exact ⟨le_grown fl hfl _ hm2 _ _ hla b1 (le_refl _),
      le_grown fl hfl _ hm2 _ _ hliw b2 ((hK s).1 h3)⟩
  · obtain ⟨e1, e2⟩ := k2 (by rw [h4]; decide)
    rw [e1, e2]
    exact ⟨le_grown fl hfl _ hm2 _ _ hla b1 ((hK s).2 h4),
      le_grown fl hfl _ hm2 _ _ hliw b2 (le_refl _)⟩

/-- On the machine, under the same conditions, the lengths handed to MA27BD along a retry
loop that returns never decrease, starting from the lengths of the initial engine. -/
theorem Machine.FactorizationLoop_lengths (fl : α → α) (hfl : Rounding fl) (H : Heap α)
    (K : Kernel α) (A : SymMatrix α) (hK : K.ReportsAtLeastGiven A) :
    ∀ (fuel : Nat) (s s1 : Ma27SymLinearSolver α) (f br bi : Int),
      1 ≤ s.meminc_factor_ → 0 ≤ s.la_ → s.la_ ≤ ipfintMax → 0 ≤ s.liw_ →
      s.liw_ ≤ ipfintMax →
      Machine.FactorizationLoop fl H K A fuel s = some (Except.ok (s1, f, br, bi)) →
      ∃ evs : List (KernelCall α),
        s1.log = s.log ++ evs ∧
        List.Chain (fun p q : Int × Int => p.1 ≤ q.1 ∧ p.2 ≤ q.2) (s.la_, s.liw_)
          (evs.filterMap KernelCall.bdLengths) ∧
        s.la_ ≤ s1.la_ ∧ s.liw_ ≤ s1.liw_ := by
  intro fuel
  induction fuel with
  | zero => intro s s1 f br bi _ _ _ _ _ h; simp [Machine.FactorizationLoop] at h
  | succ fuel ih =>
    intro s s1 f br bi hm hla hla2 hliw hliw2 h
    obtain ⟨hp, hc⟩ := Machine.FactorizationLoop_ok_cases fl H K A fuel s _ h
    rcases hc with ⟨hflag, hy⟩ | ⟨hflag, s2, hi, hl⟩
    · simp only [Prod.mk.injEq] at hy
      obtain ⟨rfl, -, -, -⟩ := hy
      refine ⟨[Factorization.bdCall K A s], rfl, ?_, le_refl _, le_refl _⟩
      show List.Chain _ (s.la_, s.liw_) [(s.la_, s.liw_)]
      exact List.Chain.cons ⟨le_refl _, le_refl _⟩ List.Chain.nil
    · obtain ⟨g1, g2⟩ :=
        Machine.retry_step_grows fl hfl H K A hK s s2 hm hla hla2 hliw hliw2 hflag hi
      obtain ⟨-, -, -, k4, -, k6, -⟩ := Machine.increaseWorkspace_ok fl H _ _ _ s2 hi
      obtain ⟨e1, e2, -⟩ := Machine.increaseWorkspace_frame fl H _ _ _ s2 hi
      obtain ⟨evs, hlog, hchain, h1, h2⟩ :=
        ih s2 s1 f br bi (by rw [e2]; exact hm) (le_trans hla g1) k6 (le_trans hliw g2) k4 hl
      refine ⟨Factorization.bdCall K A s :: evs, ?_, ?_, le_trans g1 h1, le_trans g2 h2⟩
      · rw [hlog, e1, receive_log, List.append_assoc]
        rfl
      · show List.Chain _ (s.la_, s.liw_)
          ((s.la_, s.liw_) :: evs.filterMap KernelCall.bdLengths)
        refine List.Chain.cons ⟨le_refl _, le_refl _⟩ ?_
        refine List.Chain.imp' (fun _ _ hab => hab) ?_ hchain
        intro c hc
        exact ⟨le_trans g1 hc.1, le_trans g2 hc.2⟩

/-- C12, amended.  On the machine, with a growth factor of at least 1, lengths at entry that
are non-negative `ipfint` values, a rounding of the double products that is monotone and exact
on integers, and a kernel whose reported requirement on status -3 (-4) is never below the
`LIW` (`LA`) it was given: every reallocation after status -3 or -4 that succeeds leaves `la_`
and `liw_` at least what they were (and `ipfint` values again); and along any call of
`Factorization` that returns, the lengths handed to the successive calls of MA27BD are
non-decreasing in both components, starting at or above the lengths at entry, and the lengths
at exit are not below those at entry. -/
theorem C12_retries_do_not_shrink_lengths (fl : α → α) (hfl : Rounding fl) (H : Heap α)
    (K : Kernel α) (A : SymMatrix α) (hK : K.ReportsAtLeastGiven A)
    (s : Ma27SymLinearSolver α) (hm : 1 ≤ s.meminc_factor_)
    (hla : 0 ≤ s.la_) (hla2 : s.la_ ≤ ipfintMax) (hliw : 0 ≤ s.liw_)
    (hliw2 : s.liw_ ≤ ipfintMax) :
    (∀ s2 : Ma27SymLinearSolver α,
      ((Factorization.callMa27bd K A s).iflag = -3 ∨
        (Factorization.callMa27bd K A s).iflag = -4) →
      Machine.Factorization.increaseWorkspace fl H (Factorization.callMa27bd K A s).iflag
        (Factorization.callMa27bd K A s).ierror (Factorization.receive K A s) = Except.ok s2 →
      s.la_ ≤ s2.la_ ∧ s.liw_ ≤ s2.liw_ ∧ s2.la_ ≤ ipfintMax ∧ s2.liw_ ≤ ipfintMax) ∧
    ∀ (fuel : Nat) (chk : Bool) (n : Int) (r : ESolveStatus) (s' : Ma27SymLinearSolver α),
      Machine.Factorization fl H K fuel A chk n s = some (Except.ok (r, s')) →
      ∃ evs : List (KernelCall α),
        s'.log = s.log ++ evs ∧
        List.Chain (fun p q : Int × Int => p.1 ≤ q.1 ∧ p.2 ≤ q.2) (s.la_, s.liw_)
          (evs.filterMap KernelCall.bdLengths) ∧
        s.la_ ≤ s'.la_ ∧ s.liw_ ≤ s'.liw_ := by
  constructor
  · intro s2 hflag hi
    obtain ⟨g1, g2⟩ :=
      Machine.retry_step_grows fl hfl H K A hK s s2 hm hla hla2 hliw hliw2 hflag hi
    obtain ⟨-, -, -, k4, -, k6, -⟩ := Machine.increaseWorkspace_ok fl H _ _ _ s2 hi
    exact ⟨g1, g2, k6, k4⟩
  · intro fuel chk n r s' h
    obtain ⟨sg, s1, f, br, bi, hg, hl, -, hs'⟩ :=
      Machine.Factorization_returned fl H K fuel A chk n s s' r h
    obtain ⟨g1, g2, -, -, g5, -, g7, -⟩ := Machine.growIfMarked_ok fl H s sg hg
    obtain ⟨f1, f2, -⟩ := Machine.growIfMarked_frame fl H s sg hg
    have b1 : s.la_ ≤ 2147483648 := le_trans hla2 (by decide)
    have b2 : s.liw_ ≤ 2147483648 := le_trans hliw2 (by decide)
    have hgla : s.la_ ≤ sg.la_ ∧ sg.la_ ≤ ipfintMax := by
      by_cases hmk : s.la_increase_ = true
      · rw [g1, if_pos hmk]
        refine ⟨le_grown fl hfl _ hm _ _ hla b1 (le_refl _), ?_⟩
        have := (g5 hmk).2.1
        rw [g1, if_pos hmk] at this
        exact this
      · rw [g1, if_neg hmk]
        exact ⟨le_refl _, hla2⟩
    have hgliw : s.liw_ ≤ sg.liw_ ∧ sg.liw_ ≤ ipfintMax := by
      by_cases hmk : s.liw_increase_ = true
      · rw [g2, if_pos hmk]
        refine ⟨le_grown fl hfl _ hm _ _ hliw b2 (le_refl _), ?_⟩
        have := (g7 hmk).2.1
        rw [g2, if_pos hmk] at this
        exact this
      · rw [g2, if_neg hmk]
        exact ⟨le_refl _, hliw2⟩
    obtain ⟨evs, hlog, hchain, h1, h2⟩ :=
      Machine.FactorizationLoop_lengths fl hfl H K A hK fuel sg s1 f br bi
        (by rw [f2]; exact hm) (le_trans hla hgla.1) hgla.2 (le_trans hliw hgliw.1) hgliw.2 hl
    obtain ⟨-, m2, -, m4, m5⟩ := markIfCompressed_spec br bi s1
    have hs'log : s'.log = s1.log ∧ s'.la_ = s1.la_ ∧ s'.liw_ = s1.liw_ := by
      rw [hs']; split
      · exact ⟨m2, m4, m5⟩
      · exact ⟨rfl, rfl, rfl⟩
    refine ⟨evs, ?_, ?_, ?_, ?_⟩
    · rw [hs'log.1, hlog, f1]
    · refine List.Chain.imp' (fun _ _ hab => hab) ?_ hchain
      intro c hc
      exact ⟨le_trans hgla.1 hc.1, le_trans hgliw.1 hc.2⟩
    · rw [hs'log.2.1]; exact le_trans hgla.1 h1
    · rw [hs'log.2.2]; exact le_trans hgliw.1 h2

/-- C12 at the kernel with required sizes 50 and 500, with exact arithmetic and room on the
free store: the call from the lengths (40, 40) with the growth factor 2 returns, having
handed MA27BD the lengths (40, 40), (80, 100) and (1000, 200). -/
theorem C12_retries_do_not_shrink_lengths_witness :
    Rounding (id : ℚ → ℚ) ∧ thresholdKernel.ReportsAtLeastGiven exampleMatrix ∧
    (1 : ℚ) ≤ doublingEngine.meminc_factor_ ∧
    Machine.Factorization id plentyHeap thresholdKernel 3 exampleMatrix false 0
        doublingEngine =
      some (Except.ok (ESolveStatus.S_SUCCESS,
        engineAfterMachineFactorization plentyHeap thresholdKernel 3 exampleMatrix false 0
          doublingEngine)) ∧
    (engineAfterMachineFactorization plentyHeap thresholdKernel 3 exampleMatrix false 0
        doublingEngine).log.filterMap KernelCall.bdLengths =
      [(40, 40), (80, 100), (1000, 200)] ∧
    ∃ evs : List (KernelCall ℚ),
      (engineAfterMachineFactorization plentyHeap thresholdKernel 3 exampleMatrix false 0
          doublingEngine).log =
        doublingEngine.log ++ evs ∧
      List.Chain (fun p q : Int × Int => p.1 ≤ q.1 ∧ p.2 ≤ q.2)
        (doublingEngine.la_,
          doublingEngine.liw_)
        (evs.filterMap KernelCall.bdLengths) ∧
      doublingEngine.la_ ≤
        (engineAfterMachineFactorization plentyHeap thresholdKernel 3 exampleMatrix false 0
          doublingEngine).la_ ∧
      doublingEngine.liw_ ≤
        (engineAfterMachineFactorization plentyHeap thresholdKernel 3 exampleMatrix false 0
          doublingEngine).liw_ := by
  have hm : (1 : ℚ) ≤ doublingEngine.meminc_factor_ := by
    with_unfolding_all decide
  have hF : Machine.Factorization id plentyHeap thresholdKernel 3 exampleMatrix false 0
        doublingEngine =
      some (Except.ok (ESolveStatus.S_SUCCESS,
        engineAfterMachineFactorization plentyHeap thresholdKernel 3 exampleMatrix false 0
          doublingEngine)) := by
    set_option maxRecDepth 10000 in with_unfolding_all rfl
  exact ⟨Rounding_id, thresholdKernel_reports exampleMatrix, hm, hF,
    by set_option maxRecDepth 10000 in with_unfolding_all decide,
    (C12_retries_do_not_shrink_lengths id Rounding_id plentyHeap thresholdKernel exampleMatrix
      (thresholdKernel_reports exampleMatrix) doublingEngine
      hm (by with_unfolding_all decide) (by with_unfolding_all decide)
      (by with_unfolding_all decide) (by with_unfolding_all decide)).2 3 false 0
      ESolveStatus.S_SUCCESS _ hF⟩

/-- With a rounding that is exact on the integers up to `2^31` and a factor of at least 1, a
length whose truncated rounded product is an `ipfint` value is at most `ipfintMax` itself. -/
theorem le_of_grown_le (fl : α → α) (hfl : Rounding fl) (m : α) (hm : 1 ≤ m) (x : Int)
    (h : grown fl m x ≤ ipfintMax) : x ≤ ipfintMax := by
  by_contra hx
  have hx2 : (2147483648 : Int) ≤ x := by
    have : ipfintMax < x := not_le.1 hx
    unfold ipfintMax at this
    omega
  have := le_grown fl hfl m hm 2147483648 x (by decide) (le_refl _) hx2
  unfold ipfintMax at h
  omega

/-- A free store that never fails has room for every array. -/
theorem plentyHeap_provides (c : Int) : plentyHeap.Provides c := by
  intro n _ _
  exact ⟨rfl, rfl⟩

/-- A free store with room for arrays of at most `c` places. -/
theorem boundedHeap_provides (c : Int) : (boundedHeap c).Provides c := by
  intro n _ hn
  unfold boundedHeap
  simp [hn]

/-- On an engine that is ready, the preparation of the call of MA27BD goes through. -/
theorem Machine.prepareCall_of_ready (H : Heap α) (c b : Int) (hH : H.Provides c)
    (hc : c ≤ ipfintMax) (s : Ma27SymLinearSolver α) (hs : Machine.Ready c b s) :
    Machine.Factorization.prepareCall H s = Except.ok () := by
  obtain ⟨h1, -, -, -, h5, h6, h7, h8⟩ := hs
  have h0 : (0 : Int) ≤ 2 * s.dim_ := by omega
  apply Machine.prepareCall_intro
  · rw [h6]
    exact Int.toNat_le_toNat h5
  · exact le_trans (by decide) h0
  · exact le_trans h8 hc
  · exact Machine.newArray_of_isSome H.ipfints _ h0 (hH _ h0 h8).2

/-- The last round of the retry loop on the machine: from a prepared engine on which MA27BD
answers a status other than -3 and -4, the loop returns after that one invocation. -/
theorem Machine.ReturnsWithin_done (fl : α → α) (H : Heap α) (K : Kernel α) (A : SymMatrix α)
    (k : Nat) (s : Ma27SymLinearSolver α)
    (hp : Machine.Factorization.prepareCall H s = Except.ok ())
    (hflag : ¬ ((Factorization.callMa27bd K A s).iflag = -3 ∨
      (Factorization.callMa27bd K A s).iflag = -4)) :
    Machine.ReturnsWithin fl H K A (k + 1) s := by
  refine ⟨Factorization.receive K A s, (Factorization.callMa27bd K A s).iflag,
    (Factorization.callMa27bd K A s).ncmpbr, (Factorization.callMa27bd K A s).ncmpbi,
    [Factorization.bdCall K A s], ?_, rfl,
    by simp, ?_, Factorization.bdCall K A s, Factorization.callMa27bd K A s, rfl, rfl, rfl,
    rfl, fun h => hflag (Or.inl h), fun h => hflag (Or.inr h)⟩
  · intro fuel hfuel
    obtain ⟨j, rfl⟩ : ∃ j, fuel = j + 1 := ⟨fuel - 1, by omega⟩
    exact Machine.FactorizationLoop_done fl H K A j s hp hflag
  · intro e he
    rw [List.mem_singleton.1 he]
    rfl

/-- A round of the retry loop on the machine whose reallocation succeeds: when the loop
returns within `k` invocations from the new engine, it returns within `k + 1` from the old
one. -/
theorem Machine.ReturnsWithin_retry (fl : α → α) (H : Heap α) (K : Kernel α) (A : SymMatrix α)
    (k : Nat) (s s2 : Ma27SymLinearSolver α)
    (hp : Machine.Factorization.prepareCall H s = Except.ok ())
    (hflag : (Factorization.callMa27bd K A s).iflag = -3 ∨
      (Factorization.callMa27bd K A s).iflag = -4)
    (hi : Machine.Factorization.increaseWorkspace fl H (Factorization.callMa27bd K A s).iflag
      (Factorization.callMa27bd K A s).ierror (Factorization.receive K A s) = Except.ok s2)
    (h : Machine.ReturnsWithin fl H K A k s2) :
    Machine.ReturnsWithin fl H K A (k + 1) s := by
  obtain ⟨s1, f, br, bi, evs, h1, h2, h3, h4, last, out, h5, h6, h7, h8, h9, h10⟩ := h
  have e1 := (Machine.increaseWorkspace_frame fl H _ _ _ s2 hi).1
  refine ⟨s1, f, br, bi, Factorization.bdCall K A s :: evs, ?_, ?_, ?_, ?_, last, out, ?_, h6,
    h7, h8, h9, h10⟩
  · intro fuel hfuel
    obtain ⟨j, rfl⟩ : ∃ j, fuel = j + 1 := ⟨fuel - 1, by omega⟩
    rw [Machine.FactorizationLoop_retry fl H K A j s s2 hp hflag hi]
    exact h1 j (by omega)
  · rw [h2, e1, receive_log, List.append_assoc]
    rfl
  · simp only [List.length_cons]
    omega
  · intro e he
    rcases List.mem_cons.1 he with he | he
    · rw [he]; rfl
    · exact h4 e he
  · cases evs with
    | nil => simp at h5
    | cons x xs => rw [List.getLast?_cons_cons]; exact h5

/-- One reallocation on a machine with room: from an engine that is ready, with lengths and
required sizes of at most `b` whose truncated rounded product with the growth factor is at most
`c`, the reallocation after status -3 or -4 of a kernel with fixed required sizes succeeds; the
new engine is ready with lengths of at most that product, neither length has shrunk, and the
length whose requirement was reported is now at least the required size. -/
theorem Machine.retry_step_ready (fl : α → α) (hfl : Rounding fl) (H : Heap α) (K : Kernel α)
    (A : SymMatrix α) (Rliw Rla : Int) (hK : K.ThresholdWorkspace A Rliw Rla) (c b : Int)
    (hH : H.Provides c) (hc : c ≤ ipfintMax) (s : Ma27SymLinearSolver α)
    (hm : 1 ≤ s.meminc_factor_) (hs : Machine.Ready c b s) (hRliw : Rliw ≤ b) (hRla : Rla ≤ b)
    (hG : grown fl s.meminc_factor_ b ≤ c)
    (hflag : (Factorization.callMa27bd K A s).iflag = -3 ∨
      (Factorization.callMa27bd K A s).iflag = -4) :
    ∃ s2 : Ma27SymLinearSolver α,
      Machine.Factorization.increaseWorkspace fl H (Factorization.callMa27bd K A s).iflag
        (Factorization.callMa27bd K A s).ierror (Factorization.receive K A s) = Except.ok s2 ∧
      Machine.Ready c (grown fl s.meminc_factor_ b) s2 ∧
      s2.meminc_factor_ = s.meminc_factor_ ∧ s.la_ ≤ s2.la_ ∧ s.liw_ ≤ s2.liw_ ∧
      ((Factorization.callMa27bd K A s).iflag = -3 → Rliw ≤ s2.liw_) ∧
      ((Factorization.callMa27bd K A s).iflag = -4 → Rla ≤ s2.la_) := by
  obtain ⟨h1, h2, h3, h4, h5, h6, h7, h8⟩ := hs
  have hm0 : (0 : α) ≤ s.meminc_factor_ := le_trans zero_le_one hm
  have hb : b ≤ ipfintMax := le_of_grown_le fl hfl _ hm b (le_trans hG hc)
  have hb2 : b ≤ 2147483648 := le_trans hb (by decide)
  have r1 : (Factorization.receive K A s).meminc_factor_ = s.meminc_factor_ := rfl
  have r2 : (Factorization.receive K A s).la_ = s.la_ := rfl
  have r3 : (Factorization.receive K A s).liw_ = s.liw_ := rfl
  have r4 : (Factorization.receive K A s).nonzeros_ = s.nonzeros_ := rfl
  have r5 : (Factorization.receive K A s).dim_ = s.dim_ := rfl
  -- the two new lengths
  have key : ∃ L La : Int,
      (if (Factorization.callMa27bd K A s).iflag = -3
        then grown fl s.meminc_factor_ (Factorization.callMa27bd K A s).ierror
        else grown fl s.meminc_factor_ s.liw_) = L ∧
      (if (Factorization.callMa27bd K A s).iflag = -3
        then grown fl s.meminc_factor_ s.la_
        else grown fl s.meminc_factor_ (Factorization.callMa27bd K A s).ierror) = La ∧
      s.liw_ ≤ L ∧ L ≤ grown fl s.meminc_factor_ b ∧
      s.la_ ≤ La ∧ La ≤ grown fl s.meminc_factor_ b ∧
      ((Factorization.callMa27bd K A s).iflag = -3 → Rliw ≤ L) ∧
      ((Factorization.callMa27bd K A s).iflag = -4 → Rla ≤ La) := by
    rcases hflag with f3 | f4
    · obtain ⟨t1, t2⟩ := (hK.2.2 s).1 f3
      refine ⟨_, _, rfl, rfl, ?_, ?_, ?_, ?_, ?_, ?_⟩
      · rw [if_pos f3, t2]
        exact le_grown fl hfl _ hm _ _ h3 (le_trans h4 hb2) (le_of_lt t1)
      · rw [if_pos f3, t2]
        exact grown_mono fl hfl _ hm0 _ _ hRliw
      · rw [if_pos f3]
        exact le_grown fl hfl _ hm _ _ h1 (le_trans h2 hb2) (le_refl _)
      · rw [if_pos f3]
        exact grown_mono fl hfl _ hm0 _ _ h2
      · intro _
        rw [if_pos f3, t2]
        exact le_grown fl hfl _ hm _ _ hK.1 (le_trans hRliw hb2) (le_refl _)
      · intro f4
        rw [f3] at f4
        exact absurd f4 (by decide)
    · obtain ⟨t1, t2⟩ := (hK.2.2 s).2 f4
      have n3 : ¬ (Factorization.callMa27bd K A s).iflag = -3 := by rw [f4]; decide
      refine ⟨_, _, rfl, rfl, ?_, ?_, ?_, ?_, ?_, ?_⟩
      · rw [if_neg n3]
        exact le_grown fl hfl _ hm _ _ h3 (le_trans h4 hb2) (le_refl _)
      · rw [if_neg n3]
        exact grown_mono fl hfl _ hm0 _ _ h4
      · rw [if_neg n3, t2]
        exact le_grown fl hfl _ hm _ _ h1 (le_trans h2 hb2) (le_of_lt t1)
      · rw [if_neg n3, t2]
        exact grown_mono fl hfl _ hm0 _ _ hRla
      · intro f3
        exact absurd f3 n3
      · intro _
        rw [if_neg n3, t2]
        exact le_grown fl hfl _ hm _ _ hK.2.1 (le_trans hRla hb2) (le_refl _)
  obtain ⟨L, La, eL, eLa, q1, q2, q3, q4, q5, q6⟩ := key
  obtain ⟨s2, hi⟩ := Machine.increaseWorkspace_intro fl H
    (Factorization.callMa27bd K A s).iflag (Factorization.callMa27bd K A s).ierror
    (Factorization.receive K A s) c hH hc
    (by rw [r1, r3, eL]; exact le_trans h3 q1)
    (by rw [r1, r3, eL]; exact le_trans q2 hG)
    (by rw [r1, r2, eLa]; exact le_trans h1 q3)
    (by rw [r1, r2, eLa]; exact le_trans q4 hG)
  obtain ⟨k1, k2, -, -, -, -, -, k8, -⟩ := Machine.increaseWorkspace_ok fl H _ _ _ s2 hi
  obtain ⟨-, e2, -, e4, e5, -⟩ := Machine.increaseWorkspace_frame fl H _ _ _ s2 hi
  obtain ⟨-, n4, -⟩ := Machine.newArray_ok _ _ _ k8
  have hL : s2.liw_ = L := by
    by_cases f3 : (Factorization.callMa27bd K A s).iflag = -3
    · rw [(k1 f3).1, r1, ← eL, if_pos f3]
    · rw [(k2 f3).1, r1, r3, ← eL, if_neg f3]
  have hLa : s2.la_ = La := by
    by_cases f3 : (Factorization.callMa27bd K A s).iflag = -3
    · rw [(k1 f3).2, r1, r2, ← eLa, if_pos f3]
    · rw [(k2 f3).2, r1, ← eLa, if_neg f3]
  refine ⟨s2, hi, ⟨?_, ?_, ?_, ?_, ?_, n4, ?_, ?_⟩, e2.trans r1, ?_, ?_, ?_, ?_⟩
  · rw [hLa]; exact le_trans h1 q3
  · rw [hLa]; exact q4
  · rw [hL]; exact le_trans h3 q1
  · rw [hL]; exact q2
  · rw [e4, r4, hLa]; exact le_trans h5 q3
  · rw [e5, r5]; exact h7
  · rw [e5, r5]; exact h8
  · rw [hLa]; exact q3
  · rw [hL]; exact q1
  · rw [hL]; exact q5
  · rw [hLa]; exact q6

/-- With both lengths at the required sizes, a kernel with fixed required sizes does not ask
for more workspace: the retry loop on the machine returns after one call. -/
theorem Machine.ReturnsWithin_zero (fl : α → α) (H : Heap α) (K : Kernel α) (A : SymMatrix α)
    (Rliw Rla : Int) (hK : K.ThresholdWorkspace A Rliw Rla) (c b : Int) (hH : H.Provides c)
    (hc : c ≤ ipfintMax) (k : Nat) (s : Ma27SymLinearSolver α) (hs : Machine.Ready c b s)
    (h3 : Rliw ≤ s.liw_) (h4 : Rla ≤ s.la_) :
    Machine.ReturnsWithin fl H K A (k + 1) s := by
  apply Machine.ReturnsWithin_done fl H K A k s (Machine.prepareCall_of_ready H c b hH hc s hs)
  rintro (h | h)
  · exact absurd ((hK.2.2 s).1 h).1 (not_lt.2 h3)
  · exact absurd ((hK.2.2 s).2 h).1 (not_lt.2 h4)

/-- With one of the two lengths at its required size and room for one reallocation, the retry
loop on the machine returns after at most two calls. -/
theorem Machine.ReturnsWithin_one (fl : α → α) (hfl : Rounding fl) (H : Heap α) (K : Kernel α)
    (A : SymMatrix α) (Rliw Rla : Int) (hK : K.ThresholdWorkspace A Rliw Rla) (c b : Int)
    (hH : H.Provides c) (hc : c ≤ ipfintMax) (k : Nat) (s : Ma27SymLinearSolver α)
    (hm : 1 ≤ s.meminc_factor_) (hs : Machine.Ready c b s) (hRliw : Rliw ≤ b) (hRla : Rla ≤ b)
    (hG : grown fl s.meminc_factor_ b ≤ c) (h : Rliw ≤ s.liw_ ∨ Rla ≤ s.la_) :
    Machine.ReturnsWithin fl H K A (k + 2) s := by
  have hp := Machine.prepareCall_of_ready H c b hH hc s hs
  by_cases hflag : (Factorization.callMa27bd K A s).iflag = -3 ∨
      (Factorization.callMa27bd K A s).iflag = -4
  · obtain ⟨s2, hi, hr, -, g1, g2, g3, g4⟩ :=
      Machine.retry_step_ready fl hfl H K A Rliw Rla hK c b hH hc s hm hs hRliw hRla hG hflag
    apply Machine.ReturnsWithin_retry fl H K A (k + 1) s s2 hp hflag hi
    apply Machine.ReturnsWithin_zero fl H K A Rliw Rla hK c _ hH hc k s2 hr
    · rcases hflag with f3 | f4
      · exact g3 f3
      · rcases h with h | h
        · exact le_trans h g2
        · exact absurd ((hK.2.2 s).2 f4).1 (not_lt.2 h)
    · rcases hflag with f3 | f4
      · rcases h with h | h
        · exact absurd ((hK.2.2 s).1 f3).1 (not_lt.2 h)
        · exact le_trans h g1
      · exact g4 f4
  · exact Machine.ReturnsWithin_done fl H K A (k + 1) s hp hflag

/-- With room for two reallocations, the retry loop on the machine returns after at most
three calls of a kernel with fixed required sizes. -/
theorem Machine.ReturnsWithin_two (fl : α → α) (hfl : Rounding fl) (H : Heap α) (K : Kernel α)
    (A : SymMatrix α) (Rliw Rla : Int) (hK : K.ThresholdWorkspace A Rliw Rla) (c b : Int)
    (hH : H.Provides c) (hc : c ≤ ipfintMax) (k : Nat) (s : Ma27SymLinearSolver α)
    (hm : 1 ≤ s.meminc_factor_) (hs : Machine.Ready c b s) (hRliw : Rliw ≤ b) (hRla : Rla ≤ b)
    (hG : grown fl s.meminc_factor_ (grown fl s.meminc_factor_ b) ≤ c) :
    Machine.ReturnsWithin fl H K A (k + 3) s := by
  have hp := Machine.prepareCall_of_ready H c b hH hc s hs
  have hGb : grown fl s.meminc_factor_ b ≤ ipfintMax :=
    le_of_grown_le fl hfl _ hm _ (le_trans hG hc)
  have hb : b ≤ ipfintMax := le_of_grown_le fl hfl _ hm _ hGb
  have hb0 : 0 ≤ b := le_trans hs.1 hs.2.1
  have hbG : b ≤ grown fl s.meminc_factor_ b :=
    le_grown fl hfl _ hm _ _ hb0 (le_trans hb (by decide)) (le_refl _)
  have hGG : grown fl s.meminc_factor_ b ≤ grown fl s.meminc_factor_ (grown fl s.meminc_factor_ b) :=
    le_grown fl hfl _ hm _ _ (le_trans hb0 hbG) (le_trans hGb (by decide)) (le_refl _)
  by_cases hflag : (Factorization.callMa27bd K A s).iflag = -3 ∨
      (Factorization.callMa27bd K A s).iflag = -4
  · obtain ⟨s2, hi, hr, hm2, g1, g2, g3, g4⟩ :=
      Machine.retry_step_ready fl hfl H K A Rliw Rla hK c b hH hc s hm hs hRliw hRla
        (le_trans hGG hG) hflag
    apply Machine.ReturnsWithin_retry fl H K A (k + 2) s s2 hp hflag hi
    apply Machine.ReturnsWithin_one fl hfl H K A Rliw Rla hK c _ hH hc k s2
      (by rw [hm2]; exact hm) hr (le_trans hRliw hbG) (le_trans hRla hbG)
      (by rw [hm2]; exact hG)
    rcases hflag with f3 | f4
    · exact Or.inl (g3 f3)
    · exact Or.inr (g4 f4)
  · exact Machine.ReturnsWithin_done fl H K A (k + 2) s hp hflag

/-- The enlargement of marked workspaces succeeds when each marked length grows to a
non-negative `ipfint` value for which the free store has room. -/
theorem Machine.growIfMarked_intro (fl : α → α) (H : Heap α) (c : Int) (hH : H.Provides c)
    (hc : c ≤ ipfintMax) (s : Ma27SymLinearSolver α)
    (hla : s.la_increase_ = true →
      0 ≤ grown fl s.meminc_factor_ s.la_ ∧ grown fl s.meminc_factor_ s.la_ ≤ c)
    (hliw : s.liw_increase_ = true →
      0 ≤ grown fl s.meminc_factor_ s.liw_ ∧ grown fl s.meminc_factor_ s.liw_ ≤ c) :
    ∃ sg, Machine.Factorization.growIfMarked fl H s = Except.ok sg := by
  have hmin : ∀ k : Int, 0 ≤ k → ipfintMin ≤ k := by
    intro k hk
    exact le_trans (by decide) hk
  unfold grown at hla hliw
  unfold Machine.Factorization.growIfMarked
  by_cases h1 : s.la_increase_ = true
  · obtain ⟨a1, a2⟩ := hla h1
    obtain ⟨a, ha⟩ := Machine.newArray_of_isSome H.doubles _ a1 (hH _ a1 a2).1
    rw [if_pos h1, Machine.toIpfint_of_range _ (hmin _ a1) (le_trans a2 hc)]
    dsimp only
    rw [ha]
    dsimp only
    by_cases h2 : s.liw_increase_ = true
    · obtain ⟨b1, b2⟩ := hliw h2
      obtain ⟨iw, hiw⟩ := Machine.newArray_of_isSome H.ipfints _ b1 (hH _ b1 b2).2
      rw [if_pos h2, Machine.toIpfint_of_range _ (hmin _ b1) (le_trans b2 hc)]
      dsimp only
      rw [hiw]
      exact ⟨_, rfl⟩
    · rw [if_neg h2]
      exact ⟨_, rfl⟩
  · rw [if_neg h1]
    dsimp only
    by_cases h2 : s.liw_increase_ = true
    · obtain ⟨b1, b2⟩ := hliw h2
      obtain ⟨iw, hiw⟩ := Machine.newArray_of_isSome H.ipfints _ b1 (hH _ b1 b2).2
      rw [if_pos h2, Machine.toIpfint_of_range _ (hmin _ b1) (le_trans b2 hc)]
      dsimp only
      rw [hiw]
      exact ⟨_, rfl⟩
    · rw [if_neg h2]
      exact ⟨_, rfl⟩

/-- The enlargement of marked workspaces on a machine with room: from an engine that is ready
with lengths of at most `b` whose truncated rounded product with the growth factor is at most
`c`, it succeeds, and the new engine is ready with lengths of at most that product. -/
theorem Machine.growIfMarked_ready (fl : α → α) (hfl : Rounding fl) (H : Heap α) (c b : Int)
    (hH : H.Provides c) (hc : c ≤ ipfintMax) (s : Ma27SymLinearSolver α)
    (hm : 1 ≤ s.meminc_factor_) (hs : Machine.Ready c b s)
    (hG : grown fl s.meminc_factor_ b ≤ c) :
    ∃ sg : Ma27SymLinearSolver α,
      Machine.Factorization.growIfMarked fl H s = Except.ok sg ∧
      Machine.Ready c (grown fl s.meminc_factor_ b) sg ∧
      sg.meminc_factor_ = s.meminc_factor_ ∧ sg.log = s.log := by
  obtain ⟨h1, h2, h3, h4, h5, h6, h7, h8⟩ := hs
  have hm0 : (0 : α) ≤ s.meminc_factor_ := le_trans zero_le_one hm
  have hb : b ≤ ipfintMax := le_of_grown_le fl hfl _ hm b (le_trans hG hc)
  have hb2 : b ≤ 2147483648 := le_trans hb (by decide)
  have hb0 : 0 ≤ b := le_trans h1 h2
  have hbG : b ≤ grown fl s.meminc_factor_ b :=
    le_grown fl hfl _ hm _ _ hb0 hb2 (le_refl _)
  have q1 : s.la_ ≤ grown fl s.meminc_factor_ s.la_ :=
    le_grown fl hfl _ hm _ _ h1 (le_trans h2 hb2) (le_refl _)
  have q2 : grown fl s.meminc_factor_ s.la_ ≤ grown fl s.meminc_factor_ b :=
    grown_mono fl hfl _ hm0 _ _ h2
  have q3 : s.liw_ ≤ grown fl s.meminc_factor_ s.liw_ :=
    le_grown fl hfl _ hm _ _ h3 (le_trans h4 hb2) (le_refl _)
  have q4 : grown fl s.meminc_factor_ s.liw_ ≤ grown fl s.meminc_factor_ b :=
    grown_mono fl hfl _ hm0 _ _ h4
  obtain ⟨sg, hg⟩ := Machine.growIfMarked_intro fl H c hH hc s
    (fun _ => ⟨le_trans h1 q1, le_trans q2 hG⟩) (fun _ => ⟨le_trans h3 q3, le_trans q4 hG⟩)
  obtain ⟨g1, g2, -, -, g5, g6, -, -⟩ := Machine.growIfMarked_ok fl H s sg hg
  obtain ⟨f1, f2, f3, f4, -, -⟩ := Machine.growIfMarked_frame fl H s sg hg
  have hla : s.la_ ≤ sg.la_ ∧ sg.la_ ≤ grown fl s.meminc_factor_ b := by
    rw [g1]; split
    · exact ⟨q1, q2⟩
    · exact ⟨le_refl _, le_trans h2 hbG⟩
  have hliw : s.liw_ ≤ sg.liw_ ∧ sg.liw_ ≤ grown fl s.meminc_factor_ b := by
    rw [g2]; split
    · exact ⟨q3, q4⟩
    · exact ⟨le_refl _, le_trans h4 hbG⟩
  have hlen : sg.a_.length = sg.la_.toNat := by
    by_cases hmk : s.la_increase_ = true
    · exact (Machine.newArray_ok _ _ _ (g5 hmk).2.2).2.1
    · have hf : s.la_increase_ = false := by simpa using hmk
      rw [g6 hf, g1, if_neg hmk]
      exact h6
  refine ⟨sg, hg, ⟨le_trans h1 hla.1, hla.2, le_trans h3 hliw.1, hliw.2, ?_, hlen, ?_, ?_⟩,
    f2, f1⟩
  · rw [f3]; exact le_trans h5 hla.1
  · rw [f4]; exact h7
  · rw [f4]; exact h8

/-- C13, the counterexample: the kernel with the required sizes 50 and 500 and the growth
factor `meminc_factor = 1000000000`, which `InitializeImpl` accepts.  The first call of MA27BD
answers status -3 reporting 50; the product 50000000000 is not an `ipfint`, so the conversion
is undefined and the call of `Factorization` ends there, whatever the fuel: it ends neither
with success nor with a status of the kernel. -/
theorem C13_retry_loop_can_end_without_status :
    thresholdKernel.ThresholdWorkspace exampleMatrix 50 500 ∧
    InitializeImpl thresholdKernel (onlyMeminc 1000000000) ""
        (Ma27SymLinearSolver.ctor zeroEngine) =
      Except.ok (true, initializedEngine thresholdKernel (onlyMeminc 1000000000)) ∧
    (1 : ℚ) < (preparedEngineWith thresholdKernel (onlyMeminc 1000000000)
      exampleMatrix).meminc_factor_ ∧
    ((preparedEngineWith thresholdKernel (onlyMeminc 1000000000) exampleMatrix).la_,
      (preparedEngineWith thresholdKernel (onlyMeminc 1000000000) exampleMatrix).liw_) =
      (40, 40) ∧
    trunc ((1000000000 : ℚ) * ((50 : Int) : ℚ)) = 50000000000 ∧
    ¬ (50000000000 ≤ ipfintMax) ∧
    ∀ fuel : Nat,
      Machine.Factorization id plentyHeap thresholdKernel (fuel + 1) exampleMatrix false 0
          (preparedEngineWith thresholdKernel (onlyMeminc 1000000000) exampleMatrix) =
        some (Except.error (Fault.undefined,
          (preparedEngineWith thresholdKernel (onlyMeminc 1000000000) exampleMatrix).log ++
            [Factorization.bdCall thresholdKernel exampleMatrix
              (preparedEngineWith thresholdKernel (onlyMeminc 1000000000)
                exampleMatrix)])) := by
  refine ⟨thresholdKernel_threshold exampleMatrix, by with_unfolding_all rfl,
    by with_unfolding_all decide, by with_unfolding_all decide, by with_unfolding_all decide,
    by decide, ?_⟩
  intro fuel
  apply Machine.Factorization_of_loop_fault id plentyHeap thresholdKernel (fuel + 1)
    exampleMatrix false 0 _
    (preparedEngineWith thresholdKernel (onlyMeminc 1000000000) exampleMatrix)
  · exact Machine.growIfMarked_unmarked id plentyHeap _ (by with_unfolding_all decide)
      (by with_unfolding_all decide)
  · exact Machine.FactorizationLoop_retry_fault id plentyHeap thresholdKernel exampleMatrix
      fuel _ Fault.undefined (by with_unfolding_all rfl) (by with_unfolding_all decide)
      (by with_unfolding_all rfl)

/-- C13, amended.  On the machine, for a growth factor `meminc_factor_ > 1`, a kernel that
answers status -3 (-4) only while `liw_` (`la_`) is below a fixed required size and then
reports that size, and a rounding of the double products that is monotone and exact on
integers: if the lengths at entry and the two required sizes lie between 0 and `B`, the
truncated rounded product of the factor with `B`, taken three times over, is at most `c`, `c`
is an `ipfint` value, the free store has room for arrays of at most `c` places, `a_` has `la_`
places which are room enough for the matrix values, and `2*dim_` lies between 0 and `c`, then
every call of `Factorization` with fuel for three rounds returns, whatever the matrix: it
invokes the kernel at most three times, each time MA27BD, and the last invocation has a status
other than -3 and -4, from which the returned status follows. -/
theorem C13_retry_loop_terminates_within_range (fl : α → α) (hfl : Rounding fl) (H : Heap α)
    (K : Kernel α) (A : SymMatrix α) (Rliw Rla : Int) (hK : K.ThresholdWorkspace A Rliw Rla)
    (fuel : Nat) (chk : Bool) (n : Int) (s : Ma27SymLinearSolver α)
    (hm : 1 < s.meminc_factor_) (hfuel : 3 ≤ fuel) (B c : Int)
    (hla : 0 ≤ s.la_) (hlaB : s.la_ ≤ B) (hliw : 0 ≤ s.liw_) (hliwB : s.liw_ ≤ B)
    (hRliw : Rliw ≤ B) (hRla : Rla ≤ B)
    (hG : grown fl s.meminc_factor_
      (grown fl s.meminc_factor_ (grown fl s.meminc_factor_ B)) ≤ c)
    (hc : c ≤ ipfintMax) (hH : H.Provides c)
    (hnz : s.nonzeros_ ≤ s.la_) (ha : s.a_.length = s.la_.toNat)
    (hdim : 0 ≤ s.dim_) (hdim2 : 2 * s.dim_ ≤ c) :
    ∃ (r : ESolveStatus) (s' : Ma27SymLinearSolver α) (evs : List (KernelCall α)),
      Machine.Factorization fl H K fuel A chk n s = some (Except.ok (r, s')) ∧
      s'.log = s.log ++ evs ∧ evs.length ≤ 3 ∧ (∀ e ∈ evs, e.isBd = true) ∧
      ∃ (last : KernelCall α) (out : Ma27bdOut α),
        evs.getLast? = some last ∧ last.bdOut = some out ∧
        out.iflag ≠ -3 ∧ out.iflag ≠ -4 ∧
        r = Factorization.outcome chk n out.iflag out.negevals := by
  have hm1 : 1 ≤ s.meminc_factor_ := le_of_lt hm
  have hs : Machine.Ready c B s := ⟨hla, hlaB, hliw, hliwB, hnz, ha, hdim, hdim2⟩
  have hGG : grown fl s.meminc_factor_ (grown fl s.meminc_factor_ B) ≤ ipfintMax :=
    le_of_grown_le fl hfl _ hm1 _ (le_trans hG hc)
  have hGB : grown fl s.meminc_factor_ B ≤ ipfintMax := le_of_grown_le fl hfl _ hm1 _ hGG
  have hB : B ≤ ipfintMax := le_of_grown_le fl hfl _ hm1 _ hGB
  have hB0 : 0 ≤ B := le_trans hla hlaB
  have i1 : B ≤ grown fl s.meminc_factor_ B :=
    le_grown fl hfl _ hm1 _ _ hB0 (le_trans hB (by decide)) (le_refl _)
  have i2 : grown fl s.meminc_factor_ B ≤
      grown fl s.meminc_factor_ (grown fl s.meminc_factor_ B) :=
    le_grown fl hfl _ hm1 _ _ (le_trans hB0 i1) (le_trans hGB (by decide)) (le_refl _)
  have i3 : grown fl s.meminc_factor_ (grown fl s.meminc_factor_ B) ≤
      grown fl s.meminc_factor_
        (grown fl s.meminc_factor_ (grown fl s.meminc_factor_ B)) :=
    le_grown fl hfl _ hm1 _ _ (le_trans (le_trans hB0 i1) i2) (le_trans hGG (by decide))
      (le_refl _)
  obtain ⟨sg, hg, hr, hmg, hlogg⟩ :=
    Machine.growIfMarked_ready fl hfl H c B hH hc s hm1 hs (le_trans i2 (le_trans i3 hG))
  obtain ⟨s1, f, br, bi, evs, h1, h2, h3, h4, last, out, h5, h6, h7, h8, h9, h10⟩ :=
    Machine.ReturnsWithin_two fl hfl H K A Rliw Rla hK c _ hH hc 0 sg
      (by rw [hmg]; exact hm1) hr (le_trans hRliw i1) (le_trans hRla i1)
      (by rw [hmg]; exact hG)
  have hF := Machine.Factorization_of_loop fl H K fuel A chk n s sg s1 f br bi hg
    (h1 fuel (by omega))
  refine ⟨_, _, evs, hF, ?_, by omega, h4, last, out, h5, h6, ?_, ?_, ?_⟩
  · have : (if f = 0 then Factorization.markIfCompressed br bi s1 else s1).log = s1.log := by
      split
      · exact (markIfCompressed_spec br bi s1).2.1
      · rfl
    rw [this, h2, hlogg]
  · rw [h7]; exact h9
  · rw [h7]; exact h10
  · rw [h7, h8]

/-- C13 at the kernel with required sizes 50 and 500, from the lengths (40, 40) with the growth
factor 2, exact arithmetic and a free store with room for arrays of at most 4000 places: with
`B = 500` the threefold product is 4000, and the call returns `S_SUCCESS` after three
invocations of MA27BD, with the lengths (40, 40), (80, 100) and (1000, 200). -/
theorem C13_retry_loop_terminates_within_range_witness :
    Rounding (id : ℚ → ℚ) ∧ thresholdKernel.ThresholdWorkspace exampleMatrix 50 500 ∧
    (1 : ℚ) < doublingEngine.meminc_factor_ ∧
    grown id doublingEngine.meminc_factor_
      (grown id doublingEngine.meminc_factor_ (grown id doublingEngine.meminc_factor_ 500)) ≤
        4000 ∧
    (boundedHeap 4000).Provides 4000 ∧
    Machine.Factorization id (boundedHeap 4000) thresholdKernel 5 exampleMatrix false 0
        doublingEngine =
      some (Except.ok (ESolveStatus.S_SUCCESS,
        engineAfterMachineFactorization (boundedHeap 4000) thresholdKernel 5 exampleMatrix
          false 0 doublingEngine)) ∧
    (engineAfterMachineFactorization (boundedHeap 4000) thresholdKernel 5 exampleMatrix false 0
        doublingEngine).log.filterMap KernelCall.bdLengths =
      [(40, 40), (80, 100), (1000, 200)] ∧
    ∃ (r : ESolveStatus) (s' : Ma27SymLinearSolver ℚ) (evs : List (KernelCall ℚ)),
      Machine.Factorization id (boundedHeap 4000) thresholdKernel 5 exampleMatrix false 0
        doublingEngine = some (Except.ok (r, s')) ∧
      s'.log = doublingEngine.log ++ evs ∧ evs.length ≤ 3 ∧ (∀ e ∈ evs, e.isBd = true) ∧
      ∃ (last : KernelCall ℚ) (out : Ma27bdOut ℚ),
        evs.getLast? = some last ∧ last.bdOut = some out ∧
        out.iflag ≠ -3 ∧ out.iflag ≠ -4 ∧
        r = Factorization.outcome false 0 out.iflag out.negevals := by
  have hm : (1 : ℚ) < doublingEngine.meminc_factor_ := by with_unfolding_all decide
  have hG : grown id doublingEngine.meminc_factor_
      (grown id doublingEngine.meminc_factor_ (grown id doublingEngine.meminc_factor_ 500)) ≤
        4000 := by
    with_unfolding_all decide
  exact ⟨Rounding_id, thresholdKernel_threshold exampleMatrix, hm, hG,
    boundedHeap_provides 4000,
    by set_option maxRecDepth 10000 in with_unfolding_all rfl,
    by set_option maxRecDepth 10000 in with_unfolding_all decide,
    C13_retry_loop_terminates_within_range id Rounding_id (boundedHeap 4000) thresholdKernel
      exampleMatrix 50 500 (thresholdKernel_threshold exampleMatrix) 5 false 0 doublingEngine
      hm (by decide) 500 4000 (by with_unfolding_all decide) (by with_unfolding_all decide)
      (by with_unfolding_all decide) (by with_unfolding_all decide) (by decide) (by decide)
      hG (by decide) (boundedHeap_provides 4000) (by with_unfolding_all decide)
      (by with_unfolding_all decide) (by with_unfolding_all decide)
      (by with_unfolding_all decide)⟩

/-- C19, the counterexample: a kernel whose factorization succeeds reporting 10 compressions of
the real workspace, on the machine with exact arithmetic and room on the free store.  The
first call of `Factorization` leaves the lengths (40, 40) and marks the real workspace.  The
second call again ends in status 0 with 10 real compressions and returns `S_SUCCESS`, but it
does not leave `la_` unchanged: it enters with `la_ = 40` and exits with `la_ = 400`, the mark
set once more. -/
theorem C19_marked_call_changes_la :
    Machine.Factorization id plentyHeap (compressingKernel 10 9) 1 exampleMatrix false 0
        (preparedEngine (compressingKernel 10 9) exampleMatrix) =
      some (Except.ok (ESolveStatus.S_SUCCESS, markedEngine)) ∧
    (markedEngine.la_, markedEngine.la_increase_) = (40, true) ∧
    Machine.Factorization id plentyHeap (compressingKernel 10 9) 1 exampleMatrix false 0
        markedEngine =
      some (Except.ok (ESolveStatus.S_SUCCESS,
        engineAfterMachineFactorization plentyHeap (compressingKernel 10 9) 1 exampleMatrix
          false 0 markedEngine)) ∧
    (engineAfterMachineFactorization plentyHeap (compressingKernel 10 9) 1 exampleMatrix
        false 0 markedEngine).log.map (fun e => e.bdOut.map (fun o => (o.iflag, o.ncmpbr))) =
      [none, some (0, 10), some (0, 10)] ∧
    ((engineAfterMachineFactorization plentyHeap (compressingKernel 10 9) 1 exampleMatrix
        false 0 markedEngine).la_,
      (engineAfterMachineFactorization plentyHeap (compressingKernel 10 9) 1 exampleMatrix
        false 0 markedEngine).la_increase_) = (400, true) := by
  refine ⟨?_, ?_, ?_, ?_, ?_⟩
  · with_unfolding_all rfl
  · with_unfolding_all decide
  · set_option maxRecDepth 10000 in with_unfolding_all rfl
  · set_option maxRecDepth 10000 in with_unfolding_all decide
  · set_option maxRecDepth 10000 in with_unfolding_all decide

/-- C17, amended.  MA27BD, called from the engine `s` inside `Factorization`, answers status
-3 or -4 with `INFO[1] = r`.  (1) When the reallocation succeeds, giving the engine `s2`: on
-3 `liw_` is `trunc (fl (meminc_factor_ * r))` and `la_` is `trunc (fl (meminc_factor_ *
la_))`, on -4 `la_` is `trunc (fl (meminc_factor_ * r))` and `liw_` is `trunc (fl
(meminc_factor_ * liw_))`, `fl` being the rounding of the double product; both lengths are
non-negative `ipfint` values; both arrays are fresh arrays of the new lengths; the retry loop
goes on from `s2`, where the call of MA27BD is one on the matrix values copied into the fresh
real array, with the new lengths.  That call is prepared exactly when the new real workspace
has room for the `nonzeros_` matrix values and the scratch array can be allocated; it is then
made, and logged right after the failed one however the call of `Factorization` ends;
otherwise the call of `Factorization` ends there.  (2) When the reallocation ends in a fault,
the call ends in that fault after the one invocation.  (3) The reallocation succeeds exactly
when both new lengths are non-negative `ipfint` values and the free store has room for both
arrays. -/
theorem C17_retry_reallocates_or_ends (fl : α → α) (H : Heap α) (K : Kernel α)
    (A : SymMatrix α) (fuel : Nat) (s : Ma27SymLinearSolver α)
    (hp : Machine.Factorization.prepareCall H s = Except.ok ())
    (hflag : (Factorization.callMa27bd K A s).iflag = -3 ∨
      (Factorization.callMa27bd K A s).iflag = -4) :
    (∀ s2 : Ma27SymLinearSolver α,
      Machine.Factorization.increaseWorkspace fl H (Factorization.callMa27bd K A s).iflag
        (Factorization.callMa27bd K A s).ierror (Factorization.receive K A s) = Except.ok s2 →
      ((Factorization.callMa27bd K A s).iflag = -3 →
        s2.liw_ = trunc (fl (s.meminc_factor_ * ((Factorization.callMa27bd K A s).ierror : α))) ∧
        s2.la_ = trunc (fl (s.meminc_factor_ * (s.la_ : α)))) ∧
      ((Factorization.callMa27bd K A s).iflag = -4 →
        s2.la_ = trunc (fl (s.meminc_factor_ * ((Factorization.callMa27bd K A s).ierror : α))) ∧
        s2.liw_ = trunc (fl (s.meminc_factor_ * (s.liw_ : α)))) ∧
      0 ≤ s2.liw_ ∧ s2.liw_ ≤ ipfintMax ∧ 0 ≤ s2.la_ ∧ s2.la_ ≤ ipfintMax ∧
      Machine.newArray H.ipfints s2.liw_ = Except.ok s2.iw_ ∧
      Machine.newArray H.doubles s2.la_ = Except.ok s2.a_ ∧
      s2.iw_.length = s2.liw_.toNat ∧ s2.a_.length = s2.la_.toNat ∧
      Machine.FactorizationLoop fl H K A (fuel + 1) s =
        Machine.FactorizationLoop fl H K A fuel s2 ∧
      Factorization.callMa27bd K A s2 =
        K.ma27bd (s.log.length + 1) s.dim_ s.nonzeros_ s.airn_ s.ajcn_
          (TripletHelper.FillValues s.nonzeros_ A s2.a_) s2.la_ s2.iw_ s2.liw_ s.ikeep_
          s.nsteps_ s.icntl_ s.cntl_ ∧
      Factorization.bdCall K A s2 =
        KernelCall.bd (TripletHelper.FillValues s.nonzeros_ A s2.a_) s2.la_ s2.liw_ s.cntl_
          (Factorization.callMa27bd K A s2) ∧
      (Machine.Factorization.prepareCall H s2 = Except.ok () ↔
        s.nonzeros_ ≤ s2.la_ ∧
          ∃ iw1, Machine.newArray H.ipfints (2 * s.dim_) = Except.ok iw1) ∧
      (Machine.Factorization.prepareCall H s2 = Except.ok () →
        (∀ y : Ma27SymLinearSolver α × Int × Int × Int,
          Machine.FactorizationLoop fl H K A (fuel + 1) s = some (Except.ok y) →
          ∃ evs, y.1.log = s.log ++
            Factorization.bdCall K A s :: Factorization.bdCall K A s2 :: evs) ∧
        (∀ (f : Fault) (log : List (KernelCall α)),
          Machine.FactorizationLoop fl H K A (fuel + 1) s = some (Except.error (f, log)) →
          ∃ evs, log = s.log ++
            Factorization.bdCall K A s :: Factorization.bdCall K A s2 :: evs)) ∧
      (∀ f : Fault, Machine.Factorization.prepareCall H s2 = Except.error f →
        Machine.FactorizationLoop fl H K A (fuel + 2) s =
          some (Except.error (f, s.log ++ [Factorization.bdCall K A s])))) ∧
    (∀ f : Fault,
      Machine.Factorization.increaseWorkspace fl H (Factorization.callMa27bd K A s).iflag
        (Factorization.callMa27bd K A s).ierror (Factorization.receive K A s) =
          Except.error f →
      Machine.FactorizationLoop fl H K A (fuel + 1) s =
        some (Except.error (f, s.log ++ [Factorization.bdCall K A s]))) ∧
    ((∃ s2 : Ma27SymLinearSolver α,
        Machine.Factorization.increaseWorkspace fl H (Factorization.callMa27bd K A s).iflag
          (Factorization.callMa27bd K A s).ierror (Factorization.receive K A s) =
            Except.ok s2) ↔
      (0 ≤ (if (Factorization.callMa27bd K A s).iflag = -3
          then trunc (fl (s.meminc_factor_ * ((Factorization.callMa27bd K A s).ierror : α)))
          else trunc (fl (s.meminc_factor_ * (s.liw_ : α)))) ∧
        (if (Factorization.callMa27bd K A s).iflag = -3
          then trunc (fl (s.meminc_factor_ * ((Factorization.callMa27bd K A s).ierror : α)))
          else trunc (fl (s.meminc_factor_ * (s.liw_ : α)))) ≤ ipfintMax ∧
        0 ≤ (if (Factorization.callMa27bd K A s).iflag = -3
          then trunc (fl (s.meminc_factor_ * (s.la_ : α)))
          else trunc (fl (s.meminc_factor_ * ((Factorization.callMa27bd K A s).ierror : α)))) ∧
        (if (Factorization.callMa27bd K A s).iflag = -3
          then trunc (fl (s.meminc_factor_ * (s.la_ : α)))
          else trunc (fl (s.meminc_factor_ * ((Factorization.callMa27bd K A s).ierror : α))))
            ≤ ipfintMax ∧
        (H.ipfints (if (Factorization.callMa27bd K A s).iflag = -3
          then trunc (fl (s.meminc_factor_ * ((Factorization.callMa27bd K A s).ierror : α)))
          else trunc (fl (s.meminc_factor_ * (s.liw_ : α))))).isSome = true ∧
        (H.doubles (if (Factorization.callMa27bd K A s).iflag = -3
          then trunc (fl (s.meminc_factor_ * (s.la_ : α)))
          else trunc (fl (s.meminc_factor_ * ((Factorization.callMa27bd K A s).ierror : α)))
            )).isSome = true)) := by
  refine ⟨?_, ?_, ?_⟩
  · intro s2 hi
    obtain ⟨k1, k2, k3, k4, k5, k6, k7, k8, -⟩ := Machine.increaseWorkspace_ok fl H _ _ _ s2 hi
    obtain ⟨e1, e2, e3, e4, e5, -, -, e8, e9, e10, e11, e12, -⟩ :=
      Machine.increaseWorkspace_frame fl H _ _ _ s2 hi
    obtain ⟨n1, n2, -⟩ := Machine.newArray_ok _ _ _ k7
    obtain ⟨n3, n4, -⟩ := Machine.newArray_ok _ _ _ k8
    have hloop := Machine.FactorizationLoop_retry fl H K A fuel s s2 hp hflag hi
    obtain ⟨p1, p2, p3, p4⟩ := Machine.prepareCall_ok H s hp
    have hnz : s2.nonzeros_ = s.nonzeros_ := e4
    have hdim : s2.dim_ = s.dim_ := e5
    have hlen : s2.log.length = s.log.length + 1 := by
      rw [e1, receive_log]; simp
    have hcall : Factorization.callMa27bd K A s2 =
        K.ma27bd (s.log.length + 1) s.dim_ s.nonzeros_ s.airn_ s.ajcn_
          (TripletHelper.FillValues s.nonzeros_ A s2.a_) s2.la_ s2.iw_ s2.liw_ s.ikeep_
          s.nsteps_ s.icntl_ s.cntl_ := by
      unfold Factorization.callMa27bd
      rw [hlen, hnz, hdim, e8, e9, e10, e11, e12, e3]
      rfl
    have hev : Factorization.bdCall K A s2 =
        KernelCall.bd (TripletHelper.FillValues s.nonzeros_ A s2.a_) s2.la_ s2.liw_ s.cntl_
          (Factorization.callMa27bd K A s2) := by
      unfold Factorization.bdCall
      rw [hnz, e3]
      rfl
    have hlog2 : s2.log = s.log ++ [Factorization.bdCall K A s] := by
      rw [e1, receive_log]
    refine ⟨?_, ?_, n1, k4, n3, k6, k7, k8, n2, n4, hloop, hcall, hev, ?_, ?_, ?_⟩
    · intro h3
      exact k1 h3
    · intro h4
      have := k2 (by rw [h4]; decide)
      exact ⟨this.2, this.1⟩
    · constructor
      · intro hp2
        obtain ⟨q1, -, -, q4⟩ := Machine.prepareCall_ok H s2 hp2
        rw [hnz, n4] at q1
        rw [hdim] at q4
        refine ⟨?_, q4⟩
        by_contra hlt
        have : s2.la_.toNat < s.nonzeros_.toNat := by omega
        omega
      · rintro ⟨hroom, halloc⟩
        apply Machine.prepareCall_intro
        · rw [hnz, n4]
          exact Int.toNat_le_toNat hroom
        · rw [hdim]; exact p2
        · rw [hdim]; exact p3
        · rw [hdim]; exact halloc
    · intro hp2
      obtain ⟨f1, f2⟩ := Machine.FactorizationLoop_first fl H K A fuel s2 hp2
      constructor
      · intro y hy
        rw [hloop] at hy
        obtain ⟨evs, he⟩ := f1 y hy
        exact ⟨evs, by rw [he, hlog2, List.append_assoc]; rfl⟩
      · intro f log hy
        rw [hloop] at hy
        obtain ⟨evs, he⟩ := f2 f log hy
        exact ⟨evs, by rw [he, hlog2, List.append_assoc]; rfl⟩
    · intro f hp2
      rw [Machine.FactorizationLoop_retry fl H K A (fuel + 1) s s2 hp hflag hi,
        Machine.FactorizationLoop_unprepared fl H K A fuel s2 _ hp2, e1, receive_log]
  · intro f hi
    rw [Machine.FactorizationLoop_retry_fault fl H K A fuel s f hp hflag hi, receive_log]
  · constructor
    · rintro ⟨s2, hi⟩
      obtain ⟨k1, k2, k3, k4, k5, k6, k7, k8, -⟩ :=
        Machine.increaseWorkspace_ok fl H _ _ _ s2 hi
      obtain ⟨n1, -, c1, hc1, -⟩ := Machine.newArray_ok _ _ _ k7
      obtain ⟨n3, -, c3, hc3, -⟩ := Machine.newArray_ok _ _ _ k8
      have hL : (if (Factorization.callMa27bd K A s).iflag = -3
          then trunc (fl (s.meminc_factor_ * ((Factorization.callMa27bd K A s).ierror : α)))
          else trunc (fl (s.meminc_factor_ * (s.liw_ : α)))) = s2.liw_ := by
        by_cases h3 : (Factorization.callMa27bd K A s).iflag = -3
        · rw [if_pos h3]; exact (k1 h3).1.symm
        · rw [if_neg h3]; exact (k2 h3).1.symm
      have hA : (if (Factorization.callMa27bd K A s).iflag = -3
          then trunc (fl (s.meminc_factor_ * (s.la_ : α)))
          else trunc (fl (s.meminc_factor_ * ((Factorization.callMa27bd K A s).ierror : α))))
            = s2.la_ := by
        by_cases h3 : (Factorization.callMa27bd K A s).iflag = -3
        · rw [if_pos h3]; exact (k1 h3).2.symm
        · rw [if_neg h3]; exact (k2 h3).2.symm
      rw [hL, hA, hc1, hc3]
      exact ⟨n1, k4, n3, k6, rfl, rfl⟩
    · rintro ⟨h1, h2, h3, h4, h5, h6⟩
      have hmin : ∀ k : Int, 0 ≤ k → ipfintMin ≤ k := by
        intro k hk
        exact le_trans (by decide) hk
      unfold Machine.Factorization.increaseWorkspace
      by_cases hf : (Factorization.callMa27bd K A s).iflag = -3
      · rw [if_pos hf] at h1 h2 h3 h4 h5 h6
        rw [if_pos hf]
        have q1 := Machine.toIpfint_of_range _ (hmin _ h1) h2
        have q2 := Machine.toIpfint_of_range _ (hmin _ h3) h4
        obtain ⟨iw, hiw⟩ := Machine.newArray_of_isSome H.ipfints _ h1 h5
        obtain ⟨a, ha⟩ := Machine.newArray_of_isSome H.doubles _ h3 h6
        have r1 : (Factorization.receive K A s).meminc_factor_ = s.meminc_factor_ := rfl
        have r2 : (Factorization.receive K A s).la_ = s.la_ := rfl
        rw [r1, r2, q1, q2]
        dsimp only
        rw [hiw]
        dsimp only
        rw [ha]
        exact ⟨_, rfl⟩
      · rw [if_neg hf] at h1 h2 h3 h4 h5 h6
        rw [if_neg hf]
        have q1 := Machine.toIpfint_of_range _ (hmin _ h1) h2
        have q2 := Machine.toIpfint_of_range _ (hmin _ h3) h4
        obtain ⟨iw, hiw⟩ := Machine.newArray_of_isSome H.ipfints _ h1 h5
        obtain ⟨a, ha⟩ := Machine.newArray_of_isSome H.doubles _ h3 h6
        have r1 : (Factorization.receive K A s).meminc_factor_ = s.meminc_factor_ := rfl
        have r2 : (Factorization.receive K A s).liw_ = s.liw_ := rfl
        rw [r1, r2, q1, q2]
        dsimp only
        rw [hiw]
        dsimp only
        rw [ha]
        exact ⟨_, rfl⟩

/-- C17 at the kernel whose first factorization asks for an integer workspace of 50, from the
lengths (40, 40) with the growth factor 10: with room on the free store the reallocation
succeeds, the lengths become 400 (real) and 500 (integer) and the loop goes on; with a free
store that has no room for 500 places the call ends with the exception of `new`. -/
theorem C17_retry_reallocates_or_ends_witness :
    Machine.Factorization.prepareCall plentyHeap (preparedEngine retryKernel exampleMatrix) =
      Except.ok () ∧
    ((Factorization.callMa27bd retryKernel exampleMatrix
        (preparedEngine retryKernel exampleMatrix)).iflag = -3 ∨
      (Factorization.callMa27bd retryKernel exampleMatrix
        (preparedEngine retryKernel exampleMatrix)).iflag = -4) ∧
    (∃ s2 : Ma27SymLinearSolver ℚ,
      Machine.Factorization.increaseWorkspace id plentyHeap
        (Factorization.callMa27bd retryKernel exampleMatrix
          (preparedEngine retryKernel exampleMatrix)).iflag
        (Factorization.callMa27bd retryKernel exampleMatrix
          (preparedEngine retryKernel exampleMatrix)).ierror
        (Factorization.receive retryKernel exampleMatrix
          (preparedEngine retryKernel exampleMatrix)) = Except.ok s2 ∧
      s2.liw_ = 500 ∧ s2.la_ = 400 ∧ s2.a_.length = s2.la_.toNat ∧
      Machine.FactorizationLoop id plentyHeap retryKernel exampleMatrix (1 + 1)
          (preparedEngine retryKernel exampleMatrix) =
        Machine.FactorizationLoop id plentyHeap retryKernel exampleMatrix 1 s2) ∧
    Machine.FactorizationLoop id (boundedHeap 450) retryKernel exampleMatrix (1 + 1)
        (preparedEngine retryKernel exampleMatrix) =
      some (Except.error (Fault.bad_alloc,
        (preparedEngine retryKernel exampleMatrix).log ++
          [Factorization.bdCall retryKernel exampleMatrix
            (preparedEngine retryKernel exampleMatrix)])) := by
  have hp : Machine.Factorization.prepareCall plentyHeap
      (preparedEngine retryKernel exampleMatrix) = Except.ok () := by
    with_unfolding_all rfl
  have hp' : Machine.Factorization.prepareCall (boundedHeap 450)
      (preparedEngine retryKernel exampleMatrix) = Except.ok () := by
    with_unfolding_all rfl
  have hflag : (Factorization.callMa27bd retryKernel exampleMatrix
        (preparedEngine retryKernel exampleMatrix)).iflag = -3 ∨
      (Factorization.callMa27bd retryKernel exampleMatrix
        (preparedEngine retryKernel exampleMatrix)).iflag = -4 := by
    with_unfolding_all decide
  have h3 : (Factorization.callMa27bd retryKernel exampleMatrix
        (preparedEngine retryKernel exampleMatrix)).iflag = -3 := by
    with_unfolding_all decide
  obtain ⟨t1, -, t3⟩ := C17_retry_reallocates_or_ends id plentyHeap retryKernel exampleMatrix
    1 (preparedEngine retryKernel exampleMatrix) hp hflag
  obtain ⟨s2, hs2⟩ := t3.2 (by with_unfolding_all decide)
  obtain ⟨u1, -, -, -, -, -, -, -, -, u10, u11, -, -, -, -, -⟩ := t1 s2 hs2
  refine ⟨hp, hflag, ⟨s2, hs2, ?_, ?_, u10, u11⟩, ?_⟩
  · rw [(u1 h3).1]
    with_unfolding_all decide
  · rw [(u1 h3).2]
    with_unfolding_all decide
  · exact (C17_retry_reallocates_or_ends id (boundedHeap 450) retryKernel exampleMatrix
      1 (preparedEngine retryKernel exampleMatrix) hp' hflag).2.1 Fault.bad_alloc
      (by with_unfolding_all rfl)

/-- C19, amended.  On the machine, (1) for every call of `Factorization` that returns: the
first kernel invocation is a call of MA27BD whose real length is `trunc (fl (meminc_factor_ *
la_))` if `la_increase_` was set at entry and `la_` otherwise, and likewise for the integer
length with `liw_increase_`, the product being taken once and being a non-negative `ipfint`
value; the last invocation is a call of MA27BD with the lengths `la_` and `liw_` that the
engine has at exit; at exit `la_increase_` (`liw_increase_`) is set exactly when that last call
has status 0 and reports at least 10 real (integer) compressions, whatever the marks were at
entry; and a call that invokes the kernel once exits with the lengths of its first
invocation, so that a call entered without a mark which makes no retry leaves `la_` and `liw_`
unchanged.  (2) When a workspace is marked at entry and the truncated product is not an
`ipfint` value, the call ends in undefined behaviour before any kernel invocation; and
whenever the enlargement of a marked workspace ends in a fault, be it the conversion or the
allocation, the call ends in that fault before any kernel invocation. -/
theorem C19_marks_grow_next_call (fl : α → α) (H : Heap α) (K : Kernel α) (fuel : Nat)
    (A : SymMatrix α) (chk : Bool) (n : Int) (s : Ma27SymLinearSolver α) :
    (∀ (r : ESolveStatus) (s' : Ma27SymLinearSolver α),
      Machine.Factorization fl H K fuel A chk n s = some (Except.ok (r, s')) →
      ∃ (evs : List (KernelCall α)) (first last : KernelCall α) (out : Ma27bdOut α),
        s'.log = s.log ++ evs ∧ evs.head? = some first ∧ evs.getLast? = some last ∧
        first.bdLengths = some
          (if s.la_increase_ = true then trunc (fl (s.meminc_factor_ * (s.la_ : α)))
            else s.la_,
           if s.liw_increase_ = true then trunc (fl (s.meminc_factor_ * (s.liw_ : α)))
             else s.liw_) ∧
        (s.la_increase_ = true →
          0 ≤ trunc (fl (s.meminc_factor_ * (s.la_ : α))) ∧
          trunc (fl (s.meminc_factor_ * (s.la_ : α))) ≤ ipfintMax) ∧
        (s.liw_increase_ = true →
          0 ≤ trunc (fl (s.meminc_factor_ * (s.liw_ : α))) ∧
          trunc (fl (s.meminc_factor_ * (s.liw_ : α))) ≤ ipfintMax) ∧
        last.bdOut = some out ∧ last.bdLengths = some (s'.la_, s'.liw_) ∧
        (s'.la_increase_ = true ↔ out.iflag = 0 ∧ 10 ≤ out.ncmpbr) ∧
        (s'.liw_increase_ = true ↔ out.iflag = 0 ∧ 10 ≤ out.ncmpbi) ∧
        (evs.length = 1 →
          s'.la_ = (if s.la_increase_ = true
            then trunc (fl (s.meminc_factor_ * (s.la_ : α))) else s.la_) ∧
          s'.liw_ = (if s.liw_increase_ = true
            then trunc (fl (s.meminc_factor_ * (s.liw_ : α))) else s.liw_)) ∧
        (s.la_increase_ = false → s.liw_increase_ = false → evs.length = 1 →
          s'.la_ = s.la_ ∧ s'.liw_ = s.liw_)) ∧
    (s.la_increase_ = true →
      ¬ (ipfintMin ≤ trunc (fl (s.meminc_factor_ * (s.la_ : α))) ∧
        trunc (fl (s.meminc_factor_ * (s.la_ : α))) ≤ ipfintMax) →
      Machine.Factorization fl H K fuel A chk n s =
        some (Except.error (Fault.undefined, s.log))) ∧
    (s.la_increase_ = false → s.liw_increase_ = true →
      ¬ (ipfintMin ≤ trunc (fl (s.meminc_factor_ * (s.liw_ : α))) ∧
        trunc (fl (s.meminc_factor_ * (s.liw_ : α))) ≤ ipfintMax) →
      Machine.Factorization fl H K fuel A chk n s =
        some (Except.error (Fault.undefined, s.log))) ∧
    (∀ f : Fault, Machine.Factorization.growIfMarked fl H s = Except.error f →
      Machine.Factorization fl H K fuel A chk n s = some (Except.error (f, s.log))) := by
  refine ⟨?_, ?_, ?_, ?_⟩
  · intro r s' h
    obtain ⟨sg, s1, f, br, bi, hg, hl, -, hs'⟩ :=
      Machine.Factorization_returned fl H K fuel A chk n s s' r h
    obtain ⟨pre, s0, hs1, hlog0, -, -, hnil, hhead, hf1, hf2, hf, hbr, hbi, -, -, -⟩ :=
      Machine.FactorizationLoop_trace fl H K A fuel sg s1 f br bi hl
    obtain ⟨g1, g2, g3, g4, g5, -, g7, -⟩ := Machine.growIfMarked_ok fl H s sg hg
    obtain ⟨f1, -⟩ := Machine.growIfMarked_frame fl H s sg hg
    obtain ⟨-, m2, -, m4, m5⟩ := markIfCompressed_spec br bi s1
    obtain ⟨m6, m7⟩ := markIfCompressed_flags br bi s1
    unfold grown at g1 g2
    rw [g3] at hf1
    rw [g4] at hf2
    have hs1la : s1.la_ = s0.la_ ∧ s1.liw_ = s0.liw_ ∧
        s1.la_increase_ = s0.la_increase_ ∧ s1.liw_increase_ = s0.liw_increase_ := by
      rw [hs1]; exact ⟨rfl, rfl, rfl, rfl⟩
    have hlog : s'.log = s1.log ∧ s'.la_ = s1.la_ ∧ s'.liw_ = s1.liw_ := by
      rw [hs']; split
      · exact ⟨m2, m4, m5⟩
      · exact ⟨rfl, rfl, rfl⟩
    have hla0 : s.la_increase_ = true →
        0 ≤ trunc (fl (s.meminc_factor_ * (s.la_ : α))) ∧
        trunc (fl (s.meminc_factor_ * (s.la_ : α))) ≤ ipfintMax := by
      intro hmk
      obtain ⟨-, a2, a3⟩ := g5 hmk
      have a1 := (Machine.newArray_ok _ _ _ a3).1
      rw [g1, if_pos hmk] at a1 a2
      exact ⟨a1, a2⟩
    have hliw0 : s.liw_increase_ = true →
        0 ≤ trunc (fl (s.meminc_factor_ * (s.liw_ : α))) ∧
        trunc (fl (s.meminc_factor_ * (s.liw_ : α))) ≤ ipfintMax := by
      intro hmk
      obtain ⟨-, a2, a3⟩ := g7 hmk
      have a1 := (Machine.newArray_ok _ _ _ a3).1
      rw [g2, if_pos hmk] at a1 a2
      exact ⟨a1, a2⟩
    have hone : (pre ++ [Factorization.bdCall K A s0]).length = 1 →
        s'.la_ = sg.la_ ∧ s'.liw_ = sg.liw_ := by
      intro hlen
      have hp : pre = [] := by
        cases pre with
        | nil => rfl
        | cons x xs => simp at hlen
      rw [hlog.2.1, hlog.2.2, hs1la.1, hs1la.2.1, hnil hp]
      exact ⟨rfl, rfl⟩
    refine ⟨pre ++ [Factorization.bdCall K A s0], Factorization.bdCall K A sg,
      Factorization.bdCall K A s0, Factorization.callMa27bd K A s0, ?_, hhead,
      List.getLast?_concat _, ?_, hla0, hliw0, rfl, ?_, ?_, ?_, ?_, ?_⟩
    · rw [hlog.1, hs1, receive_log, hlog0, f1, List.append_assoc]
    · show some (sg.la_, sg.liw_) = _
      rw [g1, g2]
    · show some (s0.la_, s0.liw_) = _
      rw [hlog.2.1, hlog.2.2, hs1la.1, hs1la.2.1]
    · rw [hs', hf, hbr]
      by_cases h0 : f = 0
      · rw [if_pos h0, m6, hs1la.2.2.1, hf1]
        simp [h0]
      · rw [if_neg h0, hs1la.2.2.1, hf1]
        simp [h0]
    · rw [hs', hf, hbi]
      by_cases h0 : f = 0
      · rw [if_pos h0, m7, hs1la.2.2.2, hf2]
        simp [h0]
      · rw [if_neg h0, hs1la.2.2.2, hf2]
        simp [h0]
    · intro hlen
      obtain ⟨o1, o2⟩ := hone hlen
      rw [o1, o2, g1, g2]
      exact ⟨rfl, rfl⟩
    · intro e1 e2 hlen
      obtain ⟨o1, o2⟩ := hone hlen
      rw [o1, o2, g1, g2, e1, e2]
      simp
  · intro hmk hr
    apply Machine.Factorization_of_grow_fault
    unfold Machine.Factorization.growIfMarked
    rw [if_pos hmk, Machine.toIpfint_of_not_range _ hr]
  · intro hmk1 hmk2 hr
    apply Machine.Factorization_of_grow_fault
    unfold Machine.Factorization.growIfMarked
    rw [hmk1]
    simp only [Bool.false_eq_true, if_false]
    rw [if_pos hmk2, Machine.toIpfint_of_not_range _ hr]
  · intro f hg
    exact Machine.Factorization_of_grow_fault fl H K fuel A chk n s f hg

/-- C19 at the kernel whose factorization reports 10 real and 9 integer compressions, with
exact arithmetic and room on the free store.  The first call, entered without marks, invokes
MA27BD once, leaves the lengths (40, 40) and marks the real workspace only; the second call
hands MA27BD the lengths (400, 40); and from a marked real workspace of 300000000 places the
call ends in undefined behaviour before any kernel invocation. -/
theorem C19_marks_grow_next_call_witness :
    (preparedEngine (compressingKernel 10 9) exampleMatrix).la_increase_ = false ∧
    (preparedEngine (compressingKernel 10 9) exampleMatrix).liw_increase_ = false ∧
    Machine.Factorization id plentyHeap (compressingKernel 10 9) 1 exampleMatrix false 0
        (preparedEngine (compressingKernel 10 9) exampleMatrix) =
      some (Except.ok (ESolveStatus.S_SUCCESS, markedEngine)) ∧
    (markedEngine.la_, markedEngine.liw_, markedEngine.la_increase_,
      markedEngine.liw_increase_) = (40, 40, true, false) ∧
    Machine.Factorization id plentyHeap (compressingKernel 10 9) 1 exampleMatrix false 0
        markedEngine =
      some (Except.ok (ESolveStatus.S_SUCCESS,
        engineAfterMachineFactorization plentyHeap (compressingKernel 10 9) 1 exampleMatrix
          false 0 markedEngine)) ∧
    (∃ (evs : List (KernelCall ℚ)) (first last : KernelCall ℚ) (out : Ma27bdOut ℚ),
      (engineAfterMachineFactorization plentyHeap (compressingKernel 10 9) 1 exampleMatrix
          false 0 markedEngine).log = markedEngine.log ++ evs ∧
      evs.head? = some first ∧ evs.getLast? = some last ∧
      first.bdLengths = some (400, 40) ∧
      last.bdOut = some out ∧
      last.bdLengths = some
        ((engineAfterMachineFactorization plentyHeap (compressingKernel 10 9) 1 exampleMatrix
          false 0 markedEngine).la_,
         (engineAfterMachineFactorization plentyHeap (compressingKernel 10 9) 1 exampleMatrix
          false 0 markedEngine).liw_) ∧
      ((engineAfterMachineFactorization plentyHeap (compressingKernel 10 9) 1 exampleMatrix
          false 0 markedEngine).la_increase_ = true ↔ out.iflag = 0 ∧ 10 ≤ out.ncmpbr) ∧
      ((engineAfterMachineFactorization plentyHeap (compressingKernel 10 9) 1 exampleMatrix
          false 0 markedEngine).liw_increase_ = true ↔ out.iflag = 0 ∧ 10 ≤ out.ncmpbi)) ∧
    Machine.Factorization id plentyHeap (compressingKernel 10 9) 1 exampleMatrix false 0
        { markedEngine with la_ := 300000000 } =
      some (Except.error (Fault.undefined, markedEngine.log)) := by
  have hF1 : Machine.Factorization id plentyHeap (compressingKernel 10 9) 1 exampleMatrix
        false 0 (preparedEngine (compressingKernel 10 9) exampleMatrix) =
      some (Except.ok (ESolveStatus.S_SUCCESS, markedEngine)) := by
    with_unfolding_all rfl
  have hF2 : Machine.Factorization id plentyHeap (compressingKernel 10 9) 1 exampleMatrix
        false 0 markedEngine =
      some (Except.ok (ESolveStatus.S_SUCCESS,
        engineAfterMachineFactorization plentyHeap (compressingKernel 10 9) 1 exampleMatrix
          false 0 markedEngine)) := by
    set_option maxRecDepth 10000 in with_unfolding_all rfl
  refine ⟨by with_unfolding_all decide, by with_unfolding_all decide, hF1,
    by with_unfolding_all decide, hF2, ?_, ?_⟩
  · obtain ⟨evs, first, last, out, h1, h2, h3, h4, -, -, h7, h8, h9, h10, -, -⟩ :=
      (C19_marks_grow_next_call id plentyHeap (compressingKernel 10 9) 1 exampleMatrix false 0
        markedEngine).1 _ _ hF2
    refine ⟨evs, first, last, out, h1, h2, h3, ?_, h7, h8, h9, h10⟩
    rw [h4]
    with_unfolding_all decide
  · exact (C19_marks_grow_next_call id plentyHeap (compressingKernel 10 9) 1 exampleMatrix
      false 0 { markedEngine with la_ := 300000000 }).2.1 (by with_unfolding_all decide)
      (by with_unfolding_all decide)

end Ipopt
